import Mathlib

/-!
# Validator.js: a shallow embedding of the validation engine

The development follows `src/Validator.js`: the test table `Validator.Tests`,
`Validator.prototype.check` and `Validator.prototype.run`.  JavaScript values are
embedded as follows.

* A string is the list of its characters (`JSString`); it stands for the well-formed
  sequence of UTF-16 code units that encodes them.  A character outside the Basic
  Multilingual Plane is two code units, which is what the property `length` counts
  (`utf16Length`, read by the tests `length`, `min` and `max`); a string with an unpaired
  surrogate is outside the model.  The test `creditcard` reads the length and the units
  of a value only after the test `number` has passed it, and such a value holds white
  space and ASCII characters only, one code unit each.
* A number is `JSNum`: NaN, the two infinities, or a finite value kept as the exact
  rational it denotes.  Conversions from text and arithmetic round to the nearest
  IEEE-754 binary64 value (`roundDouble`).  The sign of zero is not represented: no
  operation of the source distinguishes `-0` from `0`.
* A call that throws returns `Except.error`.
-/

namespace JS

/-- A JavaScript string as the list of its characters (Unicode scalar values). -/
abbrev JSString := List Char

/-- The errors the embedded code can raise. -/
inductive JSError where
  | typeError (msg : String)
  deriving DecidableEq

deriving instance DecidableEq for Except

/-- WhiteSpace and LineTerminator code units: the class `\s` of regular expressions and
the characters `ToNumber` strips from both ends of a string. -/
def isWhiteSpace (c : Char) : Bool :=
  let n := c.toNat
  n == 9 || n == 10 || n == 11 || n == 12 || n == 13 || n == 32 || n == 0xA0 ||
  n == 0x1680 || (0x2000 ≤ n && n ≤ 0x200A) || n == 0x2028 || n == 0x2029 ||
  n == 0x202F || n == 0x205F || n == 0x3000 || n == 0xFEFF

/-- Decimal digit `0`..`9`. -/
def isDigit (c : Char) : Bool := 48 ≤ c.toNat && c.toNat ≤ 57

/-- Value of a decimal digit. -/
def digitVal (c : Char) : Nat := c.toNat - 48

/-- Mathematical value of a sequence of decimal digits. -/
def decVal (ds : List Char) : Nat := ds.foldl (fun a c => 10 * a + digitVal c) 0

/-- Hexadecimal digit. -/
def isHexDigit (c : Char) : Bool :=
  isDigit c || (97 ≤ c.toNat && c.toNat ≤ 102) || (65 ≤ c.toNat && c.toNat ≤ 70)

/-- Value of a hexadecimal digit. -/
def hexDigitVal (c : Char) : Nat :=
  if isDigit c then c.toNat - 48
  else if 97 ≤ c.toNat then c.toNat - 87
  else c.toNat - 55

/-- Digit test for the radices 2, 8 and 16 of a non-decimal integer literal. -/
def isRadixDigit (radix : Nat) (c : Char) : Bool :=
  isHexDigit c && decide (hexDigitVal c < radix)

/-- Mathematical value of a sequence of digits in the given radix. -/
def radixVal (radix : Nat) (ds : List Char) : Nat :=
  ds.foldl (fun a c => radix * a + hexDigitVal c) 0

/-! ## Numbers -/

/-- A JavaScript Number. -/
inductive JSNum where
  | nan : JSNum
  | inf (neg : Bool) : JSNum
  | fin (q : ℚ) : JSNum
  deriving DecidableEq

/-- The rational `2 ^ e` for an integer exponent. -/
def pow2 (e : Int) : ℚ :=
  if 0 ≤ e then ((2 ^ e.toNat : Nat) : ℚ) else mkRat 1 (2 ^ (-e).toNat)

/-- Binary logarithm of a natural number, rounded down (`0` for `0`); the first argument
bounds the number of halvings. -/
def log2Aux : Nat → Nat → Nat
  | 0, _ => 0
  | fuel + 1, n => if n < 2 then 0 else log2Aux fuel (n / 2) + 1

/-- Binary logarithm of a natural number, rounded down. -/
def natLog2 (n : Nat) : Nat := log2Aux n n

/-- The exponent `e` with `2 ^ e ≤ a < 2 ^ (e + 1)`, for a positive rational `a`. -/
def floorLog2 (a : ℚ) : Int :=
  let e0 : Int := (natLog2 a.num.natAbs : Int) - (natLog2 a.den : Int)
  if pow2 e0 ≤ a then e0 else e0 - 1

/-- Integer part of a non-negative rational. -/
def ratFloorNat (k : ℚ) : Nat := k.num.natAbs / k.den

/-- Round a non-negative rational to the nearest integer, ties to the even one. -/
def roundHalfEven (k : ℚ) : Nat :=
  let n := ratFloorNat k
  let r := k - (n : ℚ)
  if 2 * r < 1 then n
  else if 1 < 2 * r then n + 1
  else if n % 2 = 0 then n else n + 1

/-- Nearest binary64 value of a positive rational (53-bit significand, least exponent
-1022, ties to even, overflow to infinity). -/
def roundDoublePos (a : ℚ) : JSNum :=
  let e := max (floorLog2 a) (-1022)
  let ulp := pow2 (e - 52)
  let r := (roundHalfEven (a / ulp) : ℚ) * ulp
  if pow2 1024 ≤ r then .inf false else .fin r

/-- Negation of a Number. -/
def JSNum.neg : JSNum → JSNum
  | .nan => .nan
  | .inf b => .inf (!b)
  | .fin q => .fin (-q)

/-- The Number value for a rational: the nearest binary64 value.  Integers of absolute
value at most `2 ^ 53` are representable and returned as they are. -/
def roundDouble (q : ℚ) : JSNum :=
  if q.den = 1 ∧ q.num.natAbs ≤ 2 ^ 53 then .fin q
  else if 0 < q then roundDoublePos q
  else (roundDoublePos (-q)).neg

/-- The predicate `isNaN` on Numbers. -/
def JSNum.isNaN : JSNum → Bool
  | .nan => true
  | _ => false

/-- ToBoolean on a Number: `0` and NaN are falsy. -/
def JSNum.truthy : JSNum → Bool
  | .nan => false
  | .inf _ => true
  | .fin q => decide (q ≠ 0)

/-- Number addition. -/
def JSNum.add : JSNum → JSNum → JSNum
  | .nan, _ => .nan
  | _, .nan => .nan
  | .inf a, .inf b => if a = b then .inf a else .nan
  | .inf a, .fin _ => .inf a
  | .fin _, .inf b => .inf b
  | .fin p, .fin q => roundDouble (p + q)

/-- Number subtraction. -/
def JSNum.sub (x y : JSNum) : JSNum := x.add y.neg

/-- Number multiplication. -/
def JSNum.mul : JSNum → JSNum → JSNum
  | .nan, _ => .nan
  | _, .nan => .nan
  | .inf a, .inf b => .inf (a != b)
  | .inf a, .fin q => if q = 0 then .nan else .inf (a != decide (q < 0))
  | .fin p, .inf b => if p = 0 then .nan else .inf (b != decide (p < 0))
  | .fin p, .fin q => roundDouble (p * q)

/-- Truncation of a rational toward zero. -/
def ratTrunc (q : ℚ) : Int :=
  if 0 ≤ q then (ratFloorNat q : Int) else -(ratFloorNat (-q) : Int)

/-- The remainder operator `%`: the result has the sign of the dividend and is exact. -/
def JSNum.mod : JSNum → JSNum → JSNum
  | .nan, _ => .nan
  | _, .nan => .nan
  | .inf _, _ => .nan
  | .fin p, .inf _ => .fin p
  | .fin p, .fin q => if q = 0 then .nan else .fin (p - q * (ratTrunc (p / q) : ℚ))

/-- The comparison `x <= y` on Numbers (false when either side is NaN). -/
def JSNum.le : JSNum → JSNum → Bool
  | .nan, _ => false
  | _, .nan => false
  | .inf a, .inf b => a || !b
  | .inf a, .fin _ => a
  | .fin _, .inf b => !b
  | .fin p, .fin q => decide (p ≤ q)

/-- The comparison `x >= y` on Numbers. -/
def JSNum.ge (x y : JSNum) : Bool := y.le x

/-- Strict and loose equality of two Numbers. -/
def JSNum.eq : JSNum → JSNum → Bool
  | .nan, _ => false
  | _, .nan => false
  | .inf a, .inf b => a == b
  | .inf _, .fin _ => false
  | .fin _, .inf _ => false
  | .fin p, .fin q => decide (p = q)

/-- The Number for a natural number literal of the source. -/
def JSNum.ofNat (n : Nat) : JSNum := roundDouble (n : ℚ)

/-! ## Strings and conversions -/

/-- The number of UTF-16 code units of a character: one in the Basic Multilingual Plane,
two (a surrogate pair) outside it. -/
def unitCount (c : Char) : Nat := if c.toNat < 0x10000 then 1 else 2

/-- The property `length` of a string: the number of its UTF-16 code units. -/
def utf16Length (s : JSString) : Nat := (s.map unitCount).sum

/-- The string with white space removed from both ends. -/
def trim (s : JSString) : JSString :=
  ((s.dropWhile isWhiteSpace).reverse.dropWhile isWhiteSpace).reverse

/-- The value `m * 10 ^ e` of a decimal literal with digits `m` and exponent `e`. -/
def scaleDec (m : Nat) (e : Int) : ℚ :=
  if 0 ≤ e then ((m * 10 ^ e.toNat : Nat) : ℚ) else mkRat m (10 ^ (-e).toNat)

/-- ExponentPart at the end of a decimal literal: the exponent (`0` when the part is
absent), or `none` when the text is not an exponent part. -/
def parseExponent : JSString → Option Int
  | [] => some 0
  | c :: rest =>
    if c = 'e' ∨ c = 'E' then
      match rest with
      | [] => none
      | s :: ds =>
        if s = '+' then
          (if ds ≠ [] ∧ ds.all isDigit then some (decVal ds : Int) else none)
        else if s = '-' then
          (if ds ≠ [] ∧ ds.all isDigit then some (-(decVal ds : Int)) else none)
        else if rest.all isDigit then some (decVal rest : Int)
        else none
    else none

/-- StrUnsignedDecimalLiteral other than `Infinity`: digits, an optional fraction and an
optional exponent, with a digit before or after the point.  The result is the
mathematical value. -/
def parseUnsignedDecimal (s : JSString) : Option ℚ :=
  let ip := s.takeWhile isDigit
  let r1 := s.dropWhile isDigit
  let fp := match r1 with
    | c :: t => if c = '.' then t.takeWhile isDigit else []
    | [] => []
  let r2 := match r1 with
    | c :: t => if c = '.' then t.dropWhile isDigit else r1
    | [] => []
  if ip = [] ∧ fp = [] then none
  else (parseExponent r2).map fun e => scaleDec (decVal (ip ++ fp)) (e - (fp.length : Int))

/-- The text `Infinity`. -/
def infinityText : JSString := ['I', 'n', 'f', 'i', 'n', 'i', 't', 'y']

/-- StrUnsignedDecimalLiteral as a Number. -/
def parseUnsigned (s : JSString) : Option JSNum :=
  if s = infinityText then some (.inf false)
  else (parseUnsignedDecimal s).map roundDouble

/-- StrDecimalLiteral: an unsigned literal with an optional sign. -/
def parseStrDecimal (s : JSString) : Option JSNum :=
  match s with
  | [] => none
  | c :: t =>
    if c = '+' then parseUnsigned t
    else if c = '-' then (parseUnsigned t).map JSNum.neg
    else parseUnsigned s

/-- NonDecimalIntegerLiteral: `0x`, `0o` or `0b` (in either case) followed by at least one
digit of the radix. -/
def parseNonDecimal (s : JSString) : Option JSNum :=
  match s with
  | c0 :: c1 :: ds =>
    let radix : Nat :=
      if c1 = 'x' ∨ c1 = 'X' then 16
      else if c1 = 'o' ∨ c1 = 'O' then 8
      else if c1 = 'b' ∨ c1 = 'B' then 2
      else 0
    if c0 = '0' ∧ radix ≠ 0 ∧ ds ≠ [] ∧ ds.all (isRadixDigit radix) then
      some (roundDouble (radixVal radix ds : ℚ))
    else none
  | _ => none

/-- ToNumber applied to a string (the unary `+` and the implicit conversion of `*`, `%`,
`-` and of comparisons with a Number): white space is stripped, the empty string is `0`,
a StrNumericLiteral is its rounded value and any other text is NaN. -/
def toNumber (s : JSString) : JSNum :=
  let t := trim s
  if t = [] then .fin 0
  else match parseNonDecimal t with
    | some x => x
    | none => (parseStrDecimal t).getD .nan

/-- Number::toString for NaN, the infinities and the integers below `10 ^ 21` in absolute
value.  The remaining Numbers are printed in JavaScript by a shortest-digits algorithm
that is not modelled and are mapped to the empty text; the one use here prints the
double of a one-unit string, which `toNumber_unit` shows to be NaN or a natural number
up to 18. -/
def JSNum.toJSString : JSNum → JSString
  | .nan => ['N', 'a', 'N']
  | .inf false => infinityText
  | .inf true => '-' :: infinityText
  | .fin q =>
    if q.den = 1 ∧ q.num.natAbs < 10 ^ 21 then
      (if q.num < 0 then '-' :: Nat.toDigits 10 q.num.natAbs else Nat.toDigits 10 q.num.natAbs)
    else []

/-- The array index a Number denotes as a property key: a non-negative integer. -/
def JSNum.toIndex : JSNum → Option Nat
  | .fin q => if q.den = 1 ∧ 0 ≤ q.num then some q.num.natAbs else none
  | _ => none

/-- String.prototype.split with a one-unit separator. -/
def split (sep : Char) (s : JSString) : List JSString := s.splitOn sep

/-- Array.prototype.join with the separator `,` (the text of an array of strings). -/
def joinComma : List JSString → JSString
  | [] => []
  | [x] => x
  | x :: y :: rest => x ++ ',' :: joinComma (y :: rest)

/-- ASCII lower-casing of one unit. -/
def lowerUnit (c : Char) : Char :=
  if 65 ≤ c.toNat ∧ c.toNat ≤ 90 then Char.ofNat (c.toNat + 32) else c

/-- ASCII upper-casing of one unit. -/
def upperUnit (c : Char) : Char :=
  if 97 ≤ c.toNat ∧ c.toNat ≤ 122 then Char.ofNat (c.toNat - 32) else c

end JS

/-! ## The libraries the source calls: underscore.js and underscore.string.js -/

namespace Underscore

open JS

/-- Library function `_.isBlank` of underscore.string: `/^\s*$/.test(str)`. -/
def isBlank (s : JSString) : Bool := s.all isWhiteSpace

/-- Library function `_.str.include` of underscore.string, `str.indexOf(needle) !== -1`,
for a one-unit needle. -/
def strInclude (s : JSString) (needle : Char) : Bool := s.contains needle

/-- Library function `_.endsWith` of underscore.string. -/
def endsWith (s ends : JSString) : Bool := ends.isSuffixOf s

/-- Round a rational to the nearest integer, halves away from zero (what
`Number.prototype.toFixed(0)` prints). -/
def roundHalfAway (q : ℚ) : Int :=
  if 0 ≤ q then ((ratFloorNat (q + 1 / 2) : Nat) : Int) else -((ratFloorNat (-q + 1 / 2) : Nat) : Int)

/-- The helper `parseNumber(source)` of underscore.string: `source * 1 || 0`. -/
def parseNumber (x : JSNum) : JSNum := if x.truthy then x else .fin 0

/-- Library function `_.toNumber(str)` of underscore.string 2.x, called with no
`decimals`: `0` for a missing or empty argument, else
`num = parseNumber(parseNumber(str).toFixed(0))` and the result is NaN when `num` is `0`
and `str` is not a run of the digit `0`, and `num` otherwise. -/
def toNumber (arg : Option JSString) : JSNum :=
  match arg with
  | none => .fin 0
  | some str =>
    if str = [] then .fin 0
    else
      let num : JSNum := match parseNumber (JS.toNumber str) with
        | .fin q => if |q| < 10 ^ 21 then roundDouble (roundHalfAway q : ℚ) else .fin q
        | x => x
      if num = .fin 0 ∧ ¬ (str.all (fun c => c = '0')) then .nan else num

end Underscore

/-! ## Regular expressions

The patterns of the source are anchored at both ends and use only character classes,
sequencing, alternation and bounded or unbounded repetition, so `RegExp.prototype.test`
holds exactly when the whole string belongs to the language of the pattern.  Membership
is computed with derivatives. -/

namespace JS

/-- Regular expressions over code units. -/
inductive Regex where
  | fail : Regex
  | eps : Regex
  | unit (p : Char → Bool) : Regex
  | seq (a b : Regex) : Regex
  | alt (a b : Regex) : Regex
  | star (a : Regex) : Regex

namespace Regex

/-- Whether the expression matches the empty string. -/
def nullable : Regex → Bool
  | fail => false
  | eps => true
  | unit _ => false
  | seq a b => a.nullable && b.nullable
  | alt a b => a.nullable || b.nullable
  | star _ => true

/-- The derivative of an expression by one unit. -/
def deriv (c : Char) : Regex → Regex
  | fail => fail
  | eps => fail
  | unit p => if p c then eps else fail
  | seq a b => if a.nullable then alt (seq (a.deriv c) b) (b.deriv c) else seq (a.deriv c) b
  | alt a b => alt (a.deriv c) (b.deriv c)
  | star a => seq (a.deriv c) (star a)

/-- Whether the whole string matches the expression. -/
def «matches» : Regex → JSString → Bool
  | r, [] => r.nullable
  | r, c :: cs => «matches» (r.deriv c) cs

/-- The quantifier `?`. -/
def opt (r : Regex) : Regex := alt r eps

/-- The quantifier `+`. -/
def plus (r : Regex) : Regex := seq r (star r)

/-- The quantifier `{n}`. -/
def rep : Nat → Regex → Regex
  | 0, _ => eps
  | n + 1, r => seq r (rep n r)

/-- The quantifier `{n,m}` for `n ≤ m`: `n` copies followed by `m - n` optional ones. -/
def repRange (n m : Nat) (r : Regex) : Regex := seq (rep n r) (rep (m - n) (opt r))

/-- A single literal unit. -/
def lit (c : Char) : Regex := unit (fun x => x == c)

/-- The class `\d` (and `[0-9]`). -/
def digit : Regex := unit isDigit

/-- The sequence of the expressions of a list. -/
def cat : List Regex → Regex
  | [] => eps
  | [r] => r
  | r :: rs => seq r (cat rs)

end Regex

/-- The class `[A-Z]` on one unit. -/
def isUpperAZ (c : Char) : Bool := 65 ≤ c.toNat && c.toNat ≤ 90

/-- The class `[ABCEGHJKLMNPRSTVXY]` on one unit. -/
def isPostalLetter (c : Char) : Bool :=
  ['A', 'B', 'C', 'E', 'G', 'H', 'J', 'K', 'L', 'M', 'N', 'P', 'R', 'S', 'T', 'V', 'X', 'Y'].contains c

/-- A class under the flag `i`: a unit matches when its canonical (upper-case) form is in
the class.  The classes of the source hold ASCII units only, and no unit outside ASCII
is canonicalised to an ASCII one. -/
def ignoreCase (p : Char → Bool) (c : Char) : Bool := p (upperUnit c)

/-- The pattern `/^[A-Z0-9._%+-]+@[A-Z0-9.-]+\\.[A-Z]{2,4}$/i` of the test `email`. -/
def emailRe : Regex :=
  Regex.cat [
    Regex.plus (.unit (ignoreCase fun c => isUpperAZ c || isDigit c || ['.', '_', '%', '+', '-'].contains c)),
    Regex.lit '@',
    Regex.plus (.unit (ignoreCase fun c => isUpperAZ c || isDigit c || ['.', '-'].contains c)),
    Regex.lit '.',
    Regex.repRange 2 4 (.unit (ignoreCase isUpperAZ))]

/-- The class `[-. ]`. -/
def isPhoneSep (c : Char) : Bool := ['-', '.', ' '].contains c

/-- The pattern
`/^(?:\\+?1[-. ]?)?\\(?([0-9]{3})\\)?[-. ]?([0-9]{3})[-. ]?([0-9]{4})$/` of the test
`phone-us`. -/
def phoneUsRe : Regex :=
  Regex.cat [
    Regex.opt (Regex.cat [Regex.opt (Regex.lit '+'), Regex.lit '1', Regex.opt (.unit isPhoneSep)]),
    Regex.opt (Regex.lit '('),
    Regex.rep 3 Regex.digit,
    Regex.opt (Regex.lit ')'),
    Regex.opt (.unit isPhoneSep),
    Regex.rep 3 Regex.digit,
    Regex.opt (.unit isPhoneSep),
    Regex.rep 4 Regex.digit]

/-- The pattern `/^\\d{5}(-\\d{4})?$/` of the test `zip-us`. -/
def zipUsRe : Regex :=
  Regex.seq (Regex.rep 5 Regex.digit) (Regex.opt (Regex.seq (Regex.lit '-') (Regex.rep 4 Regex.digit)))

/-- The body `[ABCEGHJKLMNPRSTVXY]{1}\\d{1}[A-Z]{1} *\\d{1}[A-Z]{1}\\d{1}` of the Canadian
pattern, with the way a class reads a unit as a parameter (as written, or under `i`). -/
def zipCaBody (cls : (Char → Bool) → Char → Bool) : Regex :=
  Regex.cat [
    Regex.rep 1 (.unit (cls isPostalLetter)),
    Regex.rep 1 Regex.digit,
    Regex.rep 1 (.unit (cls isUpperAZ)),
    Regex.star (Regex.lit ' '),
    Regex.rep 1 Regex.digit,
    Regex.rep 1 (.unit (cls isUpperAZ)),
    Regex.rep 1 Regex.digit]

/-- The pattern `/^[ABCEGHJKLMNPRSTVXY]{1}\\d{1}[A-Z]{1} *\\d{1}[A-Z]{1}\\d{1}$/i` of the
test `zip-ca`. -/
def zipCaRe : Regex := zipCaBody ignoreCase

/-- The pattern
`/(^\\d{5}(-\\d{4})?$)|(^[ABCEGHJKLMNPRSTVXY]{1}\\d{1}[A-Z]{1} *\\d{1}[A-Z]{1}\\d{1}$)/` of
the test `zip-us-ca`; it carries no flag. -/
def zipUsCaRe : Regex := Regex.alt zipUsRe (zipCaBody fun p => p)

/-- The pattern `/^(\\d{1,2}):(\\d{2})(:\\d{2})?([ap]m)?$/` of the test `time`. -/
def timeRe : Regex :=
  Regex.cat [
    Regex.repRange 1 2 Regex.digit,
    Regex.lit ':',
    Regex.rep 2 Regex.digit,
    Regex.opt (Regex.seq (Regex.lit ':') (Regex.rep 2 Regex.digit)),
    Regex.opt (Regex.seq (.unit fun c => c == 'a' || c == 'p') (Regex.lit 'm'))]

end JS

/-! ## The data model of `Validator.js` -/

open JS

/-- The values a test or a pretest returns: `undefined`, a boolean or a string. -/
inductive JSVal where
  | undefined : JSVal
  | bool (b : Bool) : JSVal
  | str (s : JSString) : JSVal
  deriving DecidableEq

/-- ToBoolean, the conversion `!result` applies: `undefined`, `false` and the empty
string are falsy. -/
def JSVal.truthy : JSVal → Bool
  | .undefined => false
  | .bool b => b
  | .str s => !s.isEmpty

/-- The part of a `Validator.Field` that validation reads.

* `val` is `field.$el.val()`, a string no longer than a JavaScript engine can hold;
* `checked` is `field.$el.prop("checked")`, `none` for `undefined`;
* `groupChecked` lists the `checked` property of the elements of the document that share
  the `name` attribute of the element (what `any-checked` iterates over);
* `tests` is `field.tests`, the configured test specs in order (the empty list for a
  field configured without `tests`);
* `pretest` is `none` when `field.pretest` is undefined and otherwise the value the
  call `field.pretest()` returns. -/
structure Validator.Field where
  name : JSString := []
  val : JSString := []
  checked : Option Bool := none
  groupChecked : List Bool := []
  tests : List JSString := []
  pretest : Option JSVal := none
  val_length : val.length < 2 ^ 32 := by decide
  deriving DecidableEq

/-- The value of the variable `test` of `check`: the spec itself, a string, or the array
`parts.splice(0, 1)` when the spec holds a colon. -/
inductive Validator.TestKey where
  | str (s : JSString) : Validator.TestKey
  | arr (xs : List JSString) : Validator.TestKey
  deriving DecidableEq

/-- ToString of the variable `test`, as applied by the property accesses
`Validator.Tests[test]` and `this.messages[test]`: an array is joined with commas. -/
def Validator.TestKey.text : Validator.TestKey → JSString
  | .str s => s
  | .arr xs => joinComma xs

/-- The object `new Validator.Result(field, passed, failedTest)`; `failedTest` is `none`
when the third argument is missing. -/
structure Validator.Result where
  field : Option Validator.Field
  passed : Bool
  failedTest : Option Validator.TestKey
  deriving DecidableEq

/-- The value of `args` in `check`: `none` while the variable is undefined. -/
abbrev Validator.Args := Option (List JSString)

namespace Validator.Tests

open Underscore

/-- The test `required(field, allowWhitespace)`.  The second parameter receives `args`,
which is undefined (falsy) or an array (truthy). -/
def required (field : Field) (allowWhitespace : Args) : JSVal :=
  match allowWhitespace with
  | none => .bool (!isBlank field.val)
  | some _ => .bool (decide (field.val ≠ []))

/-- The test `number`: `!_.isNaN(+field.$el.val())`. -/
def number (field : Field) : JSVal :=
  .bool (!(JS.toNumber field.val).isNaN)

/-- The test `length`.  Reading `args[0]` throws a TypeError when `args` is undefined. -/
def length (field : Field) (args : Args) : Except JSError JSVal :=
  let val := field.val
  if !isBlank val then
    match args with
    | none => .error (.typeError "Cannot read property '0' of undefined")
    | some a => .ok (.bool ((JSNum.ofNat (utf16Length val)).eq (Underscore.toNumber a.head?)))
  else .ok (.bool true)

/-- The test `min`. -/
def min (field : Field) (args : Args) : Except JSError JSVal :=
  let val := field.val
  if !isBlank val then
    match args with
    | none => .error (.typeError "Cannot read property '0' of undefined")
    | some a => .ok (.bool ((JSNum.ofNat (utf16Length val)).ge (Underscore.toNumber a.head?)))
  else .ok (.bool true)

/-- The test `max`; it has no branch for a blank value. -/
def max (field : Field) (args : Args) : Except JSError JSVal :=
  match args with
  | none => .error (.typeError "Cannot read property '0' of undefined")
  | some a =>
    .ok (.bool ((JSNum.ofNat (utf16Length field.val)).le (Underscore.toNumber a.head?)))

/-- The shape shared by the pattern tests: a blank value passes, any other value must
match the pattern. -/
def patternTest (re : Regex) (val : JSString) : JSVal :=
  if !isBlank val then .bool (re.matches val) else .bool true

/-- The test `email`. -/
def email (field : Field) : JSVal := patternTest emailRe field.val

/-- The test `phone-us`. -/
def «phone-us» (field : Field) : JSVal := patternTest phoneUsRe field.val

/-- The test `zip-us`. -/
def «zip-us» (field : Field) : JSVal := patternTest zipUsRe field.val

/-- The test `zip-ca`. -/
def «zip-ca» (field : Field) : JSVal := patternTest zipCaRe field.val

/-- The test `zip-us-ca`. -/
def «zip-us-ca» (field : Field) : JSVal := patternTest zipUsCaRe field.val

/-- The test `checked`: the property `checked` of the element, as it is. -/
def checked (field : Field) : JSVal :=
  match field.checked with
  | none => .undefined
  | some b => .bool b

/-- The test `any-checked`: whether some element with the name of the field is
checked. -/
def «any-checked» (field : Field) : JSVal :=
  .bool (field.groupChecked.foldl (fun result v => if v then true else result) false)

/-- The test `values`: `_.include(args, val)` for a value that is not blank;
`_.include` is false on an undefined collection. -/
def values (field : Field) (args : Args) : JSVal :=
  let val := field.val
  if !isBlank val then
    match args with
    | none => .bool false
    | some a => .bool (a.contains val)
  else .bool true

/-- The table `numDays` of the test `date`. -/
def numDays : List Nat := [31, 28, 31, 30, 31, 30, 31, 31, 30, 31, 30, 31]

/-- The condition `(!(y % 4) && y % 100) || !(y % 400)` on the text `y`. -/
def leapCondition (y : JSString) : Bool :=
  let n := JS.toNumber y
  (!(n.mod (.ofNat 4)).truthy && (n.mod (.ofNat 100)).truthy) || !(n.mod (.ofNat 400)).truthy

/-- The comparison `d <= numDays[m - 1]` on the texts `d` and `m`: the entry is
undefined, and the comparison false, unless `m - 1` is an index of the table. -/
def dayWithinMonth (days : List Nat) (m d : JSString) : Bool :=
  match ((JS.toNumber m).sub (.ofNat 1)).toIndex with
  | none => false
  | some i =>
    match days.get? i with
    | none => false
    | some n => (JS.toNumber d).le (.ofNat n)

/-- The test `date`. -/
def date (field : Field) : JSVal :=
  let val := field.val
  let parts := if strInclude val '/' then split '/' val else split '-' val
  if !isBlank val then
    match parts with
    | [m, d, y] =>
      if !isBlank m && !(JS.toNumber m).isNaN && !isBlank d && !(JS.toNumber d).isNaN
          && !isBlank y && !(JS.toNumber y).isNaN then
        let days := if leapCondition y then numDays.set 1 29 else numDays
        .bool (dayWithinMonth days m d)
      else .bool false
    | _ => .bool false
  else .bool true

/-- The array `parts` with its last entry replaced by `f` of it. -/
def mapLast (f : JSString → JSString) : List JSString → List JSString
  | [] => []
  | [p] => [f p]
  | p :: q :: rest => p :: mapLast f (q :: rest)

/-- The body of the loop of the test `time` at index `i`: the bound the part must
respect, if any. -/
def timePartOk (hourBottomLimit hourTopLimit : Nat) (i : Nat) (part : JSString) : Bool :=
  let n := JS.toNumber part
  if i = 0 then n.ge (.ofNat hourBottomLimit) && n.le (.ofNat hourTopLimit)
  else if i = 1 ∨ i = 2 then n.ge (.ofNat 0) && n.le (.ofNat 59)
  else true

/-- The test `time`.  The value is lower-cased unit by unit in ASCII: the pattern admits
digits, colons and the letters `a`, `p`, `m` only, and no unit outside ASCII lower-cases
to one of these. -/
def time (field : Field) : JSVal :=
  let val := field.val.map lowerUnit
  let parts := split ':' val
  let timeIndicator :=
    if endsWith val ['a', 'm'] || endsWith val ['p', 'm'] then val.drop (val.length - 2) else []
  if !isBlank val then
    let suffixed : Bool := decide (timeIndicator = ['a', 'm']) || decide (timeIndicator = ['p', 'm'])
    let parts := if suffixed then mapLast (fun p => p.take (p.length - 2)) parts else parts
    let hourTopLimit := if suffixed then 12 else 23
    let hourBottomLimit := if suffixed then 1 else 0
    if timeRe.matches val then
      .bool (parts.enum.all fun ip => timePartOk hourBottomLimit hourTopLimit ip.1 ip.2)
    else .bool false
  else .bool true

/-- An entry of the array `vals` of the test `creditcard`: one unit of the value, or the
array of units an iteration of the loop stored in its place. -/
inductive Cell where
  | unit (c : Char) : Cell
  | arr (cs : List Char) : Cell
  deriving DecidableEq

/-- The text of an entry when it is used as an operand of `*`. -/
def Cell.text : Cell → JSString
  | .unit c => [c]
  | .arr cs => joinComma (cs.map fun c => [c])

/-- The assignment `vals[i] = (vals[i] * 2).toString().split("")`. -/
def doubleAt (vals : List Cell) (i : Nat) : List Cell :=
  match vals.get? i with
  | none => vals
  | some cell => vals.set i (.arr ((JS.toNumber cell.text).mul (.ofNat 2)).toJSString)

/-- The loop `for (var i = vals.length - 2; i >= 0; i -= 2)` of the test `creditcard`.
The first argument is `i + 2`, a natural number throughout: the loop runs while it is
at least `2`, and subtracting `2` from `i + 2` leaves the next `i + 2`. -/
def luhnLoop : Nat → List Cell → List Cell
  | i + 2, vals => luhnLoop i (doubleAt vals i)
  | _, vals => vals

/-- The library call `_.flatten(vals)`. -/
def flatten : List Cell → List Char
  | [] => []
  | .unit c :: rest => c :: flatten rest
  | .arr cs :: rest => cs ++ flatten rest

/-- The call `_.reduce(vals, function (memo, num) { return memo + (+num); }, 0)`. -/
def digitSum (vals : List Char) : JSNum :=
  vals.foldl (fun memo num => memo.add (JS.toNumber [num])) (.ofNat 0)

/-- The card type chosen from the prefixes and the length of the value. -/
def cardType (val : JSString) : JSString :=
  let mcAmexPrefix := JS.toNumber (val.take 2)
  let visaPrefix := JS.toNumber (val.take 1)
  let discoverPrefix := JS.toNumber (val.take 4)
  if mcAmexPrefix.ge (.ofNat 51) && mcAmexPrefix.le (.ofNat 55) && val.length == 16 then
    "mastercard".toList
  else if (mcAmexPrefix.eq (.ofNat 34) || mcAmexPrefix.eq (.ofNat 37)) && val.length == 15 then
    "amex".toList
  else if visaPrefix.eq (.ofNat 4) && (val.length == 13 || val.length == 16) then
    "visa".toList
  else if discoverPrefix.eq (.ofNat 6011) && val.length == 16 then
    "discover".toList
  else []

/-- The test `creditcard`. -/
def creditcard (field : Field) : JSVal :=
  let val := field.val
  let vals := val.map Cell.unit
  if !isBlank val then
    if (number field).truthy then
      let vals := luhnLoop vals.length vals
      let vals := flatten vals
      if !((digitSum vals).mod (.ofNat 10)).truthy then .str (cardType val)
      else .bool false
    else .bool false
  else .bool true

/-- The table `Validator.Tests` as the source defines it: the function stored under a
name, called with `(field, args)`; `none` for a name the table does not define.  The
properties every object inherits, such as `constructor` and `toString`, and tests a
caller adds to the table are not modelled. -/
def lookup (name : JSString) : Option (Field → Args → Except JSError JSVal) :=
  if name = "required".toList then some fun f a => .ok (required f a)
  else if name = "number".toList then some fun f _ => .ok (number f)
  else if name = "length".toList then some length
  else if name = "min".toList then some min
  else if name = "max".toList then some max
  else if name = "email".toList then some fun f _ => .ok (email f)
  else if name = "phone-us".toList then some fun f _ => .ok («phone-us» f)
  else if name = "zip-us".toList then some fun f _ => .ok («zip-us» f)
  else if name = "zip-ca".toList then some fun f _ => .ok («zip-ca» f)
  else if name = "zip-us-ca".toList then some fun f _ => .ok («zip-us-ca» f)
  else if name = "checked".toList then some fun f _ => .ok (checked f)
  else if name = "any-checked".toList then some fun f _ => .ok («any-checked» f)
  else if name = "values".toList then some fun f a => .ok (values f a)
  else if name = "date".toList then some fun f _ => .ok (date f)
  else if name = "time".toList then some fun f _ => .ok (time f)
  else if name = "creditcard".toList then some fun f _ => .ok (creditcard f)
  else none

end Validator.Tests

/-! ## `Validator.prototype.check` and `Validator.prototype.run`

The calls to the UI collaborator (error class, error label, tooltip) are left out: they
do not influence the result.  `check` returns, next to its `Result`, the calls of tests
it made, in order. -/

namespace Validator

/-- One evaluation `Validator.Tests[test](field, args, this)`: the value of `test`, the
value of `args` passed and the value returned. -/
structure Call where
  test : TestKey
  args : Args
  result : JSVal
  deriving DecidableEq

/-- What a call of `check` produces: the Result returned and the tests evaluated. -/
structure CheckOutcome where
  result : Result
  calls : List Call
  deriving DecidableEq

/-- The head of an iteration of the loop of `check`: the values of `test` and `args`
after
`if (_.str.include(test, ":")) { parts = spec.split(":"); test = parts.splice(0, 1); args = parts; }`.
The variable `args` is declared with `var` and not assigned otherwise, so it keeps the
value of the iteration before when the spec holds no colon. -/
def parseSpec (args : Args) (spec : JSString) : TestKey × Args :=
  if Underscore.strInclude spec ':' then
    let parts := split ':' spec
    (.arr (parts.take 1), some (parts.drop 1))
  else (.str spec, args)

/-- The call `Validator.Tests[test](field, args, this)`; calling a missing entry throws a
TypeError. -/
def callTest (field : Field) (test : TestKey) (args : Args) : Except JSError JSVal :=
  match Tests.lookup test.text with
  | none => .error (.typeError "Validator.Tests[test] is not a function")
  | some f => f field args

/-- The loop `for (var t = 0; t < field.tests.length; t++)` of `check`, from the specs
still to run and the current value of `args`. -/
def checkLoop (field : Field) : Args → List JSString → Except JSError CheckOutcome
  | _, [] => .ok ⟨⟨some field, true, none⟩, []⟩
  | args, spec :: rest =>
    let test := (parseSpec args spec).1
    let args := (parseSpec args spec).2
    match callTest field test args with
    | .error e => .error e
    | .ok result =>
      if !result.truthy then .ok ⟨⟨some field, false, some test⟩, [⟨test, args, result⟩]⟩
      else
        match checkLoop field args rest with
        | .error e => .error e
        | .ok out => .ok ⟨out.result, ⟨test, args, result⟩ :: out.calls⟩

/-- The method `check(field)`; the argument is `none` for a missing field. -/
def check (field : Option Field) : Except JSError CheckOutcome :=
  match field with
  | none => .ok ⟨⟨none, true, none⟩, []⟩
  | some f =>
    if f.pretest = none ∨ f.pretest = some (.bool true) then checkLoop f none f.tests
    else .ok ⟨⟨some f, true, none⟩, []⟩

end Validator

/-- The part of a Validator that `run` reads: its fields, in declaration order. -/
structure Validator where
  fields : List Validator.Field

namespace Validator

/-- The value `run` returns: the array `failures`, or `true`. -/
inductive RunValue where
  | failures (rs : List Result) : RunValue
  | success : RunValue
  deriving DecidableEq

/-- What a call of `run` produces: the value returned and the outcomes of the calls of
`check` it made, in order. -/
structure RunOutcome where
  value : RunValue
  checks : List CheckOutcome
  deriving DecidableEq

/-- The state of the iteration of `run`: the arrays `failures` and `successes` and the
checks made so far. -/
structure RunState where
  failures : List Result
  successes : List Result
  checks : List CheckOutcome

/-- The iteration `_.each(this.fields, ...)` of `run`. -/
def runLoop : List Field → RunState → Except JSError RunState
  | [], st => .ok st
  | v :: rest, st =>
    match check (some v) with
    | .error e => .error e
    | .ok out =>
      let fieldResult := out.result
      if fieldResult.passed != true then
        runLoop rest ⟨st.failures ++ [fieldResult], st.successes, st.checks ++ [out]⟩
      else
        runLoop rest ⟨st.failures, st.successes ++ [fieldResult], st.checks ++ [out]⟩

/-- The method `run()`. -/
def run (self : Validator) : Except JSError RunOutcome :=
  match runLoop self.fields ⟨[], [], []⟩ with
  | .error e => .error e
  | .ok st =>
    .ok ⟨if st.failures.length > 0 then .failures st.failures else .success, st.checks⟩

end Validator

/-! ## The constructor and `Validator.Form` -/

namespace Validator

/-- The operator `a || b` on values: `a` when it is truthy, `b` otherwise. -/
def jsOr (a b : JSVal) : JSVal := if a.truthy then a else b

/-- The options `showErrors` and `showMessages` of a configuration object, `undefined`
for an option that is omitted. -/
structure Config where
  showErrors : JSVal := .undefined
  showMessages : JSVal := .undefined

/-- The display flags of a Validator. -/
structure Flags where
  showErrors : JSVal
  showMessages : JSVal
  deriving DecidableEq

/-- The assignments `this.showErrors = config.showErrors || true;` and
`this.showMessages = config.showMessages || true;` of the constructor. -/
def flags (config : Config) : Flags :=
  ⟨jsOr config.showErrors (.bool true), jsOr config.showMessages (.bool true)⟩

/-- One element of a jQuery object: its attribute `type` (`none` when it has none), its
property `checked` and its value. -/
structure Element where
  type : Option JSString := none
  checked : Bool := false
  val : JSString := []
  deriving DecidableEq

/-- The part of a `Validator.Field` that `Validator.Form` reads: the name and the jQuery
object `$el`, the list of its elements. -/
structure FormField where
  name : JSString
  el : List Element
  deriving DecidableEq

/-- The field `$els` of a field: `this.$el.length > 1 ? this.$el : null`. -/
def FormField.els (v : FormField) : Option (List Element) :=
  if v.el.length > 1 then some v.el else none

/-- A value stored in a form: a string, a boolean or `undefined`, or the array `_.map`
builds for a group of elements. -/
inductive FormValue where
  | single (x : JSVal) : FormValue
  | group (xs : List JSVal) : FormValue
  deriving DecidableEq

instance : Inhabited FormValue := ⟨.single .undefined⟩

/-- The value read from a jQuery object by
`elType = $el.attr("type"); elType == "radio" || elType == "checkbox" ? $el.prop("checked") : $el.val()`.
The three accessors read the first element; on an empty object `attr` and `val` return
`undefined`. -/
def readValue (el : List Element) : JSVal :=
  match el.head? with
  | none => .undefined
  | some e =>
    if e.type = some "radio".toList ∨ e.type = some "checkbox".toList then .bool e.checked
    else .str e.val

/-- The value `Validator.Form` stores for a field: the value read from `$el` when `$els`
is null, and otherwise the array of the values read from each element of `$els`. -/
def fieldValue (v : FormField) : FormValue :=
  match v.els with
  | none => .single (readValue v.el)
  | some els => .group (els.map fun e => readValue [e])

/-- An entry of `formAdditions`: a literal value, or a function, given by the value its
call returns. -/
inductive Addition where
  | literal (x : FormValue) : Addition
  | function (result : FormValue) : Addition
  deriving DecidableEq

/-- An object with string keys, as the list of its properties in the order of their
creation; the names are ordinary property names (the prototype link `__proto__` is not
modelled). -/
abbrev JSObject := List (JSString × FormValue)

/-- The assignment `obj[key] = value`. -/
def JSObject.set (obj : JSObject) (key : JSString) (value : FormValue) : JSObject :=
  if obj.any (fun p => p.1 == key) then obj.map (fun p => if p.1 = key then (key, value) else p)
  else obj ++ [(key, value)]

/-- The property read `obj[key]`, `none` for a missing property. -/
def JSObject.get (obj : JSObject) (key : JSString) : Option FormValue :=
  (obj.find? (fun p => p.1 == key)).map (fun p => p.2)

/-- The function `Validator.Form(fields, formAdditions)`; `formAdditions` is `none` when
it is undefined and else the list of the properties of the object. -/
def Form (fields : List FormField) (formAdditions : Option (List (JSString × Addition))) :
    JSObject :=
  let form := fields.foldl (fun (form : JSObject) v => form.set v.name (fieldValue v)) []
  match formAdditions with
  | none => form
  | some adds =>
    let additions := adds.foldl
      (fun (additions : JSObject) kv =>
        additions.set kv.1 (match kv.2 with
          | .function result => result
          | .literal x => x)) []
    additions.foldl (fun (form : JSObject) kv => form.set kv.1 kv.2) form

/-- The method `form()`: `Validator.Form(this.fields, this.formAdditions)`. -/
def form (fields : List FormField) (formAdditions : Option (List (JSString × Addition))) :
    JSObject :=
  Form fields formAdditions

end Validator

/-! ## The constructors of fields and buttons, the messages, the scheduler and `clear`

Each field owns the elements of its `$el`: the document is not shared between fields.
The callbacks of a button are opaque and are recorded as calls. -/

namespace JS

/-- String.prototype.split with a separator of two units `a`, `b`, read from the left:
the text is cut at the first place where `a`, `b` follow each other, and reading goes on
after the separator.  `acc` holds, reversed, the units of the current piece. -/
def splitPair (a b : Char) : JSString → JSString → List JSString
  | acc, x :: y :: rest =>
    if x = a ∧ y = b then acc.reverse :: splitPair a b [] rest
    else splitPair a b (x :: acc) (y :: rest)
  | acc, [x] => [(x :: acc).reverse]
  | acc, [] => [acc.reverse]

end JS

namespace Validator

/-- The field `tests` that the constructor `Validator.Field` computes:
`config.tests !== undefined ? config.tests.split(", ") : ""`.  The empty string of the
second branch stands for no test: the loop of `check` runs up to its `length`, 0. -/
def fieldTests (tests : Option JSString) : List JSString :=
  match tests with
  | some s => splitPair ',' ' ' [] s
  | none => []

/-- The object `messages` of a configuration, as the list of its properties (the names
are distinct). -/
abbrev Messages := List (JSString × JSString)

/-- The property read `messages[key]`, `none` for `undefined`. -/
def Messages.get (m : Messages) (key : JSString) : Option JSString :=
  (m.find? (fun p => p.1 == key)).map (fun p => p.2)

/-- The title `check` gives to the tooltip of the error label when the test `test` fails:
`this.messages[test]`, set under the guard `this.showMessages && this.messages`.  The
outer `none` stands for no title set, the inner one for the title `undefined`. -/
def failureTitle (showMessages : JSVal) (messages : Option Messages) (test : TestKey) :
    Option (Option JSString) :=
  match messages with
  | none => none
  | some m => if showMessages.truthy then some (m.get test.text) else none

/-- The title a call of `check` sets: the one of the failing test, which is also the
`failedTest` of the Result returned. -/
def checkTitle (showMessages : JSVal) (messages : Option Messages) (field : Option Field) :
    Except JSError (Option (Option JSString)) :=
  match check field with
  | .error e => .error e
  | .ok out =>
    match out.result.failedTest with
    | none => .ok none
    | some test => .ok (failureTitle showMessages messages test)

/-- The option `async` of a button configuration, `undefined` when omitted. -/
structure ButtonConfig where
  async : JSVal := .undefined

/-- The part of a `Validator.Button` the click handler of a submit button reads. -/
structure Button where
  async : JSVal
  deriving DecidableEq

/-- The constructor `Validator.Button`: `this.async = config.async || false;`. -/
def Button.new (config : ButtonConfig) : Button := ⟨jsOr config.async (.bool false)⟩

/-- The callbacks of a button. -/
inductive Callback where
  | success : Callback
  | fail : Callback
  | always : Callback
  deriving DecidableEq

/-- What a click on a submit button produces: the outcome of the call of `run`, the
callbacks applied, in order, whether `event.preventDefault()` was called, and the value
the handler returns. -/
structure ClickOutcome where
  ran : RunOutcome
  calls : List Callback
  defaultPrevented : Bool
  returned : Bool
  deriving DecidableEq

/-- The click handler of a button of type `Validator.ButtonType.SUBMIT`. -/
def submitClick (self : Validator) (vButton : Button) : Except JSError ClickOutcome :=
  match run self with
  | .error e => .error e
  | .ok out =>
    if out.value ≠ .success then .ok ⟨out, [.fail, .always], true, false⟩
    else .ok ⟨out, [.success, .always], false, !vButton.async.truthy⟩

/-- The value `$el.val()` of a jQuery object: the value of its first element, `undefined`
on an empty object. -/
def elVal (el : List Element) : JSVal :=
  match el.head? with
  | none => .undefined
  | some e => .str e.val

/-- The loop of `initialize` that fills `this.defaults`:
`this.defaults[field.name] = field.$el.val();` for each field in turn, the fields being
read through their name and their value. -/
def recordDefaults {α : Type} (name : α → JSString) (val : α → JSVal) (fields : List α) :
    JSObject :=
  fields.foldl (fun (defaults : JSObject) v => defaults.set (name v) (.single (val v))) []

/-- A field as the scheduler reads it: the part validation reads, and the counter
`blurCount` of the field registered on its element. -/
structure TickField where
  field : Field
  blurCount : Nat := 0
  deriving DecidableEq

/-- The comparison `v.$el.val() != that.defaults[v.name]` of a string with a recorded
default.  A default is a string or `undefined`, the values `val()` returns; a string is
unequal to `undefined` (the other shapes of a stored value are never recorded). -/
def valueDiffers (val : JSString) (recorded : Option FormValue) : Bool :=
  match recorded with
  | some (.single (.str s)) => val != s
  | _ => true

/-- The predicate of the `_.filter` of a tick:
`v.$el.val() != that.defaults[v.name] && v.$el.data("vField").blurCount > 0`. -/
def tickFilter (defaults : JSObject) (v : TickField) : Bool :=
  valueDiffers v.field.val (defaults.get v.field.name) && decide (v.blurCount > 0)

/-- What a tick of the scheduler produces: the fields handed to `check`, in order, the
outcomes of the calls that returned, and the error of the call that threw, which ends the
tick. -/
structure TickOutcome where
  checked : List TickField
  outcomes : List CheckOutcome
  thrown : Option JSError
  deriving DecidableEq

/-- The iteration `_.each(fieldsToCheck, function (v) { that.check(v); })`. -/
def tickLoop : List TickField → TickOutcome
  | [] => ⟨[], [], none⟩
  | v :: rest =>
    match check (some v.field) with
    | .error e => ⟨[v], [], some e⟩
    | .ok out =>
      let r := tickLoop rest
      ⟨v :: r.checked, out :: r.outcomes, r.thrown⟩

/-- The function `setInterval` runs every 1000 ms. -/
def tick (defaults : JSObject) (fields : List TickField) : TickOutcome :=
  let fieldsToCheck := fields.filter (tickFilter defaults)
  tickLoop fieldsToCheck

/-- The text `$el.val(value)` stores for a recorded default: the string itself, and the
empty string for `undefined` (jQuery treats `null` and `undefined` as `""`). -/
def storedText (recorded : Option FormValue) : JSString :=
  match recorded with
  | some (.single (.str s)) => s
  | _ => []

/-- The body of the iteration of `clear` on one field: `elType` is read from the first
element, `prop("checked", false)` and `val(...)` write to every element of `$el`. -/
def clearField (defaults : JSObject) (v : FormField) : FormField :=
  let elType := v.el.head?.bind fun e => e.type
  if elType = some "radio".toList ∨ elType = some "checkbox".toList then
    { v with el := v.el.map fun e => { e with checked := false } }
  else
    { v with el := v.el.map fun e => { e with val := storedText (defaults.get v.name) } }

/-- The method `clear()`, as the fields it leaves; `reset()` touches the error markers
only. -/
def clear (defaults : JSObject) (fields : List FormField) : List FormField :=
  fields.map (clearField defaults)

end Validator

/-! # Notions of the specification -/

namespace JS.Regex

/-- The language of a regular expression: the strings it matches as a whole. -/
def lang : Regex → JSString → Prop
  | fail, _ => False
  | eps, s => s = []
  | unit p, s => ∃ c, p c = true ∧ s = [c]
  | seq a b, s => ∃ x y, lang a x ∧ lang b y ∧ s = x ++ y
  | alt a b, s => lang a s ∨ lang b s
  | star a, s => ∃ xs : List JSString, (∀ x ∈ xs, lang a x) ∧ s = xs.flatten

end JS.Regex

namespace Validator

/-- The name part of a test spec: the text before its first colon. -/
def specName (spec : JSString) : JSString := spec.takeWhile (fun c => c != ':')

/-- The evaluation of every configured test in order, were the loop of `check` never
stopped: for each spec the value of `test`, the value of `args` the loop passes, and
what the call produces. -/
def evalAll (field : Field) : Args → List JSString → List (TestKey × Args × Except JSError JSVal)
  | _, [] => []
  | args, spec :: rest =>
    let p := parseSpec args spec
    (p.1, p.2, callTest field p.1 p.2) :: evalAll field p.2 rest

/-- The entry of `evalAll` that a recorded call stands for. -/
def Call.entry (c : Call) : TestKey × Args × Except JSError JSVal := (c.test, c.args, .ok c.result)

/-- The value of `args` once the loop of `check` has gone through `specs`, from the
value `args` it had before. -/
def argsAfter (args : Args) (specs : List JSString) : Args :=
  specs.foldl (fun a spec => (parseSpec a spec).2) args

/-- The names of the built-in tests, the keys of `Validator.Tests`. -/
def builtinTests : List JSString :=
  ["required".toList, "number".toList, "length".toList, "min".toList, "max".toList,
   "email".toList, "phone-us".toList, "zip-us".toList, "zip-ca".toList, "zip-us-ca".toList,
   "checked".toList, "any-checked".toList, "values".toList, "date".toList, "time".toList,
   "creditcard".toList]

/-- The built-in tests that read `args[0]`. -/
def argumentTests : List JSString := ["length".toList, "min".toList, "max".toList]

/-- The sum of the decimal digits of a natural number. -/
def decimalDigitSum (n : Nat) : Nat := ((Nat.toDigits 10 n).map digitVal).sum

/-- The Luhn sum of a sequence of digits listed from the last one leftwards: the
second, fourth, ... digit is doubled and contributes the decimal digits of its double,
the other digits contribute themselves. -/
def luhnTerms : List Nat → Nat
  | [] => 0
  | [d] => d
  | d :: e :: rest => d + decimalDigitSum (2 * e) + luhnTerms rest

/-- The Luhn sum of a string of decimal digits: starting from the second-to-last digit
and moving left, every other digit is doubled. -/
def luhnSum (val : JSString) : Nat := luhnTerms (val.reverse.map digitVal)

/-- The card type of a string of digits by prefix and length, as the specification lists
it; the empty text when no type applies. -/
def cardTypeOf (val : JSString) : JSString :=
  if 51 ≤ decVal (val.take 2) ∧ decVal (val.take 2) ≤ 55 ∧ val.length = 16 then
    "mastercard".toList
  else if (decVal (val.take 2) = 34 ∨ decVal (val.take 2) = 37) ∧ val.length = 15 then
    "amex".toList
  else if decVal (val.take 1) = 4 ∧ (val.length = 13 ∨ val.length = 16) then
    "visa".toList
  else if decVal (val.take 4) = 6011 ∧ val.length = 16 then
    "discover".toList
  else []

/-- The Gregorian leap-year rule: divisible by 4 and not by 100, or divisible by 400. -/
def isLeapYear (y : Nat) : Bool :=
  (decide (y % 4 = 0) && decide (y % 100 ≠ 0)) || decide (y % 400 = 0)

/-- The number of days of month `m` (1 to 12) in year `y`. -/
def dayCount (m y : Nat) : Nat :=
  if m = 2 then (if isLeapYear y then 29 else 28)
  else if m = 4 ∨ m = 6 ∨ m = 9 ∨ m = 11 then 30
  else 31

/-- The current value of one element: its checked-state for a checkbox or a radio
button, its text otherwise. -/
def Element.current (e : Element) : JSVal :=
  if e.type = some "checkbox".toList ∨ e.type = some "radio".toList then .bool e.checked
  else .str e.val

/-- The value an entry of `formAdditions` stands for: the literal, or the result of
calling the function. -/
def Addition.value : Addition → FormValue
  | .literal x => x
  | .function result => result

/-- The text of an integer written in decimal: its digits, after a minus sign when it
is negative. -/
def intText (negative : Bool) (ds : JSString) : JSString :=
  if negative then '-' :: ds else ds

/-- The integer a decimal text denotes. -/
def intValue (negative : Bool) (ds : JSString) : Int :=
  if negative then -(decVal ds : Int) else (decVal ds : Int)

end Validator

namespace Validator

/-- The postal code shape of the claim on `zip-ca`, read on the upper-cased value: letter,
digit, letter, at most one space, digit, letter, digit, each letter in the restricted
set. -/
def claimedPostalShape (s : JSString) : Bool :=
  match s.map upperUnit with
  | [a, d1, b, d2, c, d3] =>
    isPostalLetter a && isDigit d1 && isPostalLetter b &&
      isDigit d2 && isPostalLetter c && isDigit d3
  | [a, d1, b, sp, d2, c, d3] =>
    isPostalLetter a && isDigit d1 && isPostalLetter b && sp == ' ' &&
      isDigit d2 && isPostalLetter c && isDigit d3
  | _ => false

/-- The postal code shape `zip-ca` accepts, read on the upper-cased value: a letter of the
restricted set, a digit, any letter `A`..`Z`, any number of spaces, then a digit, any
letter `A`..`Z` and a digit. -/
def postalShape (s : JSString) : Bool :=
  match s.map upperUnit with
  | a :: d1 :: b :: rest =>
    isPostalLetter a && isDigit d1 && isUpperAZ b &&
      (match rest.dropWhile (fun x => x == ' ') with
        | [d2, c, d3] => isDigit d2 && isUpperAZ c && isDigit d3
        | _ => false)
  | _ => false

end Validator

namespace Validator

/-- The parts of a time written `h{1,2}:mm[:ss][am|pm]`: the texts of the hour and of the
minute, the text of the second if there is one, and the suffix (empty when absent). -/
structure TimeParts where
  hour : JSString
  minute : JSString
  second : Option JSString
  suffix : JSString

/-- The text a time is written as: hour, colon, minute, then a colon and the second if
there is one, then the suffix. -/
def TimeParts.text (p : TimeParts) : JSString :=
  p.hour ++ ':' :: (p.minute ++
    ((match p.second with | none => [] | some x => ':' :: x) ++ p.suffix))

/-- Exactly two decimal digits. -/
def twoDigits (s : JSString) : Bool := s.length == 2 && s.all isDigit

/-- The shape `h{1,2}:mm[:ss][am|pm]`: an hour of one or two digits, a minute of two
digits, a second of two digits if present, and a suffix that is absent, `am` or `pm`. -/
def TimeParts.wellFormed (p : TimeParts) : Bool :=
  (p.hour.length == 1 || p.hour.length == 2) && p.hour.all isDigit &&
  twoDigits p.minute &&
  (match p.second with | none => true | some x => twoDigits x) &&
  (p.suffix == [] || p.suffix == ['a', 'm'] || p.suffix == ['p', 'm'])

/-- The ranges of the specification: the hour in 1..12 with a suffix and in 0..23
without, the minute and the second (if present) in 0..59. -/
def TimeParts.inRange (p : TimeParts) : Bool :=
  (if p.suffix == [] then decide (decVal p.hour ≤ 23)
    else decide (1 ≤ decVal p.hour) && decide (decVal p.hour ≤ 12)) &&
  decide (decVal p.minute ≤ 59) &&
  (match p.second with | none => true | some x => decide (decVal x ≤ 59))

end Validator

namespace JS

/-- The expression that matches exactly the given text. -/
def Regex.text : JSString → Regex
  | [] => .eps
  | c :: cs => .seq (Regex.lit c) (Regex.text cs)

/-- A sign, `+` or `-`. -/
def isSign (c : Char) : Bool := c == '+' || c == '-'

/-- ExponentPart of the grammar of numeric strings: `e` or `E`, an optional sign, and at
least one digit. -/
def exponentRe : Regex :=
  .seq (.unit fun c => c == 'e' || c == 'E')
    (.seq (Regex.opt (.unit isSign)) (Regex.plus Regex.digit))

/-- The digits of an unsigned decimal literal before its exponent: digits with an
optional point and optional further digits, or a point followed by digits. -/
def mantissaRe : Regex :=
  .alt
    (.seq (Regex.plus Regex.digit) (Regex.opt (.seq (Regex.lit '.') (.star Regex.digit))))
    (.seq (Regex.lit '.') (Regex.plus Regex.digit))

/-- StrUnsignedDecimalLiteral of the grammar of numeric strings: `Infinity`, or a
mantissa with an optional exponent. -/
def unsignedDecimalRe : Regex :=
  .alt (Regex.text infinityText) (.seq mantissaRe (Regex.opt exponentRe))

/-- NonDecimalIntegerLiteral of the grammar of numeric strings: `0x`, `0o` or `0b`, in
either case, followed by at least one digit of the radix. -/
def nonDecimalRe : Regex :=
  .seq (Regex.lit '0')
    (.alt (.seq (.unit fun c => c == 'x' || c == 'X') (Regex.plus (.unit (isRadixDigit 16))))
      (.alt (.seq (.unit fun c => c == 'o' || c == 'O') (Regex.plus (.unit (isRadixDigit 8))))
        (.seq (.unit fun c => c == 'b' || c == 'B') (Regex.plus (.unit (isRadixDigit 2))))))

/-- StrNumericLiteral of the grammar of numeric strings: a decimal literal with an
optional sign, or a non-decimal integer literal. -/
def numericLiteralRe : Regex :=
  .alt (.seq (Regex.opt (.unit isSign)) unsignedDecimalRe) nonDecimalRe

/-- A numeric string as the specification reads it: with the white space at both ends
removed, the text is a numeric literal. -/
def isNumericText (s : JSString) : Bool := numericLiteralRe.matches (trim s)

end JS

namespace Validator

/-- The texts of a list joined with a separator between neighbours. -/
def joinWith (sep : JSString) : List JSString → JSString
  | [] => []
  | [x] => x
  | x :: y :: rest => x ++ sep ++ joinWith sep (y :: rest)

/-- Whether the units `a`, `b` follow each other somewhere in the text. -/
def hasPair (a b : Char) : JSString → Bool
  | x :: y :: rest => (x == a && y == b) || hasPair a b (y :: rest)
  | _ => false

/-- Whether a click lets the default action of the button proceed: the handler neither
called `preventDefault` nor returned `false`. -/
def ClickOutcome.proceeds (o : ClickOutcome) : Bool := !o.defaultPrevented && o.returned

/-- The fields a tick is due to re-check: those whose current value differs from the
default recorded under their name and whose interaction count is positive, in field
order. -/
def dueFields (defaults : JSObject) (fields : List TickField) : List TickField :=
  fields.filter fun v =>
    decide (defaults.get v.field.name ≠ some (.single (.str v.field.val))) &&
      decide (0 < v.blurCount)

/-- Whether a field is a checkbox or a radio button: the attribute `type` of its (first)
element says so. -/
def FormField.isToggle (v : FormField) : Bool :=
  match v.el with
  | [] => false
  | e :: _ => decide (e.type = some "checkbox".toList ∨ e.type = some "radio".toList)

end Validator

/-! # Properties -/

namespace Validator

theorem split_take_one (spec : JSString) : (split ':' spec).take 1 = [specName spec] := by
  unfold split List.splitOn
  induction spec with
  | nil => rfl
  | cons c cs ih =>
    rw [List.splitOnP_cons]
    by_cases h : (c == ':') = true
    · have hc : c = ':' := by simpa using h
      subst hc
      simp [specName]
    · have hne : (c != ':') = true := by simpa [bne] using h
      rcases hs : List.splitOnP (fun x => x == ':') cs with _ | ⟨hd, tl⟩
      · exact absurd hs (List.splitOnP_ne_nil _ _)
      · rw [hs] at ih
        simp only [List.take_succ_cons, List.take_zero, List.cons.injEq, and_true] at ih
        simp [h, specName, List.takeWhile_cons, hne, List.modifyHead, ih]

theorem specName_of_not_include (spec : JSString) (h : Underscore.strInclude spec ':' = false) :
    specName spec = spec := by
  unfold specName
  rw [List.takeWhile_eq_self_iff]
  intro c hc
  have : c ≠ ':' := by
    rintro rfl
    simp [Underscore.strInclude, hc] at h
  simpa [bne_iff_ne] using this

theorem parseSpec_text (args : Args) (spec : JSString) :
    (parseSpec args spec).1.text = specName spec := by
  unfold parseSpec
  by_cases h : Underscore.strInclude spec ':' = true
  · simp [h, split_take_one, TestKey.text, joinComma]
  · have h2 : Underscore.strInclude spec ':' = false := by simpa using h
    simp [h2, TestKey.text, specName_of_not_include _ h2]

/-! ## The loop of `check` -/

theorem checkLoop_pass (f : Field) (cs : List Call) (hcs : ∀ c ∈ cs, c.result.truthy = true) :
    ∀ (args : Args) (specs : List JSString), evalAll f args specs = cs.map Call.entry →
      checkLoop f args specs = .ok ⟨⟨some f, true, none⟩, cs⟩ := by
  induction cs with
  | nil =>
    intro args specs h
    cases specs with
    | nil => rfl
    | cons s r => simp [evalAll] at h
  | cons c cs ih =>
    intro args specs h
    cases specs with
    | nil => simp [evalAll] at h
    | cons s r =>
      simp only [evalAll, List.map_cons, List.cons.injEq, Call.entry, Prod.mk.injEq] at h
      obtain ⟨⟨h1, h2, h3⟩, h4⟩ := h
      have hc : c.result.truthy = true := hcs c (List.mem_cons_self _ _)
      have ih2 := ih (fun x hx => hcs x (List.mem_cons_of_mem _ hx)) _ _ h4
      rw [h1, h2] at h3
      rw [h2] at ih2
      simp only [checkLoop, h1, h2, h3, ih2, hc]
      rfl

theorem checkLoop_fail (f : Field) (c : Call) (hc : c.result.truthy = false)
    (post : List (TestKey × Args × Except JSError JSVal)) (cs : List Call)
    (hcs : ∀ x ∈ cs, x.result.truthy = true) :
    ∀ (args : Args) (specs : List JSString),
      evalAll f args specs = cs.map Call.entry ++ c.entry :: post →
      checkLoop f args specs = .ok ⟨⟨some f, false, some c.test⟩, cs ++ [c]⟩ := by
  induction cs with
  | nil =>
    intro args specs h
    cases specs with
    | nil => simp [evalAll] at h
    | cons s r =>
      simp only [evalAll, List.map_nil, List.nil_append, List.cons.injEq, Call.entry,
        Prod.mk.injEq] at h
      obtain ⟨⟨h1, h2, h3⟩, _⟩ := h
      rw [h1, h2] at h3
      simp only [checkLoop, h1, h2, h3, hc]
      rfl
  | cons x cs ih =>
    intro args specs h
    cases specs with
    | nil => simp [evalAll] at h
    | cons s r =>
      simp only [evalAll, List.map_cons, List.cons_append, List.cons.injEq, Call.entry,
        Prod.mk.injEq] at h
      obtain ⟨⟨h1, h2, h3⟩, h4⟩ := h
      have hx : x.result.truthy = true := hcs x (List.mem_cons_self _ _)
      have ih2 := ih (fun y hy => hcs y (List.mem_cons_of_mem _ hy)) _ _ h4
      rw [h1, h2] at h3
      rw [h2] at ih2
      simp only [checkLoop, h1, h2, h3, ih2, hx]
      rfl

theorem evalAll_length (f : Field) :
    ∀ (args : Args) (specs : List JSString), (evalAll f args specs).length = specs.length := by
  intro args specs
  induction specs generalizing args with
  | nil => rfl
  | cons s r ih => simp [evalAll, ih]

theorem evalAll_text (f : Field) :
    ∀ (specs : List JSString) (args : Args) (i : Nat) (e : TestKey × Args × Except JSError JSVal),
      (evalAll f args specs).get? i = some e →
      ∃ spec, specs.get? i = some spec ∧ e.1.text = specName spec := by
  intro specs
  induction specs with
  | nil => intro args i e h; simp [evalAll] at h
  | cons s r ih =>
    intro args i e h
    cases i with
    | zero =>
      simp only [evalAll, List.get?_cons_zero, Option.some.injEq] at h
      exact ⟨s, rfl, by rw [← h]; exact parseSpec_text _ _⟩
    | succ j =>
      simp only [evalAll, List.get?_cons_succ] at h
      simpa using ih _ j e h

/-- C1. For a field whose pretest is absent or returns true, `check` runs the tests in
configured order: when the evaluations `cs` all return a truthy value and the next one,
`c`, returns a falsy value, it returns `passed = false` with `failedTest` the value of
`test` of `c`, whose text is the name of the spec at that position, and it has evaluated
exactly `cs` and `c`, no later test; when every evaluation returns a truthy value
(also when there is no test), it returns `passed = true` with `failedTest` unset. -/
theorem check_first_failure (f : Field)
    (hp : f.pretest = none ∨ f.pretest = some (.bool true))
    (cs : List Call) (hcs : ∀ c ∈ cs, c.result.truthy = true) :
    (∀ (c : Call) (post : List (TestKey × Args × Except JSError JSVal)),
        c.result.truthy = false →
        evalAll f none f.tests = cs.map Call.entry ++ c.entry :: post →
        check (some f) = .ok ⟨⟨some f, false, some c.test⟩, cs ++ [c]⟩ ∧
        ∃ spec, f.tests.get? cs.length = some spec ∧ c.test.text = specName spec) ∧
    (evalAll f none f.tests = cs.map Call.entry →
        check (some f) = .ok ⟨⟨some f, true, none⟩, cs⟩) := by
  have hcheck : check (some f) = checkLoop f none f.tests := by
    unfold check
    rcases hp with hp | hp <;> simp [hp]
  refine ⟨fun c post hc h => ⟨?_, ?_⟩, fun h => ?_⟩
  · rw [hcheck]
    exact checkLoop_fail f c hc post cs hcs none f.tests h
  · have hget : (evalAll f none f.tests).get? cs.length = some c.entry := by
      rw [h, List.get?_eq_getElem?, List.getElem?_append_right (by simp)]
      simp
    exact evalAll_text f f.tests none cs.length c.entry hget
  · rw [hcheck]
    exact checkLoop_pass f cs hcs none f.tests h

/-- An instance of C1: on the value `abc` with the tests `required, length:5, email` the
test `required` passes, `length` fails and `email` is not evaluated. -/
theorem check_first_failure_witness :
    check (some { val := "abc".toList,
                  tests := ["required".toList, "length:5".toList, "email".toList] })
      = .ok ⟨⟨some { val := "abc".toList,
                     tests := ["required".toList, "length:5".toList, "email".toList] },
              false, some (.arr ["length".toList])⟩,
             [⟨.str "required".toList, none, .bool true⟩,
              ⟨.arr ["length".toList], some ["5".toList], .bool false⟩]⟩ :=
  ((check_first_failure
      { val := "abc".toList, tests := ["required".toList, "length:5".toList, "email".toList] }
      (Or.inl rfl)
      [⟨.str "required".toList, none, .bool true⟩]
      (by decide)).1
    ⟨.arr ["length".toList], some ["5".toList], .bool false⟩
    [(.str "email".toList, some ["5".toList], .ok (.bool false))]
    rfl (by decide!)).1

theorem evalAll_append (f : Field) (pre rest : List JSString) :
    ∀ args : Args, evalAll f args (pre ++ rest)
      = evalAll f args pre ++ evalAll f (argsAfter args pre) rest := by
  induction pre with
  | nil => intro args; rfl
  | cons s r ih =>
    intro args
    have h := ih (parseSpec args s).2
    simp only [List.cons_append, evalAll, argsAfter, List.foldl_cons, List.cons.injEq,
      true_and] at h ⊢
    exact h

theorem check_eq_checkLoop (f : Field) (hp : f.pretest = none ∨ f.pretest = some (.bool true)) :
    check (some f) = checkLoop f none f.tests := by
  unfold check
  rcases hp with hp | hp <;> simp [hp]

/-- The value `79927398713` is all digits and passes the Luhn check, `creditcard` yields
the empty classification for it, and `check` returns `passed = false` with `failedTest`
`creditcard`. -/
theorem check_empty_classification_fails :
    Tests.creditcard { val := "79927398713".toList } = .str [] ∧
    check (some { val := "79927398713".toList, tests := ["creditcard".toList] })
      = .ok ⟨⟨some { val := "79927398713".toList, tests := ["creditcard".toList] },
              false, some (.str "creditcard".toList)⟩,
             [⟨.str "creditcard".toList, none, .str []⟩]⟩ := by
  decide!

/-- C2 (the code at the failing input). The card number `3530111333300000`, of a brand
the test does not list, is all digits and Luhn-valid; `creditcard` reaches its success
path and returns the classification, which is the empty string, and `check` reads it
with `!result` as a failure: it returns `passed = false` with `failedTest` `creditcard`.
The same happens for the value `79927398713`.  A card of a listed brand passes with its
classification. -/
theorem check_rejects_unlisted_brand :
    ("3530111333300000".toList.all isDigit = true ∧
      luhnSum "3530111333300000".toList % 10 = 0) ∧
    Tests.creditcard { val := "3530111333300000".toList } = .str [] ∧
    check (some { val := "3530111333300000".toList, tests := ["creditcard".toList] })
      = .ok ⟨⟨some { val := "3530111333300000".toList, tests := ["creditcard".toList] },
              false, some (.str "creditcard".toList)⟩,
             [⟨.str "creditcard".toList, none, .str []⟩]⟩ ∧
    luhnSum "79927398713".toList % 10 = 0 ∧
    (check (some { val := "79927398713".toList, tests := ["creditcard".toList] })).map
      (fun out => out.result.passed) = .ok false ∧
    (check (some { val := "4111111111111111".toList, tests := ["creditcard".toList] })).map
      (fun out => (out.result.passed, out.calls.map fun c => c.result))
      = .ok (true, [.str "visa".toList]) := by
  decide!

/-- The loop of `check` treats a falsy result as a failure, the empty string included:
for a field whose pretest is absent or returns true, whose tests before `creditcard`
return truthy values and whose `creditcard` test yields the empty classification,
`check` returns `passed = false` with `failedTest` `creditcard`, having evaluated nothing
after it. -/
theorem check_falsy_classification (f : Field)
    (hp : f.pretest = none ∨ f.pretest = some (.bool true))
    (pre post : List JSString) (ht : f.tests = pre ++ "creditcard".toList :: post)
    (cs : List Call) (hcs : ∀ c ∈ cs, c.result.truthy = true)
    (hpre : evalAll f none pre = cs.map Call.entry)
    (hcc : Tests.creditcard f = .str []) :
    check (some f) = .ok ⟨⟨some f, false, some (.str "creditcard".toList)⟩,
      cs ++ [⟨.str "creditcard".toList, argsAfter none pre, .str []⟩]⟩ := by
  rw [check_eq_checkLoop f hp]
  have hparse : ∀ a : Args, parseSpec a "creditcard".toList = (.str "creditcard".toList, a) :=
    fun a => rfl
  have hcall : ∀ a : Args, callTest f (.str "creditcard".toList) a = .ok (Tests.creditcard f) :=
    fun a => rfl
  have h : evalAll f none f.tests
      = cs.map Call.entry
        ++ Call.entry ⟨.str "creditcard".toList, argsAfter none pre, .str []⟩
          :: evalAll f (argsAfter none pre) post := by
    rw [ht, evalAll_append, hpre]
    simp only [evalAll, hparse, hcall, hcc, Call.entry]
  exact checkLoop_fail f ⟨.str "creditcard".toList, argsAfter none pre, .str []⟩ rfl _ cs hcs
    none f.tests h

/-- After a passing `required`, the value `79927398713` fails at `creditcard`. -/
theorem check_falsy_classification_witness :
    check (some { val := "79927398713".toList,
                  tests := ["required".toList, "creditcard".toList] })
      = .ok ⟨⟨some { val := "79927398713".toList,
                     tests := ["required".toList, "creditcard".toList] },
              false, some (.str "creditcard".toList)⟩,
             [⟨.str "required".toList, none, .bool true⟩,
              ⟨.str "creditcard".toList, none, .str []⟩]⟩ :=
  check_falsy_classification
    { val := "79927398713".toList, tests := ["required".toList, "creditcard".toList] }
    (Or.inl rfl) ["required".toList] [] rfl
    [⟨.str "required".toList, none, .bool true⟩] (by decide) rfl (by decide!)

/-- C3 (the code at the failing input). With the tests `length:5, required` on the value
of one space, `length` passes on the blank value, `required` is then called with the
`args` of `length:5` still set, reads it as `allowWhitespace` and passes, and `check`
returns `passed = true`; with the test `required` alone the same value fails. -/
theorem check_args_carried_over :
    check (some { val := " ".toList, tests := ["length:5".toList, "required".toList] })
      = .ok ⟨⟨some { val := " ".toList, tests := ["length:5".toList, "required".toList] },
              true, none⟩,
             [⟨.arr ["length".toList], some ["5".toList], .bool true⟩,
              ⟨.str "required".toList, some ["5".toList], .bool true⟩]⟩ ∧
    check (some { val := " ".toList, tests := ["required".toList] })
      = .ok ⟨⟨some { val := " ".toList, tests := ["required".toList] },
              false, some (.str "required".toList)⟩,
             [⟨.str "required".toList, none, .bool false⟩]⟩ := by
  decide!

/-- C5. For an absent field, and for a field whose pretest is defined and returns false,
`check` returns `passed = true` with `failedTest` unset and evaluates no test, whatever
the value and the configured tests. -/
theorem check_skips (field : Option Field)
    (h : field = none ∨ ∃ f, field = some f ∧ f.pretest = some (.bool false)) :
    check field = .ok ⟨⟨field, true, none⟩, []⟩ := by
  rcases h with rfl | ⟨f, rfl, hf⟩
  · rfl
  · simp [check, hf]

/-- An instance of C5: a field with an empty value and the test `required`, gated by a
pretest that returns false, passes with no test evaluated. -/
theorem check_skips_witness :
    check (some { val := [], tests := ["required".toList], pretest := some (.bool false) })
      = .ok ⟨⟨some { val := [], tests := ["required".toList], pretest := some (.bool false) },
              true, none⟩, []⟩ :=
  check_skips _ (Or.inr ⟨_, rfl, rfl⟩)

/-! ## Tests that read `args[0]` -/

theorem parseSpec_args_of_include (args : Args) (spec : JSString)
    (h : Underscore.strInclude spec ':' = true) :
    (parseSpec args spec).2 = some ((split ':' spec).drop 1) := by
  simp [parseSpec, h]

theorem callTest_ok (f : Field) (args : Args) (spec : JSString)
    (hb : specName spec ∈ builtinTests)
    (ha : specName spec ∈ argumentTests → Underscore.strInclude spec ':' = true) :
    ∃ v, callTest f (parseSpec args spec).1 (parseSpec args spec).2 = .ok v := by
  unfold callTest
  rw [parseSpec_text]
  simp only [builtinTests, List.mem_cons, List.mem_singleton, List.not_mem_nil, or_false] at hb
  rcases hb with h | h | h | h | h | h | h | h | h | h | h | h | h | h | h | h
  · rw [h]; exact ⟨_, rfl⟩
  · rw [h]; exact ⟨_, rfl⟩
  · have hi := ha (by rw [h]; decide)
    rw [h, parseSpec_args_of_include _ _ hi]
    show ∃ v, Tests.length f _ = .ok v
    unfold Tests.length
    by_cases hbl : Underscore.isBlank f.val = true <;> simp [hbl]
  · have hi := ha (by rw [h]; decide)
    rw [h, parseSpec_args_of_include _ _ hi]
    show ∃ v, Tests.min f _ = .ok v
    unfold Tests.min
    by_cases hbl : Underscore.isBlank f.val = true <;> simp [hbl]
  · have hi := ha (by rw [h]; decide)
    rw [h, parseSpec_args_of_include _ _ hi]
    exact ⟨_, rfl⟩
  all_goals (rw [h]; exact ⟨_, rfl⟩)

theorem checkLoop_total (f : Field) :
    ∀ (specs : List JSString) (args : Args),
      (∀ spec ∈ specs, specName spec ∈ builtinTests ∧
        (specName spec ∈ argumentTests → Underscore.strInclude spec ':' = true)) →
      ∃ out, checkLoop f args specs = .ok out ∧ out.result.field = some f ∧
        (out.result.passed = false →
          ∃ spec ∈ specs, out.result.failedTest.map TestKey.text = some (specName spec)) := by
  intro specs
  induction specs with
  | nil => intro args _; exact ⟨_, rfl, rfl, by simp⟩
  | cons s r ih =>
    intro args h
    obtain ⟨hb, ha⟩ := h s (List.mem_cons_self _ _)
    obtain ⟨v, hv⟩ := callTest_ok f args s hb ha
    obtain ⟨out, ho, hfield, hfail⟩ :=
      ih (parseSpec args s).2 (fun x hx => h x (List.mem_cons_of_mem _ hx))
    by_cases ht : v.truthy = true
    · refine ⟨⟨out.result, ⟨(parseSpec args s).1, (parseSpec args s).2, v⟩ :: out.calls⟩,
        ?_, hfield, ?_⟩
      · simp only [checkLoop, hv, ht, ho]
        rfl
      · intro hp
        obtain ⟨spec, hmem, hspec⟩ := hfail hp
        exact ⟨spec, List.mem_cons_of_mem _ hmem, hspec⟩
    · have ht2 : v.truthy = false := by simpa using ht
      refine ⟨⟨⟨some f, false, some (parseSpec args s).1⟩,
        [⟨(parseSpec args s).1, (parseSpec args s).2, v⟩]⟩, ?_, rfl, ?_⟩
      · simp only [checkLoop, hv, ht2]
        rfl
      · intro _
        exact ⟨s, List.mem_cons_self _ _, by simp [parseSpec_text]⟩

/-- C6 (as stated, refuted). The built-in test `max`, configured without an argument,
makes `check` throw: it reads `args[0]` while `args` is undefined. -/
theorem check_throws_without_argument :
    "max".toList ∈ builtinTests ∧
    check (some { val := "abc".toList, tests := ["max".toList] })
      = .error (.typeError "Cannot read property '0' of undefined") := by
  decide

/-- C6 (amended). For every field whose configured tests are all built-in tests, those
that read an argument (`length`, `min`, `max`) being written with one, and for every
field value, `check` returns a Result and does not throw; when the Result has
`passed = false` its `failedTest` is the name of one of the configured tests. -/
theorem check_returns_result (f : Field)
    (h : ∀ spec ∈ f.tests, specName spec ∈ builtinTests ∧
      (specName spec ∈ argumentTests → Underscore.strInclude spec ':' = true)) :
    ∃ out, check (some f) = .ok out ∧ out.result.field = some f ∧
      (out.result.passed = false →
        ∃ spec ∈ f.tests, out.result.failedTest.map TestKey.text = some (specName spec)) := by
  unfold check
  by_cases hp : f.pretest = none ∨ f.pretest = some (.bool true)
  · simp only [hp, if_true]
    exact checkLoop_total f f.tests none h
  · simp only [hp, if_false]
    exact ⟨_, rfl, rfl, by simp⟩

/-- An instance of the amended C6: the tests `required, max:2` on the value `abc` yield a
Result, here a failing one. -/
theorem check_returns_result_witness :
    ∃ out, check (some { val := "abc".toList, tests := ["required".toList, "max:2".toList] })
        = .ok out ∧
      out.result.field
        = some { val := "abc".toList, tests := ["required".toList, "max:2".toList] } ∧
      (out.result.passed = false →
        ∃ spec ∈ ["required".toList, "max:2".toList],
          out.result.failedTest.map TestKey.text = some (specName spec)) :=
  check_returns_result
    { val := "abc".toList, tests := ["required".toList, "max:2".toList] } (by decide)

/-! ## `run` -/

theorem runLoop_spec :
    ∀ (fields : List Field) (outs : List CheckOutcome) (st : RunState),
      fields.map (fun f => check (some f)) = outs.map Except.ok →
      runLoop fields st = .ok
        ⟨st.failures ++ (outs.map (fun o => o.result)).filter (fun r => !r.passed),
         st.successes ++ (outs.map (fun o => o.result)).filter (fun r => r.passed),
         st.checks ++ outs⟩ := by
  intro fields
  induction fields with
  | nil =>
    intro outs st h
    cases outs with
    | nil => simp [runLoop]
    | cons o r => simp at h
  | cons f r ih =>
    intro outs st h
    cases outs with
    | nil => simp at h
    | cons o os =>
      simp only [List.map_cons, List.cons.injEq] at h
      obtain ⟨h1, h2⟩ := h
      cases hpass : o.result.passed with
      | true =>
        simp only [runLoop, h1, hpass, bne_self_eq_false, Bool.false_eq_true, if_false]
        rw [ih os _ h2]
        simp [List.filter_cons, hpass]
      | false =>
        have hb : (false != true) = true := rfl
        simp only [runLoop, h1, hpass, hb, if_true]
        rw [ih os _ h2]
        simp [List.filter_cons, hpass]

/-- C4. When the check of every field returns, `run()` has checked every field in
declaration order (`outs` lists the outcomes, field by field) and returns the Results
with `passed = false`, in that order, when there is at least one, and the success
sentinel otherwise; no passing Result is in the list. -/
theorem run_collects_failures (v : Validator) (outs : List CheckOutcome)
    (h : v.fields.map (fun f => check (some f)) = outs.map Except.ok) :
    run v = .ok
      ⟨if ((outs.map (fun o => o.result)).filter (fun r => !r.passed)).length > 0
        then .failures ((outs.map (fun o => o.result)).filter (fun r => !r.passed))
        else .success,
       outs⟩ := by
  unfold run
  rw [runLoop_spec v.fields outs _ h]
  simp

/-- An instance of C4: for the fields `A` (test `required`, empty value) and `B` (test
`required`, value `ok`), `run()` returns exactly one failing Result, the one of `A`. -/
theorem run_collects_failures_witness :
    run ⟨[{ name := "A".toList, val := [], tests := ["required".toList] },
          { name := "B".toList, val := "ok".toList, tests := ["required".toList] }]⟩
      = .ok
        ⟨.failures [⟨some { name := "A".toList, val := [], tests := ["required".toList] },
                     false, some (.str "required".toList)⟩],
         [⟨⟨some { name := "A".toList, val := [], tests := ["required".toList] },
             false, some (.str "required".toList)⟩,
           [⟨.str "required".toList, none, .bool false⟩]⟩,
          ⟨⟨some { name := "B".toList, val := "ok".toList, tests := ["required".toList] },
             true, none⟩,
           [⟨.str "required".toList, none, .bool true⟩]⟩]⟩ :=
  run_collects_failures
    ⟨[{ name := "A".toList, val := [], tests := ["required".toList] },
      { name := "B".toList, val := "ok".toList, tests := ["required".toList] }]⟩
    [⟨⟨some { name := "A".toList, val := [], tests := ["required".toList] },
        false, some (.str "required".toList)⟩,
      [⟨.str "required".toList, none, .bool false⟩]⟩,
     ⟨⟨some { name := "B".toList, val := "ok".toList, tests := ["required".toList] },
        true, none⟩,
      [⟨.str "required".toList, none, .bool true⟩]⟩]
    (by decide)

end Validator

/-! ## Numbers and digit strings -/

namespace JS

theorem roundDouble_natCast (n : Nat) (h : n ≤ 2 ^ 53) : roundDouble (n : ℚ) = .fin (n : ℚ) := by
  unfold roundDouble
  rw [if_pos]
  simp
  exact h

theorem ofNat_eq (n : Nat) (h : n ≤ 2 ^ 53) : JSNum.ofNat n = .fin (n : ℚ) :=
  roundDouble_natCast n h

theorem roundDoublePos_ne_nan (a : ℚ) : roundDoublePos a ≠ .nan := by
  unfold roundDoublePos
  simp only
  split <;> simp

theorem roundDouble_ne_nan (q : ℚ) : roundDouble q ≠ .nan := by
  unfold roundDouble
  split
  · simp
  · split
    · exact roundDoublePos_ne_nan q
    · have h := roundDoublePos_ne_nan (-q)
      cases hr : roundDoublePos (-q) <;> simp_all [JSNum.neg]

theorem isDigit_iff (c : Char) : isDigit c = true ↔ 48 ≤ c.toNat ∧ c.toNat ≤ 57 := by
  simp [isDigit]

theorem isDigit_not_ws (c : Char) (h : isDigit c = true) : isWhiteSpace c = false := by
  rw [isDigit_iff] at h
  simp only [isWhiteSpace, Bool.or_eq_false_iff, beq_eq_false_iff_ne, Bool.and_eq_false_iff,
    decide_eq_false_iff_not]
  omega

theorem isDigit_ne (c d : Char) (h : isDigit c = true) (hd : isDigit d = false) : c ≠ d := by
  rintro rfl
  simp [h] at hd

theorem dropWhile_ws_digits (s : JSString) (hd : ∀ c ∈ s, isDigit c = true) :
    s.dropWhile isWhiteSpace = s := by
  cases s with
  | nil => rfl
  | cons c t => simp [List.dropWhile_cons, isDigit_not_ws c (hd c (List.mem_cons_self _ _))]

theorem trim_digits (s : JSString) (hd : ∀ c ∈ s, isDigit c = true) : trim s = s := by
  unfold trim
  rw [dropWhile_ws_digits s hd, dropWhile_ws_digits s.reverse (by simpa using hd)]
  simp

theorem takeWhile_digits (s : JSString) (hd : ∀ c ∈ s, isDigit c = true) :
    s.takeWhile isDigit = s := by
  rw [List.takeWhile_eq_self_iff]
  exact hd

theorem dropWhile_digits (s : JSString) (hd : ∀ c ∈ s, isDigit c = true) :
    s.dropWhile isDigit = [] := by
  rw [List.dropWhile_eq_nil_iff]
  exact hd

theorem parseUnsignedDecimal_digits (s : JSString) (hne : s ≠ [])
    (hd : ∀ c ∈ s, isDigit c = true) :
    parseUnsignedDecimal s = some ((decVal s : Nat) : ℚ) := by
  unfold parseUnsignedDecimal
  simp [takeWhile_digits s hd, dropWhile_digits s hd, hne, parseExponent, scaleDec]

theorem parseNonDecimal_digits (s : JSString) (hd : ∀ c ∈ s, isDigit c = true) :
    parseNonDecimal s = none := by
  unfold parseNonDecimal
  match s, hd with
  | [], _ => rfl
  | [_], _ => rfl
  | c0 :: c1 :: ds, hd =>
    have h1 : isDigit c1 = true := hd c1 (by simp)
    have hx : c1 ≠ 'x' := isDigit_ne _ _ h1 (by decide)
    have hX : c1 ≠ 'X' := isDigit_ne _ _ h1 (by decide)
    have ho : c1 ≠ 'o' := isDigit_ne _ _ h1 (by decide)
    have hO : c1 ≠ 'O' := isDigit_ne _ _ h1 (by decide)
    have hb : c1 ≠ 'b' := isDigit_ne _ _ h1 (by decide)
    have hB : c1 ≠ 'B' := isDigit_ne _ _ h1 (by decide)
    simp [hx, hX, ho, hO, hb, hB]

theorem toNumber_digits (s : JSString) (hne : s ≠ []) (hd : ∀ c ∈ s, isDigit c = true) :
    toNumber s = roundDouble ((decVal s : Nat) : ℚ) := by
  unfold toNumber
  simp only [trim_digits s hd, hne, if_false, parseNonDecimal_digits s hd]
  cases s with
  | nil => exact absurd rfl hne
  | cons c t =>
    have hc : isDigit c = true := hd c (List.mem_cons_self _ _)
    have hp : c ≠ '+' := isDigit_ne _ _ hc (by decide)
    have hm : c ≠ '-' := isDigit_ne _ _ hc (by decide)
    have hI : c :: t ≠ infinityText := by
      intro h
      have : c = 'I' := by simpa [infinityText] using (List.cons.inj h).1
      exact isDigit_ne _ _ hc (by decide) this
    simp [parseStrDecimal, hp, hm, parseUnsigned, hI, parseUnsignedDecimal_digits (c :: t) hne hd]

theorem ratFloorNat_eq (k : ℚ) (hk : 0 ≤ k) : ratFloorNat k = ⌊k⌋₊ := by
  unfold ratFloorNat
  have hnum : 0 ≤ k.num := Rat.num_nonneg.mpr hk
  have h1 : (⌊k⌋ : ℤ) = k.num / (k.den : ℤ) := Rat.floor_def
  have h2 : ((k.num.natAbs / k.den : ℕ) : ℤ) = k.num / (k.den : ℤ) := by
    rw [Int.ofNat_ediv, Int.natAbs_of_nonneg hnum]
  have h3 : (⌊k⌋₊ : ℤ) = ⌊k⌋ := by
    rw [← Int.floor_toNat, Int.toNat_of_nonneg (Int.floor_nonneg.mpr hk)]
  have : ((k.num.natAbs / k.den : ℕ) : ℤ) = (⌊k⌋₊ : ℤ) := by rw [h2, h3, h1]
  exact_mod_cast this

theorem ratFloorNat_div (a b : Nat) : ratFloorNat ((a : ℚ) / (b : ℚ)) = a / b := by
  rw [ratFloorNat_eq _ (by positivity)]
  exact Rat.natFloor_natCast_div_natCast a b

theorem add_fin_nat (a b : Nat) (h : a + b ≤ 2 ^ 53) :
    (JSNum.fin (a : ℚ)).add (.fin (b : ℚ)) = .fin ((a + b : Nat) : ℚ) := by
  show roundDouble ((a : ℚ) + (b : ℚ)) = _
  rw [← Nat.cast_add]
  exact roundDouble_natCast _ h

theorem mul_fin_nat (a b : Nat) (h : a * b ≤ 2 ^ 53) :
    (JSNum.fin (a : ℚ)).mul (.fin (b : ℚ)) = .fin ((a * b : Nat) : ℚ) := by
  show roundDouble ((a : ℚ) * (b : ℚ)) = _
  rw [← Nat.cast_mul]
  exact roundDouble_natCast _ h

theorem sub_fin_nat (a b : Nat) (hb : b ≤ a) (h : a ≤ 2 ^ 53) :
    (JSNum.fin (a : ℚ)).sub (.fin (b : ℚ)) = .fin ((a - b : Nat) : ℚ) := by
  show roundDouble ((a : ℚ) + -(b : ℚ)) = _
  have : (a : ℚ) + -(b : ℚ) = ((a - b : Nat) : ℚ) := by
    rw [Nat.cast_sub hb]; ring
  rw [this]
  exact roundDouble_natCast _ (by omega)

theorem mod_fin_nat (a b : Nat) (hb : 0 < b) :
    (JSNum.fin (a : ℚ)).mod (.fin (b : ℚ)) = .fin ((a % b : Nat) : ℚ) := by
  have hb0 : (b : ℚ) ≠ 0 := by exact_mod_cast hb.ne'
  have hnn : (0 : ℚ) ≤ (a : ℚ) / (b : ℚ) := by positivity
  simp only [JSNum.mod, hb0, if_false, ratTrunc, hnn, if_true, ratFloorNat_div]
  congr 1
  have h := Nat.div_add_mod a b
  have h2 : ((b * (a / b) + a % b : Nat) : ℚ) = (a : ℚ) := by rw [h]
  simp only [Nat.cast_add, Nat.cast_mul] at h2
  rw [Int.cast_natCast]
  linarith

theorem le_fin_nat (a b : Nat) : (JSNum.fin (a : ℚ)).le (.fin (b : ℚ)) = decide (a ≤ b) := by
  simp [JSNum.le]

theorem ge_fin_nat (a b : Nat) : (JSNum.fin (a : ℚ)).ge (.fin (b : ℚ)) = decide (b ≤ a) := by
  simp [JSNum.ge, JSNum.le]

theorem eq_fin_nat (a b : Nat) : (JSNum.fin (a : ℚ)).eq (.fin (b : ℚ)) = decide (a = b) := by
  simp [JSNum.eq]

theorem truthy_fin_nat (a : Nat) : (JSNum.fin (a : ℚ)).truthy = decide (a ≠ 0) := by
  simp [JSNum.truthy]

theorem toJSString_fin_nat (n : Nat) (h : n < 10 ^ 21) :
    (JSNum.fin (n : ℚ)).toJSString = Nat.toDigits 10 n := by
  have h2 : n < 1000000000000000000000 := by norm_num at h; exact h
  have h3 : ¬ ((n : ℤ) < 0) := not_lt.mpr (Int.natCast_nonneg n)
  simp [JSNum.toJSString, h2, h3]

theorem toIndex_fin_nat (n : Nat) : (JSNum.fin (n : ℚ)).toIndex = some n := by
  simp [JSNum.toIndex]

end JS

namespace Validator.Tests

theorem doubleAt_cons_succ (x : Cell) (vals : List Cell) (i : Nat) :
    doubleAt (x :: vals) (i + 1) = x :: doubleAt vals i := by
  unfold doubleAt
  cases h : vals[i]? <;> simp [List.get?_eq_getElem?, h]

/-- What the loop stores for an entry it doubles. -/
theorem luhnLoop_cons (x : Cell) :
    ∀ (n : Nat) (vals : List Cell),
      luhnLoop (n + 1) (x :: vals)
        = (if n % 2 = 1 then Cell.arr ((JS.toNumber x.text).mul (.ofNat 2)).toJSString else x)
          :: luhnLoop n vals := by
  intro n
  induction n using Nat.strong_induction_on with
  | _ n ih =>
    intro vals
    match n with
    | 0 => simp [luhnLoop]
    | 1 => simp [luhnLoop, doubleAt]
    | k + 2 =>
      have h := ih k (by omega) (doubleAt vals k)
      show luhnLoop (k + 1) (doubleAt (x :: vals) (k + 1)) = _
      rw [doubleAt_cons_succ, h]
      have : (k + 2) % 2 = k % 2 := by omega
      simp [luhnLoop, this]

theorem digitVal_le (c : Char) (h : isDigit c = true) : digitVal c ≤ 9 := by
  rw [isDigit_iff] at h
  unfold digitVal
  omega

theorem decVal_single (c : Char) : decVal [c] = digitVal c := by
  simp [decVal]

theorem toNumber_digit (c : Char) (h : isDigit c = true) :
    JS.toNumber [c] = .fin ((digitVal c : Nat) : ℚ) := by
  rw [toNumber_digits [c] (by simp) (by simpa using h), decVal_single]
  exact roundDouble_natCast _ (by have := digitVal_le c h; omega)

theorem toDigits_double_digits : ∀ d : Nat, d < 10 →
    ∀ c ∈ Nat.toDigits 10 (2 * d), isDigit c = true := by
  decide

theorem luhnTerms_append (d : Nat) :
    ∀ L : List Nat, luhnTerms (L ++ [d])
      = luhnTerms L + (if L.length % 2 = 1 then decimalDigitSum (2 * d) else d)
  | [] => by simp [luhnTerms]
  | [x] => by simp [luhnTerms]
  | x :: y :: r => by
    have h := luhnTerms_append d r
    have hp : (r.length + 1 + 1) % 2 = r.length % 2 := by omega
    show luhnTerms (x :: y :: (r ++ [d])) = _
    simp only [luhnTerms, h, List.length_cons, hp]
    omega

theorem luhnSum_cons (c : Char) (cs : JSString) :
    luhnSum (c :: cs) = luhnSum cs
      + (if cs.length % 2 = 1 then decimalDigitSum (2 * digitVal c) else digitVal c) := by
  unfold luhnSum
  simp [luhnTerms_append]

theorem decimalDigitSum_double_le : ∀ d : Nat, d < 10 → decimalDigitSum (2 * d) ≤ 9 := by
  decide

theorem luhnSum_le (cs : JSString) (hd : ∀ c ∈ cs, isDigit c = true) :
    luhnSum cs ≤ 9 * cs.length := by
  induction cs with
  | nil => simp [luhnSum, luhnTerms]
  | cons c t ih =>
    have hc := digitVal_le c (hd c (List.mem_cons_self _ _))
    have h2 := decimalDigitSum_double_le (digitVal c) (by omega)
    have ih2 := ih (fun x hx => hd x (List.mem_cons_of_mem _ hx))
    rw [luhnSum_cons, List.length_cons]
    split <;> omega

/-- Adding up digit units with the reducer of `creditcard` is exact. -/
theorem foldl_digits (l : List Char) (hd : ∀ c ∈ l, isDigit c = true) :
    ∀ a : Nat, a + (l.map digitVal).sum ≤ 2 ^ 53 →
      l.foldl (fun (memo : JSNum) (num : Char) => memo.add (JS.toNumber [num])) (JSNum.fin (a : ℚ))
        = JSNum.fin ((a + (l.map digitVal).sum : Nat) : ℚ) := by
  induction l with
  | nil => intro a _; simp
  | cons c t ih =>
    intro a h
    simp only [List.map_cons, List.sum_cons] at h
    have hc : isDigit c = true := hd c (List.mem_cons_self _ _)
    simp only [List.foldl_cons, toNumber_digit c hc, List.map_cons, List.sum_cons]
    rw [add_fin_nat a (digitVal c) (by omega),
      ih (fun x hx => hd x (List.mem_cons_of_mem _ hx)) (a + digitVal c) (by omega)]
    congr 2
    omega

/-- The reducer of `creditcard`, run over the flattened array the loop leaves for a
string of digits, adds up the Luhn sum of the string. -/
theorem foldl_luhn (cs : JSString) (hd : ∀ c ∈ cs, isDigit c = true) :
    ∀ a : Nat, a + luhnSum cs ≤ 2 ^ 53 →
      (flatten (luhnLoop cs.length (cs.map Cell.unit))).foldl
          (fun (memo : JSNum) (num : Char) => memo.add (JS.toNumber [num])) (JSNum.fin (a : ℚ))
        = JSNum.fin ((a + luhnSum cs : Nat) : ℚ) := by
  induction cs with
  | nil => intro a _; simp [luhnLoop, flatten, luhnSum, luhnTerms]
  | cons c t ih =>
    intro a h
    have hc : isDigit c = true := hd c (List.mem_cons_self _ _)
    have hc9 := digitVal_le c hc
    have ht := ih (fun x hx => hd x (List.mem_cons_of_mem _ hx))
    rw [luhnSum_cons] at h ⊢
    have hlen : (t.map Cell.unit).length = t.length := by simp
    rw [List.map_cons, List.length_cons, ← hlen, luhnLoop_cons, hlen]
    by_cases hodd : t.length % 2 = 1
    · simp only [hodd, if_true] at h ⊢
      have hdbl : ((JS.toNumber (Cell.unit c).text).mul (.ofNat 2)).toJSString
          = Nat.toDigits 10 (2 * digitVal c) := by
        show ((JS.toNumber [c]).mul (.ofNat 2)).toJSString = _
        rw [toNumber_digit c hc, ofNat_eq 2 (by norm_num), mul_fin_nat _ _ (by omega),
          Nat.mul_comm, toJSString_fin_nat _ (by omega)]
      rw [hdbl]
      simp only [flatten, List.foldl_append]
      rw [foldl_digits _ (toDigits_double_digits _ (by omega)) a
        (by unfold decimalDigitSum at h; omega)]
      rw [ht _ (by unfold decimalDigitSum at h; omega)]
      congr 2
      unfold decimalDigitSum
      omega
    · simp only [hodd, if_false] at h ⊢
      simp only [flatten, List.foldl_cons, toNumber_digit c hc]
      rw [add_fin_nat a _ (by omega), ht _ (by omega)]
      congr 2
      omega

theorem isBlank_digits (s : JSString) (hne : s ≠ []) (hd : ∀ c ∈ s, isDigit c = true) :
    Underscore.isBlank s = false := by
  cases s with
  | nil => exact absurd rfl hne
  | cons c t =>
    simp [Underscore.isBlank, isDigit_not_ws c (hd c (List.mem_cons_self _ _))]

theorem number_digits (f : Field) (hne : f.val ≠ []) (hd : ∀ c ∈ f.val, isDigit c = true) :
    number f = .bool true := by
  unfold number
  rw [toNumber_digits f.val hne hd]
  cases h : roundDouble ((decVal f.val : Nat) : ℚ) with
  | nan => exact absurd h (roundDouble_ne_nan _)
  | inf b => rfl
  | fin q => rfl

theorem digitSum_digits (f : Field) (hd : ∀ c ∈ f.val, isDigit c = true) :
    digitSum (flatten (luhnLoop (f.val.map Cell.unit).length (f.val.map Cell.unit)))
      = .fin ((luhnSum f.val : Nat) : ℚ) := by
  have hb := luhnSum_le f.val hd
  have hl := f.val_length
  have h53 : (9 : Nat) * 2 ^ 32 ≤ 2 ^ 53 := by norm_num
  have h0 : JSNum.ofNat 0 = .fin ((0 : Nat) : ℚ) := ofNat_eq 0 (by norm_num)
  unfold digitSum
  rw [h0, List.length_map, foldl_luhn f.val hd 0 (by omega), Nat.zero_add]

/-- The test `creditcard` on a non-empty string of digits: the classification when the
Luhn sum is divisible by 10, `false` otherwise. -/
theorem creditcard_digits (f : Field) (hne : f.val ≠ []) (hd : ∀ c ∈ f.val, isDigit c = true) :
    creditcard f = if luhnSum f.val % 10 = 0 then .str (cardType f.val) else .bool false := by
  have h10 : JSNum.ofNat 10 = .fin ((10 : Nat) : ℚ) := ofNat_eq 10 (by norm_num)
  unfold creditcard
  simp only [isBlank_digits f.val hne hd, number_digits f hne hd, JSVal.truthy,
    digitSum_digits f hd, h10, mod_fin_nat _ 10 (by norm_num), truthy_fin_nat]
  by_cases h : luhnSum f.val % 10 = 0 <;> simp [h]

theorem foldl_dec_lt (s : JSString) (hd : ∀ c ∈ s, isDigit c = true) :
    ∀ a : Nat, s.foldl (fun a c => 10 * a + digitVal c) a + 1 ≤ (a + 1) * 10 ^ s.length := by
  induction s with
  | nil => intro a; simp
  | cons c t ih =>
    intro a
    have hc := digitVal_le c (hd c (List.mem_cons_self _ _))
    have h := ih (fun x hx => hd x (List.mem_cons_of_mem _ hx)) (10 * a + digitVal c)
    simp only [List.foldl_cons, List.length_cons]
    calc List.foldl (fun a c => 10 * a + digitVal c) (10 * a + digitVal c) t + 1
        ≤ (10 * a + digitVal c + 1) * 10 ^ t.length := h
      _ ≤ (10 * (a + 1)) * 10 ^ t.length := Nat.mul_le_mul_right _ (by omega)
      _ = (a + 1) * 10 ^ (t.length + 1) := by ring

theorem decVal_lt (s : JSString) (hd : ∀ c ∈ s, isDigit c = true) :
    decVal s < 10 ^ s.length := by
  have h := foldl_dec_lt s hd 0
  unfold decVal
  omega

theorem toNumber_take (s : JSString) (k : Nat) (hk : 0 < k) (hk5 : k ≤ 15) (hne : s ≠ [])
    (hd : ∀ c ∈ s, isDigit c = true) :
    JS.toNumber (s.take k) = .fin ((decVal (s.take k) : Nat) : ℚ) := by
  have hdk : ∀ c ∈ s.take k, isDigit c = true := fun c hc => hd c (List.mem_of_mem_take hc)
  have hnek : s.take k ≠ [] := by
    cases s with
    | nil => exact absurd rfl hne
    | cons c t =>
      cases k with
      | zero => omega
      | succ j => simp
  rw [toNumber_digits _ hnek hdk]
  apply roundDouble_natCast
  have h1 := decVal_lt _ hdk
  have h2 : (s.take k).length ≤ 15 := by
    rw [List.length_take]; omega
  have h3 : 10 ^ (s.take k).length ≤ 10 ^ 15 := Nat.pow_le_pow_right (by norm_num) h2
  have h4 : (10 : Nat) ^ 15 ≤ 2 ^ 53 := by norm_num
  omega

/-- On a non-empty string of digits the classification of `creditcard` is the card type
of the specification. -/
theorem cardType_digits (s : JSString) (hne : s ≠ []) (hd : ∀ c ∈ s, isDigit c = true) :
    cardType s = cardTypeOf s := by
  unfold cardType cardTypeOf
  simp only [toNumber_take s 2 (by norm_num) (by norm_num) hne hd,
    toNumber_take s 1 (by norm_num) (by norm_num) hne hd,
    toNumber_take s 4 (by norm_num) (by norm_num) hne hd,
    ofNat_eq 51 (by norm_num), ofNat_eq 55 (by norm_num), ofNat_eq 34 (by norm_num),
    ofNat_eq 37 (by norm_num), ofNat_eq 4 (by norm_num), ofNat_eq 6011 (by norm_num),
    ge_fin_nat, le_fin_nat, eq_fin_nat]
  simp only [Bool.and_eq_true, Bool.or_eq_true, decide_eq_true_eq, beq_iff_eq, and_assoc]

end Validator.Tests

namespace Validator

/-- C7. For every non-empty string of decimal digits, `creditcard` yields a result other
than `false` if and only if the Luhn sum of the value is divisible by 10. -/
theorem creditcard_iff_luhn (f : Field) (hne : f.val ≠ [])
    (hd : ∀ c ∈ f.val, isDigit c = true) :
    Tests.creditcard f ≠ .bool false ↔ luhnSum f.val % 10 = 0 := by
  rw [Tests.creditcard_digits f hne hd]
  by_cases h : luhnSum f.val % 10 = 0 <;> simp [h]

/-- An instance of C7: `79927398713` has Luhn sum 70 and does not yield `false`. -/
theorem creditcard_iff_luhn_witness :
    luhnSum "79927398713".toList = 70 ∧
    Tests.creditcard { val := "79927398713".toList } ≠ .bool false :=
  ⟨by decide,
   (creditcard_iff_luhn { val := "79927398713".toList } (by decide) (by decide)).mpr
     (by decide)⟩

/-- C8 (the code at the failing input). The value `51000000000000.0` is not blank and
holds a unit that is no digit, yet `creditcard` yields the classification `mastercard`:
the value passes the test `number`, the unit `.` makes the sum NaN, and
`!(NaN % 10)` is true. -/
theorem creditcard_accepts_non_digit :
    Underscore.isBlank "51000000000000.0".toList = false ∧
    ("51000000000000.0".toList).all isDigit = false ∧
    Tests.digitSum (Tests.flatten (Tests.luhnLoop 16
      ("51000000000000.0".toList.map Tests.Cell.unit))) = .nan ∧
    Tests.creditcard { val := "51000000000000.0".toList } = .str "mastercard".toList := by
  decide!

/-- C9. For every Luhn-valid value made of decimal digits (at least one), `creditcard`
yields the card type determined by prefix and length; `4111111111111111` yields `visa`
and `4111111111111112` yields `false`. -/
theorem creditcard_card_type :
    (∀ f : Field, f.val ≠ [] → (∀ c ∈ f.val, isDigit c = true) → luhnSum f.val % 10 = 0 →
      Tests.creditcard f = .str (cardTypeOf f.val)) ∧
    Tests.creditcard { val := "4111111111111111".toList } = .str "visa".toList ∧
    Tests.creditcard { val := "4111111111111112".toList } = .bool false := by
  refine ⟨fun f hne hd hl => ?_, by decide!, by decide!⟩
  rw [Tests.creditcard_digits f hne hd, if_pos hl, Tests.cardType_digits f.val hne hd]

/-- An instance of C9: the Luhn-valid value `378282246310005`, with first digits 37 and
length 15, yields `amex`. -/
theorem creditcard_card_type_witness :
    Tests.creditcard { val := "378282246310005".toList } = .str "amex".toList :=
  creditcard_card_type.1 { val := "378282246310005".toList } (by decide) (by decide) (by decide)

end Validator

namespace JS

theorem pow2_eq (e : Int) : pow2 e = (2 : ℚ) ^ e := by
  unfold pow2
  split
  · rename_i h
    have : ((2 ^ e.toNat : Nat) : ℚ) = (2 : ℚ) ^ (e.toNat : ℤ) := by
      rw [zpow_natCast]; push_cast; rfl
    rw [this, Int.toNat_of_nonneg h]
  · rename_i h
    have hneg : 0 ≤ -e := by omega
    rw [Rat.mkRat_eq_div]
    have : ((2 ^ (-e).toNat : Nat) : ℚ) = (2 : ℚ) ^ ((-e).toNat : ℤ) := by
      rw [zpow_natCast]; push_cast; rfl
    push_cast at this ⊢
    rw [this, Int.toNat_of_nonneg hneg, zpow_neg]
    simp

theorem log2Aux_le (fuel : Nat) : ∀ n : Nat, 1 ≤ n → 2 ^ log2Aux fuel n ≤ n := by
  induction fuel with
  | zero => intro n h; simpa [log2Aux] using h
  | succ k ih =>
    intro n h
    unfold log2Aux
    split
    · simpa using h
    · have h2 : 1 ≤ n / 2 := by omega
      have := ih (n / 2) h2
      rw [pow_succ]
      omega

theorem natLog2_le (n : Nat) (h : 1 ≤ n) : 2 ^ natLog2 n ≤ n := log2Aux_le n n h

theorem floorLog2_natCast_le (n : Nat) (h : 1 ≤ n) : pow2 (floorLog2 (n : ℚ)) ≤ (n : ℚ) := by
  unfold floorLog2
  have h1 : natLog2 1 = 0 := by decide
  simp only [Rat.num_natCast, Int.natAbs_ofNat, Rat.den_natCast, h1, Nat.cast_zero, sub_zero]
  have hle : pow2 (natLog2 n : ℤ) ≤ (n : ℚ) := by
    rw [pow2_eq, zpow_natCast]
    exact_mod_cast natLog2_le n h
  rw [if_pos hle]
  exact hle

theorem roundHalfEven_ge (k : ℚ) : ratFloorNat k ≤ roundHalfEven k := by
  unfold roundHalfEven
  simp only
  split
  · exact le_refl _
  · split
    · omega
    · split <;> omega

/-- A natural number above `2 ^ 53` rounds to infinity or to a value above `2 ^ 52`. -/
theorem roundDouble_large (n : Nat) (h : 2 ^ 53 < n) :
    roundDouble (n : ℚ) = .inf false ∨
      ∃ r : ℚ, roundDouble (n : ℚ) = .fin r ∧ (2 : ℚ) ^ 52 < r := by
  have hn1 : 1 ≤ n := by omega
  have hnq : ((2 : ℚ) ^ 53) < (n : ℚ) := by exact_mod_cast h
  have hpos : (0 : ℚ) < (n : ℚ) := by positivity
  unfold roundDouble
  rw [if_neg (by simp; omega), if_pos hpos]
  unfold roundDoublePos
  simp only
  set e : ℤ := max (floorLog2 (n : ℚ)) (-1022) with he
  have hpe : pow2 e ≤ (n : ℚ) := by
    rcases max_cases (floorLog2 (n : ℚ)) (-1022) with ⟨h1, _⟩ | ⟨h1, _⟩
    · rw [he, h1]; exact floorLog2_natCast_le n hn1
    · rw [he, h1, pow2_eq]
      have : (2 : ℚ) ^ (-1022 : ℤ) ≤ 1 := by
        rw [zpow_neg]
        exact inv_le_one_of_one_le₀ (one_le_zpow₀ (by norm_num) (by norm_num))
      linarith [show (1 : ℚ) ≤ (n : ℚ) by exact_mod_cast hn1]
  have hulp : pow2 (e - 52) = pow2 e / 2 ^ 52 := by
    rw [pow2_eq, pow2_eq, zpow_sub₀ (by norm_num)]
    norm_cast
  have hupos : 0 < pow2 (e - 52) := by
    rw [pow2_eq]; positivity
  set ulp := pow2 (e - 52) with hu
  have hk0 : (0 : ℚ) ≤ (n : ℚ) / ulp := by positivity
  have hfl : (n : ℚ) / ulp < (ratFloorNat ((n : ℚ) / ulp) : ℚ) + 1 := by
    rw [ratFloorNat_eq _ hk0]
    exact Nat.lt_floor_add_one _
  have hge : (ratFloorNat ((n : ℚ) / ulp) : ℚ) ≤ (roundHalfEven ((n : ℚ) / ulp) : ℚ) := by
    exact_mod_cast roundHalfEven_ge _
  have hr : (n : ℚ) - ulp < (roundHalfEven ((n : ℚ) / ulp) : ℚ) * ulp := by
    have h1 : ((n : ℚ) / ulp - 1) * ulp < (roundHalfEven ((n : ℚ) / ulp) : ℚ) * ulp := by
      apply mul_lt_mul_of_pos_right _ hupos
      linarith
    have h2 : ((n : ℚ) / ulp - 1) * ulp = (n : ℚ) - ulp := by
      field_simp
    linarith
  have hsmall : ulp ≤ (n : ℚ) / 2 ^ 52 := by
    rw [hulp]
    exact div_le_div_of_nonneg_right hpe (by positivity)
  have hbig : (2 : ℚ) ^ 52 < (roundHalfEven ((n : ℚ) / ulp) : ℚ) * ulp := by
    have h3 : (n : ℚ) / 2 ^ 52 ≤ (n : ℚ) / 2 := by
      apply div_le_div_of_nonneg_left (by positivity) (by norm_num) (by norm_num)
    have h4 : (n : ℚ) - (n : ℚ) / 2 = (n : ℚ) / 2 := by ring
    have h5 : (2 : ℚ) ^ 52 < (n : ℚ) / 2 := by
      have : (2 : ℚ) ^ 53 = 2 * 2 ^ 52 := by norm_num
      linarith
    linarith
  split
  · exact Or.inl rfl
  · exact Or.inr ⟨_, rfl, hbig⟩

theorem roundDouble_le_small (d k : Nat) (hk : k ≤ 2 ^ 52) :
    (roundDouble (d : ℚ)).le (.fin (k : ℚ)) = decide (d ≤ k) := by
  by_cases hd : d ≤ 2 ^ 53
  · rw [roundDouble_natCast d hd, le_fin_nat]
  · have hd2 : 2 ^ 53 < d := by omega
    have hkq : (k : ℚ) ≤ (2 : ℚ) ^ 52 := by exact_mod_cast hk
    have hf : decide (d ≤ k) = false := by
      have : (2 : Nat) ^ 52 ≤ 2 ^ 53 := by norm_num
      simp; omega
    rw [hf]
    rcases roundDouble_large d hd2 with h | ⟨r, h, hr⟩
    · rw [h]; rfl
    · rw [h]
      simp only [JSNum.le, decide_eq_false_iff_not, not_le]
      linarith

end JS

namespace Validator.Tests

theorem split_three (sep : Char) (ms ds ys : JSString)
    (hm : ∀ c ∈ ms, c ≠ sep) (hd : ∀ c ∈ ds, c ≠ sep) (hy : ∀ c ∈ ys, c ≠ sep) :
    split sep (ms ++ sep :: (ds ++ sep :: ys)) = [ms, ds, ys] := by
  unfold split List.splitOn
  rw [List.splitOnP_first _ ms (by simpa using hm) sep (by simp),
    List.splitOnP_first _ ds (by simpa using hd) sep (by simp),
    List.splitOnP_eq_single _ ys (by simpa using hy)]

theorem digit_ne_sep (sep : Char) (hsep : sep = '/' ∨ sep = '-') (s : JSString)
    (hd : ∀ c ∈ s, isDigit c = true) : ∀ c ∈ s, c ≠ sep := by
  intro c hc
  rcases hsep with rfl | rfl
  · exact isDigit_ne _ _ (hd c hc) (by decide)
  · exact isDigit_ne _ _ (hd c hc) (by decide)

theorem date_parts (sep : Char) (hsep : sep = '/' ∨ sep = '-') (ms ds ys : JSString)
    (hm : ∀ c ∈ ms, isDigit c = true) (hd : ∀ c ∈ ds, isDigit c = true)
    (hy : ∀ c ∈ ys, isDigit c = true) :
    (if Underscore.strInclude (ms ++ sep :: (ds ++ sep :: ys)) '/'
      then split '/' (ms ++ sep :: (ds ++ sep :: ys))
      else split '-' (ms ++ sep :: (ds ++ sep :: ys))) = [ms, ds, ys] := by
  rcases hsep with rfl | rfl
  · have hi : Underscore.strInclude (ms ++ '/' :: (ds ++ '/' :: ys)) '/' = true := by
      simp [Underscore.strInclude]
    rw [if_pos hi]
    exact split_three '/' ms ds ys (digit_ne_sep _ (Or.inl rfl) ms hm)
      (digit_ne_sep _ (Or.inl rfl) ds hd) (digit_ne_sep _ (Or.inl rfl) ys hy)
  · have hi : Underscore.strInclude (ms ++ '-' :: (ds ++ '-' :: ys)) '/' = false := by
      have h1 := digit_ne_sep '/' (Or.inl rfl) ms hm
      have h2 := digit_ne_sep '/' (Or.inl rfl) ds hd
      have h3 := digit_ne_sep '/' (Or.inl rfl) ys hy
      have hmem : '/' ∉ ms ++ '-' :: (ds ++ '-' :: ys) := by
        intro h
        rcases List.mem_append.mp h with h | h
        · exact h1 _ h rfl
        · rcases List.mem_cons.mp h with h | h
          · exact absurd h (by decide)
          · rcases List.mem_append.mp h with h | h
            · exact h2 _ h rfl
            · rcases List.mem_cons.mp h with h | h
              · exact absurd h (by decide)
              · exact h3 _ h rfl
      simpa [Underscore.strInclude] using hmem
    rw [if_neg (by simp [hi])]
    exact split_three '-' ms ds ys (digit_ne_sep _ (Or.inr rfl) ms hm)
      (digit_ne_sep _ (Or.inr rfl) ds hd) (digit_ne_sep _ (Or.inr rfl) ys hy)

theorem isNaN_toNumber_digits (s : JSString) (hne : s ≠ []) (hd : ∀ c ∈ s, isDigit c = true) :
    (JS.toNumber s).isNaN = false := by
  rw [toNumber_digits s hne hd]
  cases h : roundDouble ((decVal s : Nat) : ℚ) with
  | nan => exact absurd h (roundDouble_ne_nan _)
  | inf b => rfl
  | fin q => rfl

theorem leapCondition_digits (ys : JSString) (hne : ys ≠ []) (hd : ∀ c ∈ ys, isDigit c = true)
    (hy : decVal ys < 2 ^ 53) : leapCondition ys = isLeapYear (decVal ys) := by
  unfold leapCondition isLeapYear
  simp only [toNumber_digits ys hne hd, roundDouble_natCast _ (le_of_lt hy),
    ofNat_eq 4 (by norm_num), ofNat_eq 100 (by norm_num), ofNat_eq 400 (by norm_num),
    mod_fin_nat _ 4 (by norm_num), mod_fin_nat _ 100 (by norm_num),
    mod_fin_nat _ 400 (by norm_num), truthy_fin_nat]
  by_cases h4 : decVal ys % 4 = 0 <;> by_cases h100 : decVal ys % 100 = 0 <;>
    by_cases h400 : decVal ys % 400 = 0 <;> simp [h4, h100, h400]

theorem days_get (m : Nat) (h1 : 1 ≤ m) (h12 : m ≤ 12) (leap : Bool) :
    (if leap = true then numDays.set 1 29 else numDays).get? (m - 1)
      = some (if m = 2 then (if leap = true then 29 else 28)
          else if m = 4 ∨ m = 6 ∨ m = 9 ∨ m = 11 then 30 else 31) := by
  interval_cases m <;> cases leap <;> rfl

theorem dayWithinMonth_digits (ms ds ys : JSString)
    (hm : ms ≠ [] ∧ ∀ c ∈ ms, isDigit c = true) (hd : ds ≠ [] ∧ ∀ c ∈ ds, isDigit c = true)
    (h1 : 1 ≤ decVal ms) (h12 : decVal ms ≤ 12) (leap : Bool) (hleap : leap = isLeapYear (decVal ys)) :
    dayWithinMonth (if leap = true then numDays.set 1 29 else numDays) ms ds
      = decide (decVal ds ≤ dayCount (decVal ms) (decVal ys)) := by
  unfold dayWithinMonth
  have h53 : decVal ms ≤ 2 ^ 53 := by
    have : (12 : Nat) ≤ 2 ^ 53 := by norm_num
    omega
  rw [toNumber_digits ms hm.1 hm.2, roundDouble_natCast _ h53, ofNat_eq 1 (by norm_num),
    sub_fin_nat _ 1 h1 h53, toIndex_fin_nat]
  simp only [days_get _ h1 h12 leap]
  have hcount : (if decVal ms = 2 then (if leap = true then 29 else 28)
      else if decVal ms = 4 ∨ decVal ms = 6 ∨ decVal ms = 9 ∨ decVal ms = 11 then 30 else 31)
      = dayCount (decVal ms) (decVal ys) := by
    unfold dayCount
    rw [hleap]
  rw [hcount]
  have hle : dayCount (decVal ms) (decVal ys) ≤ 31 := by
    unfold dayCount
    split_ifs <;> omega
  have h252 : (31 : Nat) ≤ 2 ^ 52 := by norm_num
  rw [toNumber_digits ds hd.1 hd.2, ofNat_eq _ (by omega : dayCount (decVal ms) (decVal ys) ≤ 2 ^ 53)]
  exact roundDouble_le_small _ _ (by omega)

/-- The test `date` on a value `m/d/y` or `m-d-y` written with decimal digits, for a
month from 1 to 12 and a year below `2 ^ 53`. -/
theorem date_digits (f : Field) (sep : Char) (hsep : sep = '/' ∨ sep = '-')
    (ms ds ys : JSString)
    (hm : ms ≠ [] ∧ ∀ c ∈ ms, isDigit c = true) (hd : ds ≠ [] ∧ ∀ c ∈ ds, isDigit c = true)
    (hy : ys ≠ [] ∧ ∀ c ∈ ys, isDigit c = true)
    (hval : f.val = ms ++ sep :: (ds ++ sep :: ys))
    (h1 : 1 ≤ decVal ms) (h12 : decVal ms ≤ 12) (hy53 : decVal ys < 2 ^ 53) :
    date f = .bool (decide (decVal ds ≤ dayCount (decVal ms) (decVal ys))) := by
  have hblank : Underscore.isBlank (ms ++ sep :: (ds ++ sep :: ys)) = false := by
    obtain ⟨c, t, rfl⟩ := List.exists_cons_of_ne_nil hm.1
    simp [Underscore.isBlank, isDigit_not_ws c (hm.2 c (List.mem_cons_self _ _))]
  unfold date
  simp only [hval, date_parts sep hsep ms ds ys hm.2 hd.2 hy.2, hblank,
    isBlank_digits ms hm.1 hm.2, isBlank_digits ds hd.1 hd.2, isBlank_digits ys hy.1 hy.2,
    isNaN_toNumber_digits ms hm.1 hm.2, isNaN_toNumber_digits ds hd.1 hd.2,
    isNaN_toNumber_digits ys hy.1 hy.2, Bool.not_false, Bool.and_self, if_true]
  rw [dayWithinMonth_digits ms ds ys hm hd h1 h12 (leapCondition ys)
    (leapCondition_digits ys hy.1 hy.2 hy53)]

end Validator.Tests

namespace Validator

/-- C10 (as stated, refuted). The year 9007199254740993 (`2 ^ 53 + 1`) is not divisible
by 4, so its February has 28 days and the day 29 exceeds it, yet `date` passes
`2/29/9007199254740993`: the text of the year converts to the Number
9007199254740992, which is divisible by 4 and not by 100. -/
theorem date_large_year_passes :
    decVal "9007199254740993".toList = 9007199254740993 ∧
    ¬ (29 ≤ dayCount 2 9007199254740993) ∧
    JS.toNumber "9007199254740993".toList = .fin 9007199254740992 ∧
    Tests.date { val := "2/29/9007199254740993".toList } = .bool true := by
  decide!

/-- C10 (amended). For all natural numbers `m` in 1..12, `d`, and `y` below `2 ^ 53`,
written with decimal digits, `date` on `m/d/y` and on `m-d-y` passes if and only if `d`
does not exceed the day count of month `m` in year `y`, February having 29 days exactly
in the leap years of the Gregorian rule; `2/29/2024` passes while `2/30/2021` and
`2/29/2023` fail. -/
theorem date_day_count :
    (∀ (f : Field) (sep : Char) (ms ds ys : JSString),
      (sep = '/' ∨ sep = '-') →
      (ms ≠ [] ∧ ∀ c ∈ ms, isDigit c = true) →
      (ds ≠ [] ∧ ∀ c ∈ ds, isDigit c = true) →
      (ys ≠ [] ∧ ∀ c ∈ ys, isDigit c = true) →
      f.val = ms ++ sep :: (ds ++ sep :: ys) →
      1 ≤ decVal ms → decVal ms ≤ 12 → decVal ys < 2 ^ 53 →
      (Tests.date f = .bool true ↔ decVal ds ≤ dayCount (decVal ms) (decVal ys))) ∧
    Tests.date { val := "2/29/2024".toList } = .bool true ∧
    Tests.date { val := "2/30/2021".toList } = .bool false ∧
    Tests.date { val := "2/29/2023".toList } = .bool false := by
  refine ⟨fun f sep ms ds ys hsep hm hd hy hval h1 h12 hy53 => ?_, by decide!, by decide!,
    by decide!⟩
  rw [Tests.date_digits f sep hsep ms ds ys hm hd hy hval h1 h12 hy53]
  simp

/-- An instance of the amended C10: `12-31-1999` passes, the day 31 not exceeding the 31
days of December 1999. -/
theorem date_day_count_witness :
    Tests.date { val := "12-31-1999".toList } = .bool true :=
  (date_day_count.1 { val := "12-31-1999".toList } '-' "12".toList "31".toList "1999".toList
    (Or.inr rfl) (by decide) (by decide) (by decide) rfl (by decide) (by decide)
    (by decide)).mpr (by decide)

end Validator

namespace JS

/-- ToNumber of a one-unit string is NaN or a natural number up to 9, so that its double
is NaN or a natural number below `10 ^ 21`, which `JSNum.toJSString` prints. -/
theorem toNumber_unit (c : Char) :
    toNumber [c] = .nan ∨ ∃ n : Nat, n ≤ 9 ∧ toNumber [c] = .fin (n : ℚ) := by
  by_cases hw : isWhiteSpace c = true
  · right
    refine ⟨0, by omega, ?_⟩
    simp [toNumber, trim, List.dropWhile_cons, hw]
  · have hw2 : isWhiteSpace c = false := by simpa using hw
    by_cases hd : isDigit c = true
    · right
      refine ⟨digitVal c, ?_, ?_⟩
      · rw [isDigit_iff] at hd; unfold digitVal; omega
      · rw [toNumber_digits [c] (by simp) (by simpa using hd)]
        have : decVal [c] = digitVal c := by simp [decVal]
        rw [this]
        exact roundDouble_natCast _ (by rw [isDigit_iff] at hd; unfold digitVal; omega)
    · left
      have hd2 : isDigit c = false := by simpa using hd
      have htrim : trim [c] = [c] := by simp [trim, List.dropWhile_cons, hw2]
      have hI : [c] ≠ infinityText := by simp [infinityText]
      have hE : ([] : JSString) ≠ infinityText := by simp [infinityText]
      have hu : parseUnsignedDecimal [c] = none := by
        by_cases hdot : c = '.'
        · subst hdot
          rfl
        · simp [parseUnsignedDecimal, List.takeWhile_cons, List.dropWhile_cons, hd2, hdot]
      have hu0 : parseUnsignedDecimal [] = none := by simp [parseUnsignedDecimal]
      unfold toNumber
      simp only [htrim, List.cons_ne_nil, if_false, parseNonDecimal, parseStrDecimal,
        parseUnsigned, hI, hE, hu, hu0, Option.map_none']
      by_cases hp : c = '+'
      · simp [hp]
      · by_cases hm : c = '-'
        · simp [hm]
        · simp [hp, hm]

end JS

namespace JS

/-- The general rounding agrees with the shortcut of `roundDouble` on representable
integers and rounds to the nearest binary64 value elsewhere: `2 ^ 53 + 1` and
`2 ^ 53 + 3` go to their even neighbours, one tenth to the binary64 value nearest to it,
and `2 ^ 1024` overflows to infinity. -/
theorem roundDoublePos_examples :
    roundDoublePos 1 = .fin 1 ∧
    roundDoublePos 12 = .fin 12 ∧
    roundDoublePos 9007199254740992 = .fin 9007199254740992 ∧
    roundDoublePos 9007199254740993 = .fin 9007199254740992 ∧
    roundDoublePos 9007199254740995 = .fin 9007199254740996 ∧
    roundDoublePos (1 / 10) = .fin (3602879701896397 / 36028797018963968) ∧
    roundDoublePos (2 ^ 1024) = .inf false := by
  decide!

end JS

namespace Validator

/-! ## The test `required` -/

/-- C13. With no argument `required` passes if and only if the value is neither empty
nor made only of white space (it fails for the empty value, for one space and for a line
feed); with the flag set, that is with `allowWhitespace` bound to an array of
arguments, it passes if and only if the value is not the empty string (it passes for
one space). -/
theorem required_iff :
    (∀ f : Field, Tests.required f none = .bool true ↔
      (f.val ≠ [] ∧ ¬ ∀ c ∈ f.val, isWhiteSpace c = true)) ∧
    (∀ (f : Field) (a : List JSString), Tests.required f (some a) = .bool true ↔ f.val ≠ []) ∧
    Tests.required { val := [] } none = .bool false ∧
    Tests.required { val := [' '] } none = .bool false ∧
    Tests.required { val := ['\n'] } none = .bool false ∧
    Tests.required { val := [' '] } (some []) = .bool true := by
  refine ⟨fun f => ?_, fun f a => ?_, by decide, by decide, by decide, by decide⟩
  · simp only [Tests.required, Underscore.isBlank, JSVal.bool.injEq, Bool.not_eq_true',
      List.all_eq_false]
    constructor
    · rintro ⟨c, hc, hw⟩
      exact ⟨List.ne_nil_of_mem hc, fun h => hw (h c hc)⟩
    · rintro ⟨_, h⟩
      by_contra hcon
      exact h (fun c hc => by
        by_contra hw
        exact hcon ⟨c, hc, hw⟩)
  · simp [Tests.required]

/-- An instance of C13: the value `a b` is neither empty nor white space only, and
`required` passes it. -/
theorem required_iff_witness :
    Tests.required { val := "a b".toList } none = .bool true :=
  (required_iff.1 { val := "a b".toList }).mpr (by decide)

/-- C14 (the code at the failing input). For a field configured with the spec
`required:false`, `check` passes the value of one space: `required` receives the array
`["false"]` as `allowWhitespace`, and an array is truthy whatever it holds. -/
theorem check_required_false :
    check (some { val := " ".toList, tests := ["required:false".toList] })
      = .ok ⟨⟨some { val := " ".toList, tests := ["required:false".toList] }, true, none⟩,
             [⟨.arr ["required".toList], some ["false".toList], .bool true⟩]⟩ := by
  decide

/-! ## The constructor -/

/-- C19 (the code at the failing input). A configuration with `showErrors: false` and
`showMessages: false` yields a validator whose two flags are `true`: `false || true` is
`true`.  An omitted option, and the option `true`, yield `true` as well. -/
theorem flags_ignore_false :
    flags { showErrors := .bool false, showMessages := .bool false } = ⟨.bool true, .bool true⟩ ∧
    flags { } = ⟨.bool true, .bool true⟩ ∧
    flags { showErrors := .bool true, showMessages := .bool true } = ⟨.bool true, .bool true⟩ := by
  decide

end Validator

namespace Validator

/-! ## The tests `date` and `zip-us-ca` at inputs they should reject or accept -/

/-- C11 (the code at the failing input). The value `1/0/2020` is not blank and is no
valid date, its day being 0, yet `date` passes it: the day is compared with the day
count of the month from above only.  The same holds with the day written `-5` or `1.5`,
no positive integer, and with the year written `2020.5`, no integer. -/
theorem date_accepts_day_zero :
    Underscore.isBlank "1/0/2020".toList = false ∧
    Tests.date { val := "1/0/2020".toList } = .bool true ∧
    Tests.date { val := "1/-5/2020".toList } = .bool true ∧
    Tests.date { val := "1/1.5/2020".toList } = .bool true ∧
    Tests.date { val := "1/1/2020.5".toList } = .bool true := by
  decide!

/-- C17 (the code at the failing input). The value `k1a 0b1` passes `zip-ca`, whose
pattern carries the flag `i`, and fails `zip-us-ca`, whose pattern carries no flag; in
upper case the same code passes both. -/
theorem zip_us_ca_rejects_lower_case :
    Tests.«zip-ca» { val := "k1a 0b1".toList } = .bool true ∧
    Tests.«zip-us» { val := "k1a 0b1".toList } = .bool false ∧
    Tests.«zip-us-ca» { val := "k1a 0b1".toList } = .bool false ∧
    Tests.«zip-ca» { val := "K1A 0B1".toList } = .bool true ∧
    Tests.«zip-us-ca» { val := "K1A 0B1".toList } = .bool true := by
  decide

end Validator

/-! ## The test `length` -/

namespace JS

theorem ratFloorNat_add_half (n : Nat) : ratFloorNat ((n : ℚ) + 1 / 2) = n := by
  rw [ratFloorNat_eq _ (by positivity)]
  rw [Nat.floor_eq_iff (by positivity)]
  constructor <;> linarith

theorem roundDoublePos_nonneg (a : ℚ) :
    roundDoublePos a = .inf false ∨ ∃ r : ℚ, roundDoublePos a = .fin r ∧ 0 ≤ r := by
  unfold roundDoublePos
  simp only
  split
  · exact Or.inl rfl
  · refine Or.inr ⟨_, rfl, ?_⟩
    apply mul_nonneg (by positivity)
    rw [pow2_eq]
    positivity

/-- A rational that is not positive rounds to a Number that is not positive. -/
theorem roundDouble_nonpos (q : ℚ) (h : q ≤ 0) :
    roundDouble q = .inf true ∨ ∃ r : ℚ, roundDouble q = .fin r ∧ r ≤ 0 := by
  unfold roundDouble
  split
  · exact Or.inr ⟨q, rfl, h⟩
  · rw [if_neg (not_lt.mpr h)]
    rcases roundDoublePos_nonneg (-q) with h1 | ⟨r, h1, hr⟩
    · rw [h1]; exact Or.inl rfl
    · rw [h1]; exact Or.inr ⟨-r, rfl, by linarith⟩

/-- A natural number of at least `2 ^ 52` rounds to infinity or to a value of at least
`2 ^ 52`. -/
theorem roundDouble_far (n : Nat) (h : 2 ^ 52 ≤ n) :
    roundDouble (n : ℚ) = .inf false ∨
      ∃ r : ℚ, roundDouble (n : ℚ) = .fin r ∧ (2 : ℚ) ^ 52 ≤ r := by
  by_cases h53 : n ≤ 2 ^ 53
  · exact Or.inr ⟨n, roundDouble_natCast n h53, by exact_mod_cast h⟩
  · rcases roundDouble_large n (by omega) with h1 | ⟨r, h1, hr⟩
    · exact Or.inl h1
    · exact Or.inr ⟨r, h1, le_of_lt hr⟩

end JS

namespace Underscore
open JS

theorem roundHalfAway_natCast (n : Nat) : roundHalfAway (n : ℚ) = (n : ℤ) := by
  unfold roundHalfAway
  rw [if_pos (by positivity), ratFloorNat_add_half]

/-- The rounding step of `_.toNumber` keeps a Number of at least `2 ^ 52` at least that
large. -/
theorem fixed_far (q : ℚ) (hq : (2 : ℚ) ^ 52 ≤ q) :
    (if |q| < 10 ^ 21 then roundDouble (roundHalfAway q : ℚ) else JSNum.fin q) = .inf false ∨
      ∃ r : ℚ, (if |q| < 10 ^ 21 then roundDouble (roundHalfAway q : ℚ) else JSNum.fin q)
        = .fin r ∧ (2 : ℚ) ^ 52 ≤ r := by
  have hq0 : (0 : ℚ) ≤ q := le_trans (by positivity) hq
  split
  · have hm : (2 ^ 52 : Nat) ≤ ratFloorNat (q + 1 / 2) := by
      rw [ratFloorNat_eq _ (by positivity)]
      apply Nat.le_floor
      push_cast
      linarith
    have hr : (roundHalfAway q : ℚ) = ((ratFloorNat (q + 1 / 2) : Nat) : ℚ) := by
      unfold roundHalfAway
      rw [if_pos hq0]
      push_cast
      rfl
    rw [hr]
    exact roundDouble_far _ hm
  · exact Or.inr ⟨q, rfl, hq⟩

theorem usToNumber_digits_small (ds : JSString) (hne : ds ≠ [])
    (hd : ∀ c ∈ ds, isDigit c = true) (h1 : 1 ≤ decVal ds) (h53 : decVal ds ≤ 2 ^ 53) :
    Underscore.toNumber (some ds) = .fin ((decVal ds : Nat) : ℚ) := by
  have hn0 : ((decVal ds : Nat) : ℚ) ≠ 0 := by
    have : 0 < decVal ds := h1
    exact_mod_cast this.ne'
  have habs : |((decVal ds : Nat) : ℚ)| < 10 ^ 21 := by
    rw [abs_of_nonneg (by positivity)]
    have h2 : (2 : Nat) ^ 53 < 10 ^ 21 := by norm_num
    have : decVal ds < 10 ^ 21 := by omega
    exact_mod_cast this
  have hround : roundDouble ((roundHalfAway ((decVal ds : Nat) : ℚ) : ℤ) : ℚ)
      = .fin ((decVal ds : Nat) : ℚ) := by
    rw [roundHalfAway_natCast]
    exact_mod_cast roundDouble_natCast _ h53
  unfold Underscore.toNumber
  simp only [hne, if_false, toNumber_digits ds hne hd, roundDouble_natCast _ h53, parseNumber,
    JSNum.truthy, hn0, ne_eq, not_false_eq_true, decide_True, if_true, habs, hround,
    JSNum.fin.injEq, false_and]

end Underscore

namespace JS

theorem parseUnsigned_digits (s : JSString) (hne : s ≠ []) (hd : ∀ c ∈ s, isDigit c = true) :
    parseUnsigned s = some (roundDouble ((decVal s : Nat) : ℚ)) := by
  have hI : s ≠ infinityText := by
    intro h
    have hc := hd 'I' (by rw [h]; simp [infinityText])
    exact absurd hc (by decide)
  simp [parseUnsigned, hI, parseUnsignedDecimal_digits s hne hd]

theorem toNumber_minus_digits (s : JSString) (hne : s ≠ []) (hd : ∀ c ∈ s, isDigit c = true) :
    toNumber ('-' :: s) = (roundDouble ((decVal s : Nat) : ℚ)).neg := by
  have hlast : ∀ c ∈ s.reverse ++ ['-'], isWhiteSpace c = false := by
    intro c hc
    rcases List.mem_append.mp hc with h | h
    · exact isDigit_not_ws c (hd c (List.mem_reverse.mp h))
    · have : c = '-' := by simpa using h
      rw [this]; decide
  have htrim : trim ('-' :: s) = '-' :: s := by
    unfold trim
    have h1 : ('-' :: s).dropWhile isWhiteSpace = '-' :: s := by
      simp [List.dropWhile_cons, show isWhiteSpace '-' = false by decide]
    rw [h1, List.reverse_cons]
    have h2 : (s.reverse ++ ['-']).dropWhile isWhiteSpace = s.reverse ++ ['-'] := by
      cases hr : s.reverse ++ ['-'] with
      | nil => rfl
      | cons c t =>
        have := hlast c (by rw [hr]; exact List.mem_cons_self _ _)
        simp [List.dropWhile_cons, this]
    rw [h2]
    simp
  have hnd : parseNonDecimal ('-' :: s) = none := by
    unfold parseNonDecimal
    cases s with
    | nil => rfl
    | cons c t => simp
  unfold toNumber
  simp only [htrim, List.cons_ne_nil, if_false, hnd, parseStrDecimal,
    show ('-' : Char) ≠ '+' by decide, if_true, parseUnsigned_digits s hne hd, Option.map_some',
    Option.getD_some]

theorem eq_nonpos (L : Nat) (hL : 1 ≤ L) (x : JSNum)
    (hx : x = .nan ∨ x = .inf true ∨ ∃ r : ℚ, x = .fin r ∧ r ≤ 0) :
    (JSNum.fin (L : ℚ)).eq x = false := by
  rcases hx with rfl | rfl | ⟨r, rfl, hr⟩
  · rfl
  · rfl
  · have hLq : (0 : ℚ) < (L : ℚ) := by exact_mod_cast hL
    simp only [JSNum.eq, decide_eq_false_iff_not]
    intro h
    linarith

theorem eq_far (L : Nat) (hL : L < 2 ^ 32) (x : JSNum)
    (hx : x = .nan ∨ x = .inf false ∨ ∃ r : ℚ, x = .fin r ∧ (2 : ℚ) ^ 52 ≤ r) :
    (JSNum.fin (L : ℚ)).eq x = false := by
  rcases hx with rfl | rfl | ⟨r, rfl, hr⟩
  · rfl
  · rfl
  · have hLq : (L : ℚ) < (2 : ℚ) ^ 32 := by exact_mod_cast hL
    have h2 : (2 : ℚ) ^ 32 ≤ 2 ^ 52 := by norm_num
    simp only [JSNum.eq, decide_eq_false_iff_not]
    intro h
    linarith

theorem eq_far_units (L : Nat) (hL : L < 2 ^ 34) (x : JSNum)
    (hx : x = .nan ∨ x = .inf false ∨ ∃ r : ℚ, x = .fin r ∧ (2 : ℚ) ^ 52 ≤ r) :
    (JSNum.fin (L : ℚ)).eq x = false := by
  rcases hx with rfl | rfl | ⟨r, rfl, hr⟩
  · rfl
  · rfl
  · have hLq : (L : ℚ) < (2 : ℚ) ^ 34 := by exact_mod_cast hL
    have h2 : (2 : ℚ) ^ 34 ≤ 2 ^ 52 := by norm_num
    simp only [JSNum.eq, decide_eq_false_iff_not]
    intro h
    linarith

end JS

namespace Underscore
open JS

theorem roundHalfAway_nonpos (q : ℚ) (h : q ≤ 0) : ((roundHalfAway q : ℤ) : ℚ) ≤ 0 := by
  unfold roundHalfAway
  split
  · have hq : q = 0 := le_antisymm h ‹0 ≤ q›
    subst hq
    have h0 : ratFloorNat ((0 : ℚ) + 1 / 2) = 0 := by
      have := ratFloorNat_add_half 0
      rw [Nat.cast_zero] at this
      exact this
    rw [h0]
    simp
  · have : (0 : ℚ) ≤ ((ratFloorNat (-q + 1 / 2) : Nat) : ℚ) := by positivity
    push_cast
    linarith

/-- The text of a negative integer, and of `-0`, is sent by `_.toNumber` to NaN or to a
Number that is not positive. -/
theorem usToNumber_minus_digits (ds : JSString) (hne : ds ≠ [])
    (hd : ∀ c ∈ ds, isDigit c = true) :
    Underscore.toNumber (some ('-' :: ds)) = .nan ∨
    Underscore.toNumber (some ('-' :: ds)) = .inf true ∨
    ∃ r : ℚ, Underscore.toNumber (some ('-' :: ds)) = .fin r ∧ r ≤ 0 := by
  have hx0 : roundDouble ((decVal ds : Nat) : ℚ) = .inf false ∨
      ∃ r : ℚ, roundDouble ((decVal ds : Nat) : ℚ) = .fin r ∧ 0 ≤ r := by
    by_cases h53 : decVal ds ≤ 2 ^ 53
    · exact Or.inr ⟨_, roundDouble_natCast _ h53, by positivity⟩
    · rcases roundDouble_large _ (by omega : 2 ^ 53 < decVal ds) with h | ⟨r, h, hr⟩
      · exact Or.inl h
      · exact Or.inr ⟨r, h, le_trans (by positivity) (le_of_lt hr)⟩
  have hfinal : ∀ (p : Prop) [Decidable p] (num : JSNum),
      (num = .inf true ∨ ∃ r : ℚ, num = .fin r ∧ r ≤ 0) →
      ((if p then JSNum.nan else num) = .nan ∨ (if p then JSNum.nan else num) = .inf true ∨
        ∃ r : ℚ, (if p then JSNum.nan else num) = .fin r ∧ r ≤ 0) := by
    intro p _ num hnum
    by_cases hp : p
    · simp [hp]
    · simp only [hp, if_false]
      exact Or.inr hnum
  unfold Underscore.toNumber
  simp only [List.cons_ne_nil, if_false, JS.toNumber_minus_digits ds hne hd]
  apply hfinal
  rcases hx0 with h | ⟨r, h, hr⟩
  · rw [h]
    exact Or.inl rfl
  · rw [h]
    by_cases hr0 : r = 0
    · subst hr0
      right
      have h0 : roundHalfAway 0 = 0 := by
        have := roundHalfAway_natCast 0
        simpa using this
      refine ⟨0, ?_, le_refl _⟩
      simp [JSNum.neg, parseNumber, JSNum.truthy, h0, roundDouble]
    · have hneg : -r ≤ 0 := by linarith
      have htruthy : (JSNum.fin (-r)).truthy = true := by
        simp [JSNum.truthy, hr0]
      simp only [JSNum.neg, parseNumber, htruthy, if_true]
      split
      · exact roundDouble_nonpos _ (roundHalfAway_nonpos _ hneg)
      · exact Or.inr ⟨-r, rfl, hneg⟩


theorem usToNumber_digits_zero (ds : JSString) (hne : ds ≠ [])
    (hd : ∀ c ∈ ds, isDigit c = true) (h0 : decVal ds = 0) :
    Underscore.toNumber (some ds) = .nan ∨ Underscore.toNumber (some ds) = .inf true ∨
    ∃ r : ℚ, Underscore.toNumber (some ds) = .fin r ∧ r ≤ 0 := by
  have hr0 : roundHalfAway 0 = 0 := by
    have := roundHalfAway_natCast 0
    simpa using this
  unfold Underscore.toNumber
  simp only [hne, if_false, toNumber_digits ds hne hd, h0, Nat.cast_zero]
  have hrd : roundDouble 0 = .fin 0 := by
    have := roundDouble_natCast 0 (by norm_num)
    simpa using this
  simp only [hrd, parseNumber, JSNum.truthy, ne_eq, not_true_eq_false, decide_False,
    Bool.false_eq_true, if_false, abs_zero, hr0, Int.cast_zero]
  have h21 : (0 : ℚ) < 10 ^ 21 := by norm_num
  simp only [h21, if_true, hrd, true_and]
  split
  · exact Or.inl rfl
  · exact Or.inr (Or.inr ⟨0, rfl, le_refl _⟩)

theorem usToNumber_digits_large (ds : JSString) (hne : ds ≠ [])
    (hd : ∀ c ∈ ds, isDigit c = true) (h : 2 ^ 53 < decVal ds) :
    Underscore.toNumber (some ds) = .nan ∨ Underscore.toNumber (some ds) = .inf false ∨
    ∃ r : ℚ, Underscore.toNumber (some ds) = .fin r ∧ (2 : ℚ) ^ 52 ≤ r := by
  have hfinal : ∀ (p : Prop) [Decidable p] (num : JSNum),
      (num = .inf false ∨ ∃ r : ℚ, num = .fin r ∧ (2 : ℚ) ^ 52 ≤ r) →
      ((if p then JSNum.nan else num) = .nan ∨ (if p then JSNum.nan else num) = .inf false ∨
        ∃ r : ℚ, (if p then JSNum.nan else num) = .fin r ∧ (2 : ℚ) ^ 52 ≤ r) := by
    intro p _ num hnum
    by_cases hp : p
    · simp [hp]
    · simp only [hp, if_false]
      exact Or.inr hnum
  unfold Underscore.toNumber
  simp only [hne, if_false, toNumber_digits ds hne hd]
  apply hfinal
  rcases roundDouble_large _ h with h1 | ⟨r, h1, hr⟩
  · rw [h1]
    exact Or.inl rfl
  · rw [h1]
    have hr0 : r ≠ 0 := by
      have : (0 : ℚ) < 2 ^ 52 := by positivity
      linarith
    have htruthy : (JSNum.fin r).truthy = true := by simp [JSNum.truthy, hr0]
    simp only [parseNumber, htruthy, if_true]
    exact fixed_far r (le_of_lt hr)

end Underscore

namespace Validator
open JS

theorem val_length_pos (f : Field) (h : Underscore.isBlank f.val = false) : 1 ≤ f.val.length := by
  cases hv : f.val with
  | nil => rw [hv] at h; exact absurd h (by decide)
  | cons c t => simp

/-- A string has at least as many code units as characters, and at most twice as many. -/
theorem utf16Length_bounds (s : JSString) :
    s.length ≤ utf16Length s ∧ utf16Length s ≤ 2 * s.length := by
  unfold utf16Length
  induction s with
  | nil => simp
  | cons c t ih =>
    simp only [List.map_cons, List.sum_cons, List.length_cons, unitCount]
    split <;> omega

/-- A string of characters of the Basic Multilingual Plane has one code unit for each. -/
theorem utf16Length_bmp (s : JSString) (h : ∀ c ∈ s, c.toNat < 0x10000) :
    utf16Length s = s.length := by
  unfold utf16Length
  induction s with
  | nil => rfl
  | cons c t ih =>
    have hc := h c (List.mem_cons_self _ _)
    have ht := ih (fun d hd => h d (List.mem_cons_of_mem _ hd))
    simp only [List.map_cons, List.sum_cons, List.length_cons, unitCount, hc, if_true, ht]
    omega

theorem utf16Length_pos (f : Field) (h : Underscore.isBlank f.val = false) :
    1 ≤ utf16Length f.val := by
  have h1 := val_length_pos f h
  have h2 := (utf16Length_bounds f.val).1
  omega

theorem utf16Length_lt (f : Field) : utf16Length f.val < 2 ^ 34 := by
  have h1 := f.val_length
  have h2 := (utf16Length_bounds f.val).2
  have h3 : (2 : Nat) ^ 34 = 4 * 2 ^ 32 := by norm_num
  omega

/-- The test `length` with the text of a natural number as its argument. -/
theorem length_digits (f : Field) (ds : JSString) (hne : ds ≠ [])
    (hd : ∀ c ∈ ds, isDigit c = true) :
    Tests.length f (some [ds])
      = .ok (.bool (Underscore.isBlank f.val || decide (utf16Length f.val = decVal ds))) := by
  unfold Tests.length
  by_cases hbt : Underscore.isBlank f.val = true
  · simp [hbt]
  · have hb : Underscore.isBlank f.val = false := by simpa using hbt
    have hL1 := utf16Length_pos f hb
    have hL := utf16Length_lt f
    have h253 : (2 : Nat) ^ 34 ≤ 2 ^ 53 := by norm_num
    simp only [hb, Bool.not_false, if_true, List.head?_cons, Bool.false_or,
      ofNat_eq (utf16Length f.val) (by omega)]
    congr 2
    by_cases h0 : decVal ds = 0
    · rw [eq_nonpos _ hL1 _ (Underscore.usToNumber_digits_zero ds hne hd h0)]
      have : ¬ utf16Length f.val = decVal ds := by omega
      simp [this]
    · by_cases h53 : decVal ds ≤ 2 ^ 53
      · rw [Underscore.usToNumber_digits_small ds hne hd (by omega) h53, eq_fin_nat]
      · rw [eq_far_units _ hL _ (Underscore.usToNumber_digits_large ds hne hd (by omega))]
        have : ¬ utf16Length f.val = decVal ds := by omega
        simp [this]

/-- The test `length` with the text of a negative integer, or `-0`, as its argument. -/
theorem length_minus_digits (f : Field) (ds : JSString) (hne : ds ≠ [])
    (hd : ∀ c ∈ ds, isDigit c = true) :
    Tests.length f (some ['-' :: ds]) = .ok (.bool (Underscore.isBlank f.val)) := by
  unfold Tests.length
  by_cases hbt : Underscore.isBlank f.val = true
  · simp [hbt]
  · have hb : Underscore.isBlank f.val = false := by simpa using hbt
    have hL1 := utf16Length_pos f hb
    have hL := utf16Length_lt f
    have h253 : (2 : Nat) ^ 34 ≤ 2 ^ 53 := by norm_num
    simp only [hb, Bool.not_false, if_true, List.head?_cons,
      ofNat_eq (utf16Length f.val) (by omega)]
    rw [eq_nonpos _ hL1 _ (Underscore.usToNumber_minus_digits ds hne hd)]


theorem intText_no_colon (negative : Bool) (ds : JSString) (hd : ∀ c ∈ ds, isDigit c = true) :
    ∀ c ∈ intText negative ds, c ≠ ':' := by
  intro c hc
  unfold intText at hc
  cases negative with
  | false => exact isDigit_ne _ _ (hd c (by simpa using hc)) (by decide)
  | true =>
    rcases List.mem_cons.mp (by simpa using hc) with h | h
    · rw [h]; decide
    · exact isDigit_ne _ _ (hd c h) (by decide)

theorem parseSpec_length (a : Args) (t : JSString) (ht : ∀ c ∈ t, c ≠ ':') :
    parseSpec a ("length".toList ++ ':' :: t) = (.arr ["length".toList], some [t]) := by
  have hsplit : split ':' ("length".toList ++ ':' :: t) = ["length".toList, t] := by
    unfold split List.splitOn
    rw [List.splitOnP_first _ _ (by decide) ':' (by simp),
      List.splitOnP_eq_single _ t (by simpa using ht)]
  have hinc : Underscore.strInclude ("length".toList ++ ':' :: t) ':' = true := by
    simp [Underscore.strInclude]
  unfold parseSpec
  rw [if_pos hinc, hsplit]
  rfl

/-- C16. For every value and every integer `n` written in decimal, the spec `length:n`
is read as the test `length` with the argument `n`, and the test passes if and only if
the value is blank or its length, the number of its UTF-16 code units, is exactly `n`;
so `length:5` passes blank values and every value of length 5, and fails values of
length 4 or 6 that are not blank.  The length of a value is the number of its characters
when they all lie in the Basic Multilingual Plane; a character outside it counts as two,
so U+1F600 followed by `abcd` has length 6: it fails `length:5` and passes `length:6`. -/
theorem length_iff :
    (∀ (f : Field) (negative : Bool) (ds : JSString) (a : Args),
      ds ≠ [] → (∀ c ∈ ds, isDigit c = true) →
      parseSpec a ("length".toList ++ ':' :: intText negative ds)
        = (.arr ["length".toList], some [intText negative ds]) ∧
      callTest f (.arr ["length".toList]) (some [intText negative ds])
        = .ok (.bool (Underscore.isBlank f.val ||
            decide ((utf16Length f.val : Int) = intValue negative ds)))) ∧
    (∀ f : Field, Underscore.isBlank f.val = true ∨ utf16Length f.val = 5 →
      Tests.length f (some ["5".toList]) = .ok (.bool true)) ∧
    (∀ f : Field, Underscore.isBlank f.val = false →
      utf16Length f.val = 4 ∨ utf16Length f.val = 6 →
      Tests.length f (some ["5".toList]) = .ok (.bool false)) ∧
    (∀ s : JSString, (∀ c ∈ s, c.toNat < 0x10000) → utf16Length s = s.length) ∧
    utf16Length [Char.ofNat 0x1F600, 'a', 'b', 'c', 'd'] = 6 ∧
    Tests.length { val := [Char.ofNat 0x1F600, 'a', 'b', 'c', 'd'] } (some ["5".toList])
      = .ok (.bool false) ∧
    Tests.length { val := [Char.ofNat 0x1F600, 'a', 'b', 'c', 'd'] } (some ["6".toList])
      = .ok (.bool true) := by
  have h5 : ∀ f : Field, Tests.length f (some ["5".toList])
      = .ok (.bool (Underscore.isBlank f.val || decide (utf16Length f.val = 5))) :=
    fun f => length_digits f "5".toList (by decide) (by decide)
  refine ⟨fun f negative ds a hne hd => ⟨?_, ?_⟩, fun f h => ?_, fun f hb h => ?_,
    utf16Length_bmp, by decide, by decide!, by decide!⟩
  · exact parseSpec_length a _ (intText_no_colon negative ds hd)
  · show Tests.length f (some [intText negative ds]) = _
    cases negative with
    | false =>
      simp only [intText, intValue, Bool.false_eq_true, if_false]
      rw [length_digits f ds hne hd]
      congr 3
      exact decide_eq_decide.mpr ⟨fun h => by exact_mod_cast h, fun h => by exact_mod_cast h⟩
    | true =>
      simp only [intText, intValue, if_true]
      rw [length_minus_digits f ds hne hd]
      by_cases hbt : Underscore.isBlank f.val = true
      · simp [hbt]
      · have hb : Underscore.isBlank f.val = false := by simpa using hbt
        have hL1 := utf16Length_pos f hb
        have : ¬ ((utf16Length f.val : Int) = -(decVal ds : Int)) := by omega
        simp [hb, this]
  · rw [h5]
    rcases h with h | h <;> simp [h]
  · rw [h5]
    rcases h with h | h <;> simp [hb, h]

/-- An instance of C16: the spec `length:5` is read as `length` with the argument `5`,
and the value `abcde` passes it. -/
theorem length_iff_witness :
    parseSpec none "length:5".toList = (.arr ["length".toList], some ["5".toList]) ∧
    callTest { val := "abcde".toList } (.arr ["length".toList]) (some ["5".toList])
      = .ok (.bool true) :=
  length_iff.1 { val := "abcde".toList } false "5".toList none (by decide) (by decide)

end Validator

namespace Validator
open JS

/-! ## `Validator.Form` -/

theorem get_set_same (obj : JSObject) (key : JSString) (value : FormValue) :
    (obj.set key value).get key = some value := by
  unfold JSObject.set JSObject.get
  by_cases h : obj.any (fun p => p.1 == key) = true
  · rw [if_pos h]
    induction obj with
    | nil => simp at h
    | cons p t ih =>
      by_cases hp : p.1 = key
      · simp [List.find?_cons, hp]
      · have ht : t.any (fun p => p.1 == key) = true := by
          simpa [List.any_cons, hp] using h
        simpa [List.find?_cons, hp] using ih ht
  · rw [if_neg h]
    have hnone : obj.find? (fun p => p.1 == key) = none := by
      rw [List.find?_eq_none]
      intro p hp hk
      exact h (List.any_eq_true.mpr ⟨p, hp, hk⟩)
    simp [List.find?_append, hnone]

theorem get_set_other (obj : JSObject) (key other : JSString) (value : FormValue)
    (h : other ≠ key) : (obj.set key value).get other = obj.get other := by
  unfold JSObject.set JSObject.get
  have hmap : (obj.map (fun p => if p.1 = key then (key, value) else p)).find?
      (fun p => p.1 == other) = obj.find? (fun p => p.1 == other) := by
    induction obj with
    | nil => rfl
    | cons p t ih =>
      rw [List.map_cons, List.find?_cons, List.find?_cons, ih]
      by_cases hp : p.1 = key
      · have h1 : (key == other) = false := by
          simpa using (fun e : key = other => h e.symm)
        have h2 : (p.1 == other) = false := by
          rw [hp]; exact h1
        rw [if_pos hp]
        simp only [h1, h2]
      · rw [if_neg hp]
  split
  · rw [hmap]
  · have hne2 : ¬ key = other := fun e => h e.symm
    simp [List.find?_append, hne2]

/-- Assigning the properties of a list in turn leaves a key that does not occur
untouched. -/
theorem foldl_set_other {α : Type} (key : α → JSString) (value : α → FormValue)
    (k : JSString) :
    ∀ (l : List α) (obj : JSObject), (∀ y ∈ l, key y ≠ k) →
      (l.foldl (fun (o : JSObject) y => o.set (key y) (value y)) obj).get k = obj.get k := by
  intro l
  induction l with
  | nil => intro obj _; rfl
  | cons x t ih =>
    intro obj h
    rw [List.foldl_cons, ih _ (fun y hy => h y (List.mem_cons_of_mem _ hy))]
    exact get_set_other obj (key x) k (value x) (fun e => h x (List.mem_cons_self _ _) e.symm)

/-- Assigning the properties of a list in turn leaves, under a key, the value of its
last occurrence. -/
theorem foldl_set_last {α : Type} (key : α → JSString) (value : α → FormValue)
    (pre : List α) (x : α) (post : List α) (obj : JSObject)
    (h : ∀ y ∈ post, key y ≠ key x) :
    ((pre ++ x :: post).foldl (fun (o : JSObject) y => o.set (key y) (value y)) obj).get (key x)
      = some (value x) := by
  rw [List.foldl_append, List.foldl_cons, foldl_set_other key value (key x) post _ h]
  exact get_set_same _ _ _

theorem set_keys (obj : JSObject) (key : JSString) (value : FormValue) :
    (obj.set key value).map Prod.fst
      = if key ∈ obj.map Prod.fst then obj.map Prod.fst else obj.map Prod.fst ++ [key] := by
  unfold JSObject.set
  have hany : obj.any (fun p => p.1 == key) = true ↔ key ∈ obj.map Prod.fst := by
    simp [List.any_eq_true]
  by_cases h : key ∈ obj.map Prod.fst
  · rw [if_pos (hany.mpr h), if_pos h, List.map_map]
    apply List.map_congr_left
    intro p _
    by_cases hp : p.1 = key <;> simp [hp]
  · rw [if_neg (fun e => h (hany.mp e)), if_neg h]
    simp

theorem foldl_set_nodup {α : Type} (key : α → JSString) (value : α → FormValue) :
    ∀ (l : List α) (obj : JSObject), (obj.map Prod.fst).Nodup →
      ((l.foldl (fun (o : JSObject) y => o.set (key y) (value y)) obj).map Prod.fst).Nodup := by
  intro l
  induction l with
  | nil => intro obj h; exact h
  | cons x t ih =>
    intro obj h
    rw [List.foldl_cons]
    apply ih
    rw [set_keys]
    split
    · exact h
    · rename_i hk
      exact List.Nodup.append h (List.nodup_singleton _) (by simpa using hk)

theorem get_eq_some_of_mem (obj : JSObject) (h : (obj.map Prod.fst).Nodup)
    (k : JSString) (v : FormValue) (hm : (k, v) ∈ obj) : obj.get k = some v := by
  unfold JSObject.get
  induction obj with
  | nil => simp at hm
  | cons p t ih =>
    rw [List.map_cons, List.nodup_cons] at h
    rcases List.mem_cons.mp hm with hp | hp
    · subst hp
      simp [List.find?_cons]
    · have hne : ¬ p.1 = k := by
        intro e
        exact h.1 (e ▸ List.mem_map_of_mem Prod.fst hp)
      simpa [List.find?_cons, hne] using ih h.2 hp

theorem mem_of_get_eq_some (obj : JSObject) (k : JSString) (v : FormValue)
    (h : obj.get k = some v) : (k, v) ∈ obj := by
  unfold JSObject.get at h
  rcases ho : obj.find? (fun p => p.1 == k) with _ | p
  · rw [ho] at h; simp at h
  · rw [ho] at h
    have hp : p.2 = v := by simpa using h
    have hk : p.1 = k := by simpa using List.find?_some ho
    have hmem := List.mem_of_find?_eq_some ho
    rw [← hp, ← hk]
    exact hmem


theorem nodup_split {α : Type} (key : α → JSString) (l : List α) (h : (l.map key).Nodup)
    (x : α) (hx : x ∈ l) :
    ∃ pre post, l = pre ++ x :: post ∧ ∀ y ∈ post, key y ≠ key x := by
  obtain ⟨pre, post, rfl⟩ := List.append_of_mem hx
  refine ⟨pre, post, rfl, fun y hy e => ?_⟩
  rw [List.map_append, List.map_cons] at h
  have h2 := (List.nodup_append.mp h).2.1
  rw [List.nodup_cons] at h2
  exact h2.1 (e ▸ List.mem_map_of_mem key hy)

/-- The object `additions` that `Validator.Form` builds from `formAdditions`. -/
theorem additions_get (adds : List (JSString × Addition))
    (hadds : (adds.map Prod.fst).Nodup) (k : JSString) (a : Addition) (h : (k, a) ∈ adds) :
    (adds.foldl (fun (additions : JSObject) kv =>
        additions.set kv.1 (match kv.2 with
          | .function result => result
          | .literal x => x)) []).get k = some a.value := by
  obtain ⟨pre, post, rfl, hpost⟩ := nodup_split Prod.fst adds hadds (k, a) h
  have := foldl_set_last (fun kv : JSString × Addition => kv.1)
    (fun kv => match kv.2 with
      | .function result => result
      | .literal x => x) pre (k, a) post [] hpost
  rw [this]
  cases a <;> rfl

theorem additions_get_none (adds : List (JSString × Addition)) (k : JSString)
    (h : ∀ kv ∈ adds, kv.1 ≠ k) :
    (adds.foldl (fun (additions : JSObject) kv =>
        additions.set kv.1 (match kv.2 with
          | .function result => result
          | .literal x => x)) []).get k = none :=
  foldl_set_other (fun kv : JSString × Addition => kv.1)
    (fun kv => match kv.2 with
      | .function result => result
      | .literal x => x) k adds [] h

theorem additions_nodup (adds : List (JSString × Addition)) :
    ((adds.foldl (fun (additions : JSObject) kv =>
        additions.set kv.1 (match kv.2 with
          | .function result => result
          | .literal x => x)) []).map Prod.fst).Nodup :=
  foldl_set_nodup (fun kv : JSString × Addition => kv.1)
    (fun kv => match kv.2 with
      | .function result => result
      | .literal x => x) adds [] List.nodup_nil

/-- The call `_.extend(form, additions)`: a property of `additions` is copied. -/
theorem extend_get (additions form : JSObject) (h : (additions.map Prod.fst).Nodup)
    (k : JSString) (v : FormValue) (hk : additions.get k = some v) :
    (additions.foldl (fun (form : JSObject) kv => form.set kv.1 kv.2) form).get k = some v := by
  obtain ⟨pre, post, rfl, hpost⟩ :=
    nodup_split Prod.fst additions h (k, v) (mem_of_get_eq_some _ _ _ hk)
  exact foldl_set_last (fun kv : JSString × FormValue => kv.1) (fun kv => kv.2) pre (k, v) post
    form hpost

/-- The call `_.extend(form, additions)`: a property missing from `additions` is kept. -/
theorem extend_get_other (additions form : JSObject) (h : (additions.map Prod.fst).Nodup)
    (k : JSString) (hk : additions.get k = none) :
    (additions.foldl (fun (form : JSObject) kv => form.set kv.1 kv.2) form).get k
      = form.get k := by
  apply foldl_set_other (fun kv : JSString × FormValue => kv.1) (fun kv => kv.2)
  intro y hy e
  have := get_eq_some_of_mem additions h y.1 y.2 hy
  rw [e, hk] at this
  exact absurd this (by simp)

theorem fields_get (pre : List FormField) (f : FormField) (post : List FormField)
    (h : ∀ g ∈ post, g.name ≠ f.name) :
    ((pre ++ f :: post).foldl (fun (form : JSObject) v => form.set v.name (fieldValue v)) []).get
      f.name = some (fieldValue f) :=
  foldl_set_last (fun v : FormField => v.name) fieldValue pre f post [] h

/-- C20. `form()` returns a mapping in which every name of `formAdditions` maps to the
literal, or to the result of calling the function, whatever the fields hold under that
name; every field name that is not among the additions maps to the current value of the
(last) field of that name; and the current value of a field is the checked-state of a
checkbox or radio button, the text of any other single element, and for a group the
sequence of the current values of its elements. -/
theorem form_mapping (fields : List FormField) (adds : List (JSString × Addition))
    (hadds : (adds.map Prod.fst).Nodup) :
    (∀ k a, (k, a) ∈ adds → (form fields (some adds)).get k = some a.value) ∧
    (∀ pre f post, fields = pre ++ f :: post → (∀ g ∈ post, g.name ≠ f.name) →
      (∀ kv ∈ adds, kv.1 ≠ f.name) →
      (form fields (some adds)).get f.name = some (fieldValue f)) ∧
    (∀ pre f post, fields = pre ++ f :: post → (∀ g ∈ post, g.name ≠ f.name) →
      (form fields none).get f.name = some (fieldValue f)) ∧
    (∀ name e, fieldValue ⟨name, [e]⟩ = .single e.current) ∧
    (∀ name els, els.length > 1 →
      fieldValue ⟨name, els⟩ = .group (els.map Element.current)) := by
  refine ⟨fun k a h => ?_, fun pre f post hf hpost hk => ?_, fun pre f post hf hpost => ?_,
    fun name e => ?_, fun name els h => ?_⟩
  · exact extend_get _ _ (additions_nodup adds) k _ (additions_get adds hadds k a h)
  · show JSObject.get (List.foldl _ _ _) f.name = _
    rw [extend_get_other _ _ (additions_nodup adds) f.name (additions_get_none adds f.name hk),
      hf]
    exact fields_get pre f post hpost
  · show JSObject.get (fields.foldl _ []) f.name = _
    rw [hf]
    exact fields_get pre f post hpost
  · simp only [fieldValue, FormField.els, List.length_singleton, gt_iff_lt, lt_self_iff_false,
      if_false, readValue, List.head?_cons, Element.current]
    exact congrArg _ (if_congr or_comm rfl rfl)
  · simp only [fieldValue, FormField.els, h, if_true]
    congr 1
    apply List.map_congr_left
    intro e _
    simp only [readValue, List.head?_cons, Element.current]
    exact if_congr or_comm rfl rfl


/-- An instance of C20: with the fields `Email` (a text input holding `a@b.co`) and
`Preference` (a checked checkbox) and the addition `Preference`, a function returning
`Email`, the form maps `Preference` to `Email`, the addition overriding the field, and
`Email` to the text of its field. -/
theorem form_mapping_witness :
    (form [⟨"Email".toList, [{ type := some "text".toList, val := "a@b.co".toList }]⟩,
           ⟨"Preference".toList, [{ type := some "checkbox".toList, checked := true }]⟩]
          (some [("Preference".toList, .function (.single (.str "Email".toList)))])).get
        "Preference".toList = some (.single (.str "Email".toList)) ∧
    (form [⟨"Email".toList, [{ type := some "text".toList, val := "a@b.co".toList }]⟩,
           ⟨"Preference".toList, [{ type := some "checkbox".toList, checked := true }]⟩]
          (some [("Preference".toList, .function (.single (.str "Email".toList)))])).get
        "Email".toList = some (.single (.str "a@b.co".toList)) :=
  ⟨(form_mapping
      [⟨"Email".toList, [{ type := some "text".toList, val := "a@b.co".toList }]⟩,
       ⟨"Preference".toList, [{ type := some "checkbox".toList, checked := true }]⟩]
      [("Preference".toList, .function (.single (.str "Email".toList)))] (by decide)).1
      "Preference".toList (.function (.single (.str "Email".toList))) (by decide),
   (form_mapping
      [⟨"Email".toList, [{ type := some "text".toList, val := "a@b.co".toList }]⟩,
       ⟨"Preference".toList, [{ type := some "checkbox".toList, checked := true }]⟩]
      [("Preference".toList, .function (.single (.str "Email".toList)))] (by decide)).2.1
      [] ⟨"Email".toList, [{ type := some "text".toList, val := "a@b.co".toList }]⟩
      [⟨"Preference".toList, [{ type := some "checkbox".toList, checked := true }]⟩]
      rfl (by decide) (by decide)⟩

end Validator


/-! ## Regular expressions: the matcher and the language -/

namespace JS.Regex

theorem nullable_iff (r : Regex) : r.nullable = true ↔ lang r [] := by
  induction r with
  | fail => simp [nullable, lang]
  | eps => simp [nullable, lang]
  | unit p => simp [nullable, lang]
  | seq a b iha ihb =>
    simp only [nullable, lang, Bool.and_eq_true, iha, ihb]
    constructor
    · rintro ⟨ha, hb⟩
      exact ⟨[], [], ha, hb, rfl⟩
    · rintro ⟨x, y, ha, hb, h⟩
      have hx : x = [] := (List.append_eq_nil.mp h.symm).1
      have hy : y = [] := (List.append_eq_nil.mp h.symm).2
      subst hx; subst hy
      exact ⟨ha, hb⟩
  | alt a b iha ihb => simp only [nullable, lang, Bool.or_eq_true, iha, ihb]
  | star a _ =>
    simp only [nullable, lang, true_iff]
    exact ⟨[], by simp, rfl⟩

theorem lang_star_cons (a : Regex) (c : Char) (s : JSString) :
    lang (star a) (c :: s) ↔ ∃ x y, lang a (c :: x) ∧ lang (star a) y ∧ s = x ++ y := by
  constructor
  · rintro ⟨xs, hxs, h⟩
    induction xs with
    | nil => simp at h
    | cons x rest ih =>
      cases x with
      | nil =>
        exact ih (fun y hy => hxs y (List.mem_cons_of_mem _ hy)) (by simpa using h)
      | cons d x' =>
        rw [List.flatten_cons, List.cons_append, List.cons.injEq] at h
        obtain ⟨hd, hs⟩ := h
        subst hd
        exact ⟨x', rest.flatten, hxs _ (List.mem_cons_self _ _),
          ⟨rest, fun y hy => hxs y (List.mem_cons_of_mem _ hy), rfl⟩, hs⟩
  · rintro ⟨x, y, hx, ⟨ys, hys, rfl⟩, rfl⟩
    refine ⟨(c :: x) :: ys, ?_, by simp⟩
    intro z hz
    rcases List.mem_cons.mp hz with rfl | hz
    · exact hx
    · exact hys z hz

theorem deriv_iff (r : Regex) (c : Char) : ∀ s : JSString, lang (r.deriv c) s ↔ lang r (c :: s) := by
  induction r with
  | fail => intro s; simp [deriv, lang]
  | eps => intro s; simp [deriv, lang]
  | unit p =>
    intro s
    by_cases h : p c = true
    · simp only [deriv, h, if_true, lang]
      constructor
      · rintro rfl; exact ⟨c, h, rfl⟩
      · rintro ⟨d, _, hs⟩
        exact (List.cons.inj hs).2
    · simp only [deriv, h, if_false, lang, false_iff]
      rintro ⟨d, hd, hs⟩
      have : c = d := (List.cons.inj hs).1
      exact h (this ▸ hd)
  | seq a b iha ihb =>
    intro s
    have hsplit : lang (seq a b) (c :: s) ↔
        (lang a [] ∧ lang b (c :: s)) ∨ ∃ x y, lang a (c :: x) ∧ lang b y ∧ s = x ++ y := by
      simp only [lang]
      constructor
      · rintro ⟨x, y, hx, hy, h⟩
        cases x with
        | nil => exact Or.inl ⟨hx, by simpa using h ▸ hy⟩
        | cons d x' =>
          rw [List.cons_append, List.cons.injEq] at h
          obtain ⟨hd, hs⟩ := h
          subst hd
          exact Or.inr ⟨x', y, hx, hy, hs⟩
      · rintro (⟨ha, hb⟩ | ⟨x, y, hx, hy, hs⟩)
        · exact ⟨[], c :: s, ha, hb, rfl⟩
        · exact ⟨c :: x, y, hx, hy, by rw [hs]; rfl⟩
    rw [hsplit]
    by_cases hn : a.nullable = true
    · simp only [deriv, hn, if_true, lang, iha, ihb]
      have hnil := (nullable_iff a).mp hn
      constructor
      · rintro (h | h)
        · exact Or.inr h
        · exact Or.inl ⟨hnil, h⟩
      · rintro (⟨_, h⟩ | h)
        · exact Or.inr h
        · exact Or.inl h
    · simp only [deriv, hn, if_false, lang, iha]
      have hnil : ¬ lang a [] := fun h => hn ((nullable_iff a).mpr h)
      constructor
      · intro h; exact Or.inr h
      · rintro (⟨h, _⟩ | h)
        · exact absurd h hnil
        · exact h
  | alt a b iha ihb => intro s; simp only [deriv, lang, iha, ihb]
  | star a iha =>
    intro s
    rw [lang_star_cons]
    simp only [deriv, lang, iha]

/-- The matcher decides the language: `r.matches s` holds exactly when `s` is in the
language of `r`. -/
theorem matches_iff (r : Regex) (s : JSString) : r.«matches» s = true ↔ lang r s := by
  induction s generalizing r with
  | nil => simp only [«matches», nullable_iff]
  | cons c t ih => simp only [«matches», ih, deriv_iff]

end JS.Regex

namespace JS.Regex

theorem lang_seq_assoc (a b c : Regex) (s : JSString) :
    lang (seq (seq a b) c) s ↔ lang (seq a (seq b c)) s := by
  simp only [lang]
  constructor
  · rintro ⟨xy, z, ⟨x, y, hx, hy, rfl⟩, hz, rfl⟩
    exact ⟨x, y ++ z, hx, ⟨y, z, hy, hz, rfl⟩, by simp⟩
  · rintro ⟨x, yz, hx, ⟨y, z, hy, hz, rfl⟩, rfl⟩
    exact ⟨x ++ y, z, ⟨x, y, hx, hy, rfl⟩, hz, by simp⟩

theorem lang_seq_eps_left (r : Regex) (s : JSString) : lang (seq eps r) s ↔ lang r s := by
  simp only [lang]
  constructor
  · rintro ⟨x, y, rfl, hy, rfl⟩; simpa using hy
  · intro h; exact ⟨[], s, rfl, h, rfl⟩

theorem lang_seq_eps_right (r : Regex) (s : JSString) : lang (seq r eps) s ↔ lang r s := by
  simp only [lang]
  constructor
  · rintro ⟨x, y, hx, rfl, rfl⟩; simpa using hx
  · intro h; exact ⟨s, [], h, rfl, by simp⟩

theorem lang_seq_alt (a b c : Regex) (s : JSString) :
    lang (seq (alt a b) c) s ↔ lang (seq a c) s ∨ lang (seq b c) s := by
  simp only [lang]
  constructor
  · rintro ⟨x, y, hx | hx, hy, rfl⟩
    · exact Or.inl ⟨x, y, hx, hy, rfl⟩
    · exact Or.inr ⟨x, y, hx, hy, rfl⟩
  · rintro (⟨x, y, hx, hy, rfl⟩ | ⟨x, y, hx, hy, rfl⟩)
    · exact ⟨x, y, Or.inl hx, hy, rfl⟩
    · exact ⟨x, y, Or.inr hx, hy, rfl⟩

theorem lang_seq_unit (p : Char → Bool) (r : Regex) (s : JSString) :
    lang (seq (unit p) r) s ↔ ∃ c t, s = c :: t ∧ p c = true ∧ lang r t := by
  simp only [lang]
  constructor
  · rintro ⟨x, y, ⟨c, hc, rfl⟩, hy, rfl⟩
    exact ⟨c, y, rfl, hc, hy⟩
  · rintro ⟨c, t, rfl, hc, ht⟩
    exact ⟨[c], t, ⟨c, hc, rfl⟩, ht, rfl⟩

theorem lang_star_unit (p : Char → Bool) (s : JSString) :
    lang (star (unit p)) s ↔ ∀ c ∈ s, p c = true := by
  induction s with
  | nil =>
    simp only [List.not_mem_nil, false_implies, implies_true, iff_true]
    exact ⟨[], by simp, rfl⟩
  | cons c t ih =>
    rw [lang_star_cons]
    constructor
    · rintro ⟨x, y, ⟨d, hd, hx⟩, hy, rfl⟩
      obtain ⟨rfl, rfl⟩ : c = d ∧ x = [] := by simpa using hx
      intro e he
      rcases List.mem_cons.mp he with rfl | he
      · exact hd
      · exact ih.mp hy e (by simpa using he)
    · intro h
      exact ⟨[], t, ⟨c, h c (List.mem_cons_self _ _), rfl⟩,
        ih.mpr (fun e he => h e (List.mem_cons_of_mem _ he)), rfl⟩

theorem lang_seq_star_unit (p : Char → Bool) (r : Regex) (s : JSString) :
    lang (seq (star (unit p)) r) s ↔ ∃ x y, (∀ c ∈ x, p c = true) ∧ lang r y ∧ s = x ++ y := by
  simp only [lang_star_unit, lang.eq_4]

end JS.Regex

namespace JS

theorem lang_zipCaBody (cls : (Char → Bool) → Char → Bool) (s : JSString) :
    Regex.lang (zipCaBody cls) s ↔
      ∃ a d1 b sp d2 c d3, s = a :: d1 :: b :: (sp ++ [d2, c, d3]) ∧
        cls isPostalLetter a = true ∧ isDigit d1 = true ∧ cls isUpperAZ b = true ∧
        (∀ x ∈ sp, x = ' ') ∧
        isDigit d2 = true ∧ cls isUpperAZ c = true ∧ isDigit d3 = true := by
  simp only [zipCaBody, Regex.cat, Regex.rep, Regex.lit, Regex.digit, Regex.lang_seq_assoc,
    Regex.lang_seq_eps_left, Regex.lang_seq_eps_right, Regex.lang_seq_unit,
    Regex.lang_seq_star_unit, Regex.lang.eq_3]
  constructor
  · rintro ⟨a, t1, rfl, ha, d1, t2, rfl, hd1, b, t3, rfl, hb, sp, y, hsp, ⟨d2, t4, rfl, hd2, c, t5,
      rfl, hc, d3, hd3, rfl⟩, rfl⟩
    exact ⟨a, d1, b, sp, d2, c, d3, rfl, ha, hd1, hb, fun x hx => by simpa using hsp x hx,
      hd2, hc, hd3⟩
  · rintro ⟨a, d1, b, sp, d2, c, d3, rfl, ha, hd1, hb, hsp, hd2, hc, hd3⟩
    exact ⟨a, _, rfl, ha, d1, _, rfl, hd1, b, _, rfl, hb, sp, _,
      fun x hx => by simpa using hsp x hx, ⟨d2, _, rfl, hd2, c, _, rfl, hc, d3, hd3, rfl⟩, rfl⟩

end JS

namespace JS

theorem toNat_ofNat_small (n : Nat) (h : n < 55296) : (Char.ofNat n).toNat = n := by
  unfold Char.ofNat
  rw [dif_pos (Or.inl h)]
  rfl

theorem toNat_injective (c d : Char) (h : c.toNat = d.toNat) : c = d := by
  rw [← Char.ofNat_toNat c, ← Char.ofNat_toNat d, h]

theorem upperUnit_toNat (c : Char) :
    (upperUnit c).toNat = if 97 ≤ c.toNat ∧ c.toNat ≤ 122 then c.toNat - 32 else c.toNat := by
  unfold upperUnit
  split
  · exact toNat_ofNat_small _ (by omega)
  · rfl

theorem isDigit_upperUnit (c : Char) : isDigit (upperUnit c) = isDigit c := by
  rw [Bool.eq_iff_iff, isDigit_iff, isDigit_iff, upperUnit_toNat]
  split <;> omega

theorem upperUnit_beq_space (c : Char) : (upperUnit c == ' ') = (c == ' ') := by
  rw [Bool.eq_iff_iff, beq_iff_eq, beq_iff_eq]
  constructor
  · intro h
    have h1 := congrArg Char.toNat h
    rw [upperUnit_toNat] at h1
    apply toNat_injective
    have : (' ' : Char).toNat = 32 := rfl
    split at h1 <;> omega
  · rintro rfl
    rfl

theorem isDigit_beq_space (c : Char) (h : isDigit c = true) : (c == ' ') = false := by
  rw [beq_eq_false_iff_ne]
  rintro rfl
  simp [isDigit] at h

theorem dropWhile_spaces_append (sp r : JSString) (h : ∀ x ∈ sp, x = ' ') :
    (sp ++ r).dropWhile (fun x => x == ' ') = r.dropWhile (fun x => x == ' ') := by
  induction sp with
  | nil => rfl
  | cons x t ih =>
    have hx : x = ' ' := h x (List.mem_cons_self _ _)
    subst hx
    rw [List.cons_append, List.dropWhile_cons]
    simp only [beq_self_eq_true, if_true]
    exact ih (fun y hy => h y (List.mem_cons_of_mem _ hy))

theorem dropWhile_space_upper (l : JSString) :
    (l.map upperUnit).dropWhile (fun x => x == ' ') =
      (l.dropWhile (fun x => x == ' ')).map upperUnit := by
  rw [List.dropWhile_map]
  congr 2
  funext x
  exact upperUnit_beq_space x

end JS

namespace Validator

theorem postalShape_iff (s : JSString) :
    postalShape s = true ↔
      ∃ a d1 b sp d2 c d3, s = a :: d1 :: b :: (sp ++ [d2, c, d3]) ∧
        ignoreCase isPostalLetter a = true ∧ isDigit d1 = true ∧ ignoreCase isUpperAZ b = true ∧
        (∀ x ∈ sp, x = ' ') ∧
        isDigit d2 = true ∧ ignoreCase isUpperAZ c = true ∧ isDigit d3 = true := by
  constructor
  · intro h
    rcases s with _ | ⟨a, _ | ⟨d1, _ | ⟨b, rest⟩⟩⟩
    · simp [postalShape] at h
    · simp [postalShape] at h
    · simp [postalShape] at h
    simp only [postalShape, List.map_cons, dropWhile_space_upper] at h
    have hsplit := List.takeWhile_append_dropWhile (fun x => x == ' ') rest
    have hsp : ∀ x ∈ rest.takeWhile (fun x => x == ' '), x = ' ' := fun x hx => by
      simpa using List.mem_takeWhile_imp hx
    rcases hr : rest.dropWhile (fun x => x == ' ') with _ | ⟨d2, _ | ⟨c, _ | ⟨d3, _ | ⟨e, t⟩⟩⟩⟩
    · simp [hr] at h
    · simp [hr] at h
    · simp [hr] at h
    · rw [hr] at h hsplit
      simp only [List.map_cons, List.map_nil, Bool.and_eq_true, isDigit_upperUnit] at h
      exact ⟨a, d1, b, _, d2, c, d3, by rw [hsplit], h.1.1.1, h.1.1.2, h.1.2, hsp,
        h.2.1.1, h.2.1.2, h.2.2⟩
    · simp [hr] at h
  · rintro ⟨a, d1, b, sp, d2, c, d3, rfl, ha, hd1, hb, hsp, hd2, hc, hd3⟩
    simp only [postalShape, List.map_cons, dropWhile_space_upper,
      dropWhile_spaces_append sp _ hsp, List.dropWhile_cons, isDigit_beq_space d2 hd2]
    simp only [ignoreCase] at ha hb hc
    simp [ha, hb, hc, hd1, hd2, hd3, isDigit_upperUnit]

end Validator

/-! ## The test `zip-ca` -/

namespace Validator

/-- C18 (as stated, refuted). `K1A  0B1`, with two spaces between its halves, and
`K1D 0B1`, whose letter `D` is outside the restricted set, are not blank and do not have
the shape of the claim (at most one space, every letter in the restricted set), yet
`zip-ca` passes both. -/
theorem zip_ca_accepts_two_spaces :
    Underscore.isBlank "K1A  0B1".toList = false ∧
    claimedPostalShape "K1A  0B1".toList = false ∧
    Tests.«zip-ca» { val := "K1A  0B1".toList } = .bool true ∧
    Underscore.isBlank "K1D 0B1".toList = false ∧
    claimedPostalShape "K1D 0B1".toList = false ∧
    Tests.«zip-ca» { val := "K1D 0B1".toList } = .bool true ∧
    claimedPostalShape "K1A 0B1".toList = true := by
  decide

/-- C18 (amended). For every non-blank value, `zip-ca` passes if and only if, ignoring
letter case, the value is a letter of the set ABCEGHJKLMNPRSTVXY, a digit, any letter
`A`..`Z`, any number of spaces (none included), a digit, any letter `A`..`Z` and a
digit; so `K1A 0B1`, `k1a0b1` and `K1A  0B1` pass while `D1A 0B1`, `K1A 0B` and
`K1A-0B1` fail. -/
theorem zip_ca_iff :
    (∀ f : Field, Underscore.isBlank f.val = false →
      (Tests.«zip-ca» f = .bool true ↔ postalShape f.val = true)) ∧
    Tests.«zip-ca» { val := "K1A 0B1".toList } = .bool true ∧
    Tests.«zip-ca» { val := "k1a0b1".toList } = .bool true ∧
    Tests.«zip-ca» { val := "K1A  0B1".toList } = .bool true ∧
    Tests.«zip-ca» { val := "D1A 0B1".toList } = .bool false ∧
    Tests.«zip-ca» { val := "K1A 0B".toList } = .bool false ∧
    Tests.«zip-ca» { val := "K1A-0B1".toList } = .bool false := by
  refine ⟨fun f hb => ?_, by decide, by decide, by decide, by decide, by decide, by decide⟩
  rw [postalShape_iff]
  simp only [Tests.«zip-ca», Tests.patternTest, hb, Bool.not_false, if_true, JSVal.bool.injEq,
    zipCaRe, Regex.matches_iff, lang_zipCaBody]

/-- An instance of the amended C18: `h3z 2y7` is not blank and has the shape, so `zip-ca`
passes it. -/
theorem zip_ca_iff_witness :
    Underscore.isBlank "h3z 2y7".toList = false ∧
    Tests.«zip-ca» { val := "h3z 2y7".toList } = .bool true :=
  ⟨by decide, (zip_ca_iff.1 { val := "h3z 2y7".toList } (by decide)).mpr (by decide)⟩

end Validator

namespace JS

theorem lang_oneOrTwoDigits (h : JSString) :
    Regex.lang (Regex.repRange 1 2 Regex.digit) h ↔
      (h.length = 1 ∨ h.length = 2) ∧ ∀ c ∈ h, isDigit c = true := by
  simp only [Regex.repRange, Regex.rep, Regex.opt, Regex.digit, Regex.lang_seq_assoc,
    Regex.lang_seq_eps_left, Regex.lang_seq_eps_right, Regex.lang_seq_unit, Regex.lang_seq_alt,
    Regex.lang.eq_3, Regex.lang.eq_5, Regex.lang.eq_2]
  constructor
  · rintro ⟨a, t, rfl, ha, (⟨b, hb, rfl⟩ | rfl)⟩
    · exact ⟨Or.inr rfl, by simp [ha, hb]⟩
    · exact ⟨Or.inl rfl, by simp [ha]⟩
  · rintro ⟨hl | hl, hd⟩
    · obtain ⟨a, rfl⟩ := List.length_eq_one.mp hl
      exact ⟨a, [], rfl, by simpa using hd, Or.inr rfl⟩
    · obtain ⟨a, b, rfl⟩ := List.length_eq_two.mp hl
      have hd2 : isDigit a = true ∧ isDigit b = true := by simpa using hd
      exact ⟨a, [b], rfl, hd2.1, Or.inl ⟨b, hd2.2, rfl⟩⟩

end JS

namespace Validator

theorem twoDigits_iff (m : JSString) :
    twoDigits m = true ↔ ∃ a b, m = [a, b] ∧ isDigit a = true ∧ isDigit b = true := by
  unfold twoDigits
  rw [Bool.and_eq_true, beq_iff_eq, List.length_eq_two]
  constructor
  · rintro ⟨⟨a, b, rfl⟩, hd⟩
    exact ⟨a, b, rfl, by simpa using hd⟩
  · rintro ⟨a, b, rfl, ha, hb⟩
    exact ⟨⟨a, b, rfl⟩, by simp [ha, hb]⟩

theorem lang_twoDigits (m : JSString) :
    Regex.lang (Regex.rep 2 Regex.digit) m ↔ twoDigits m = true := by
  rw [twoDigits_iff]
  simp only [Regex.rep, Regex.digit, Regex.lang_seq_eps_right, Regex.lang_seq_unit,
    Regex.lang.eq_3]
  constructor
  · rintro ⟨a, t, rfl, ha, b, hb, rfl⟩
    exact ⟨a, b, rfl, ha, hb⟩
  · rintro ⟨a, b, rfl, ha, hb⟩
    exact ⟨a, [b], rfl, ha, b, hb, rfl⟩

theorem lang_optSeconds (t : JSString) :
    Regex.lang (Regex.opt (Regex.seq (Regex.lit ':') (Regex.rep 2 Regex.digit))) t ↔
      ∃ sec : Option JSString, t = (match sec with | none => [] | some x => ':' :: x) ∧
        (match sec with | none => true | some x => twoDigits x) = true := by
  simp only [Regex.opt, Regex.lit, Regex.lang.eq_5, Regex.lang.eq_2, Regex.lang_seq_unit,
    lang_twoDigits]
  constructor
  · rintro (⟨c, x, rfl, hc, hx⟩ | rfl)
    · have hc2 : c = ':' := by simpa using hc
      subst hc2
      exact ⟨some x, rfl, hx⟩
    · exact ⟨none, rfl, rfl⟩
  · rintro ⟨sec, rfl, hs⟩
    cases sec with
    | none => exact Or.inr rfl
    | some x => exact Or.inl ⟨':', x, rfl, by simp, hs⟩

theorem lang_optSuffix (t : JSString) :
    Regex.lang (Regex.opt (Regex.seq (.unit fun c => c == 'a' || c == 'p') (Regex.lit 'm'))) t ↔
      t = [] ∨ t = ['a', 'm'] ∨ t = ['p', 'm'] := by
  simp only [Regex.opt, Regex.lit, Regex.lang.eq_5, Regex.lang.eq_2, Regex.lang_seq_unit,
    Regex.lang.eq_3]
  constructor
  · rintro (⟨c, x, rfl, hc, d, hd, rfl⟩ | rfl)
    · have hd2 : d = 'm' := by simpa using hd
      subst hd2
      have hc2 : c = 'a' ∨ c = 'p' := by simpa using hc
      rcases hc2 with rfl | rfl
      · exact Or.inr (Or.inl rfl)
      · exact Or.inr (Or.inr rfl)
    · exact Or.inl rfl
  · rintro (rfl | rfl | rfl)
    · exact Or.inr rfl
    · exact Or.inl ⟨'a', ['m'], rfl, by simp, 'm', by simp, rfl⟩
    · exact Or.inl ⟨'p', ['m'], rfl, by simp, 'm', by simp, rfl⟩

theorem wellFormed_iff (p : TimeParts) :
    p.wellFormed = true ↔
      ((p.hour.length = 1 ∨ p.hour.length = 2) ∧ ∀ c ∈ p.hour, isDigit c = true) ∧
      twoDigits p.minute = true ∧
      (match p.second with | none => true | some x => twoDigits x) = true ∧
      (p.suffix = [] ∨ p.suffix = ['a', 'm'] ∨ p.suffix = ['p', 'm']) := by
  simp only [TimeParts.wellFormed, Bool.and_eq_true, Bool.or_eq_true, beq_iff_eq, List.all_eq_true,
    and_assoc, or_assoc]

theorem lang_lit (c : Char) (s : JSString) : Regex.lang (Regex.lit c) s ↔ s = [c] := by
  simp [Regex.lit, Regex.lang]

theorem lang_timeRe (s : JSString) :
    Regex.lang timeRe s ↔ ∃ p : TimeParts, p.text = s ∧ p.wellFormed = true := by
  simp only [timeRe, Regex.cat, Regex.lang.eq_4, lang_oneOrTwoDigits, lang_twoDigits,
    lang_optSeconds, lang_optSuffix, wellFormed_iff, lang_lit]
  constructor
  · rintro ⟨h, r1, hh, ⟨c, r2, rfl, ⟨m, r3, hm, ⟨t, sfx, ⟨sec, rfl, hsec⟩, hsfx, rfl⟩, rfl⟩,
      rfl⟩, rfl⟩
    exact ⟨⟨h, m, sec, sfx⟩, rfl, hh, hm, hsec, hsfx⟩
  · rintro ⟨⟨h, m, sec, sfx⟩, rfl, hh, hm, hsec, hsfx⟩
    exact ⟨h, _, hh, ⟨[':'], _, rfl, ⟨m, _, hm, ⟨_, sfx, ⟨sec, rfl, hsec⟩, hsfx,
      rfl⟩, rfl⟩, rfl⟩, rfl⟩

end Validator

namespace JS

theorem split_two (sep : Char) (a b : JSString)
    (ha : ∀ c ∈ a, c ≠ sep) (hb : ∀ c ∈ b, c ≠ sep) :
    split sep (a ++ sep :: b) = [a, b] := by
  unfold split List.splitOn
  rw [List.splitOnP_first _ a (by simpa using ha) sep (by simp),
    List.splitOnP_eq_single _ b (by simpa using hb)]

theorem isDigit_ne_colon (s : JSString) (hd : ∀ c ∈ s, isDigit c = true) : ∀ c ∈ s, c ≠ ':' :=
  fun c hc => isDigit_ne c ':' (hd c hc) (by decide)

theorem toNumber_short (s : JSString) (hne : s ≠ []) (hd : ∀ c ∈ s, isDigit c = true)
    (hl : s.length ≤ 2) : toNumber s = .fin ((decVal s : Nat) : ℚ) := by
  rw [toNumber_digits s hne hd]
  apply roundDouble_natCast
  have h1 := Validator.Tests.decVal_lt s hd
  have h2 : 10 ^ s.length ≤ 10 ^ 2 := Nat.pow_le_pow_right (by omega) hl
  have h3 : (10 : Nat) ^ 2 ≤ 2 ^ 53 := by norm_num
  omega

theorem isWhiteSpace_lowerUnit (c : Char) : isWhiteSpace (lowerUnit c) = isWhiteSpace c := by
  unfold lowerUnit
  split
  · next h =>
    have h1 : (Char.ofNat (c.toNat + 32)).toNat = c.toNat + 32 :=
      toNat_ofNat_small _ (by omega)
    rw [Bool.eq_iff_iff]
    simp only [isWhiteSpace, h1, Bool.or_eq_true, beq_iff_eq, Bool.and_eq_true,
      decide_eq_true_eq]
    omega
  · rfl

end JS

namespace Underscore

theorem isBlank_lower (s : JSString) : isBlank (s.map lowerUnit) = isBlank s := by
  unfold isBlank
  rw [List.all_map]
  congr 1
  funext c
  exact isWhiteSpace_lowerUnit c

end Underscore

namespace Validator

theorem timePartOk_hour (lo hi : Nat) (hlo : lo ≤ 23) (hhi : hi ≤ 23) (s : JSString)
    (hne : s ≠ []) (hd : ∀ c ∈ s, isDigit c = true) (hl : s.length ≤ 2) :
    Tests.timePartOk lo hi 0 s = (decide (lo ≤ decVal s) && decide (decVal s ≤ hi)) := by
  unfold Tests.timePartOk
  simp only [if_true]
  rw [toNumber_short s hne hd hl, ofNat_eq lo (by omega), ofNat_eq hi (by omega), ge_fin_nat,
    le_fin_nat]

theorem timePartOk_later (lo hi i : Nat) (hi12 : i = 1 ∨ i = 2) (s : JSString)
    (hne : s ≠ []) (hd : ∀ c ∈ s, isDigit c = true) (hl : s.length ≤ 2) :
    Tests.timePartOk lo hi i s = decide (decVal s ≤ 59) := by
  unfold Tests.timePartOk
  have h0 : i ≠ 0 := by omega
  simp only [h0, if_false, hi12, if_true]
  rw [toNumber_short s hne hd hl, ofNat_eq 0 (by omega), ofNat_eq 59 (by norm_num), ge_fin_nat,
    le_fin_nat]
  simp

/-- The value `timeIndicator` of the test `time` on a text that ends with a digit followed
by the suffix. -/
theorem timeIndicator_eq (body : JSString) (d : Char) (sfx : JSString) (hd : isDigit d = true)
    (hs : sfx = [] ∨ sfx = ['a', 'm'] ∨ sfx = ['p', 'm']) :
    (if (Underscore.endsWith (body ++ d :: sfx) ['a', 'm'] ||
        Underscore.endsWith (body ++ d :: sfx) ['p', 'm']) = true
      then (body ++ d :: sfx).drop ((body ++ d :: sfx).length - 2) else []) = sfx := by
  have hm : ('m' == d) = false := by
    rw [beq_eq_false_iff_ne]
    exact (isDigit_ne d 'm' hd (by decide)).symm
  rcases hs with rfl | rfl | rfl
  · simp [Underscore.endsWith, List.isSuffixOf, List.reverse_append, List.isPrefixOf, hm]
  · have hl : (body ++ [d, 'a', 'm']).length - 2 = body.length + 1 := by simp
    rw [hl, List.drop_append]
    simp [Underscore.endsWith, List.isSuffixOf, List.reverse_append, List.isPrefixOf]
  · have hl : (body ++ [d, 'p', 'm']).length - 2 = body.length + 1 := by simp
    rw [hl, List.drop_append]
    simp [Underscore.endsWith, List.isSuffixOf, List.reverse_append, List.isPrefixOf]

theorem suffix_no_colon (sfx : JSString) (hs : sfx = [] ∨ sfx = ['a', 'm'] ∨ sfx = ['p', 'm']) :
    ∀ c ∈ sfx, c ≠ ':' := by
  rcases hs with rfl | rfl | rfl <;> simp

theorem strip_suffix (p sfx : JSString) (hs : sfx = ['a', 'm'] ∨ sfx = ['p', 'm']) :
    (p ++ sfx).take ((p ++ sfx).length - 2) = p := by
  rcases hs with rfl | rfl <;> simp

end Validator

namespace Validator

/-- The test `time` on a well-formed time: the result is the range check of the
specification. -/
theorem time_of_parts (f : Field) (p : TimeParts) (hw : p.wellFormed = true)
    (hval : f.val.map lowerUnit = p.text) : Tests.time f = .bool p.inRange := by
  obtain ⟨h, m, sec, sfx⟩ := p
  rw [wellFormed_iff] at hw
  obtain ⟨⟨hhl, hhd⟩, hm, hsec, hsfx⟩ := hw
  simp only at hhl hhd hm hsec hsfx
  obtain ⟨m1, m2, rfl, hm1, hm2⟩ := (twoDigits_iff m).mp hm
  have hhne : h ≠ [] := by
    rintro rfl
    simp at hhl
  have hhl2 : h.length ≤ 2 := by omega
  have hmd : ∀ c ∈ [m1, m2], isDigit c = true := by simp [hm1, hm2]
  have hmatch : timeRe.matches (f.val.map lowerUnit) = true := by
    rw [Regex.matches_iff, lang_timeRe]
    exact ⟨⟨h, [m1, m2], sec, sfx⟩, hval.symm, (wellFormed_iff _).mpr ⟨⟨hhl, hhd⟩, hm, hsec, hsfx⟩⟩
  have hblank : Underscore.isBlank (f.val.map lowerUnit) = false := by
    rw [hval]
    simp [TimeParts.text, Underscore.isBlank, isWhiteSpace]
  have hsuf : (decide (sfx = ['a', 'm']) || decide (sfx = ['p', 'm'])) = !(sfx == []) := by
    rcases hsfx with rfl | rfl | rfl <;> decide
  cases sec with
  | none =>
    have hv : f.val.map lowerUnit = (h ++ [':', m1]) ++ m2 :: sfx := by
      rw [hval]
      simp [TimeParts.text]
    have hti := timeIndicator_eq (h ++ [':', m1]) m2 sfx hm2 hsfx
    rw [← hv] at hti
    have hsplit : split ':' (f.val.map lowerUnit) = [h, [m1, m2] ++ sfx] := by
      rw [hval]
      exact split_two ':' h _ (isDigit_ne_colon h hhd) (by
        intro c hc
        rcases List.mem_append.mp hc with hc | hc
        · exact isDigit_ne_colon _ hmd c hc
        · exact suffix_no_colon sfx hsfx c hc)
    unfold Tests.time
    simp only [hti, hsplit, hblank, hmatch, hsuf, Bool.not_false, if_true]
    have ht0 := timePartOk_hour 0 23 (by omega) (by omega) h hhne hhd hhl2
    have ht1 := timePartOk_hour 1 12 (by omega) (by omega) h hhne hhd hhl2
    have htm : ∀ lo hi, Tests.timePartOk lo hi 1 [m1, m2] = decide (decVal [m1, m2] ≤ 59) :=
      fun lo hi => timePartOk_later lo hi 1 (Or.inl rfl) [m1, m2] (by simp) hmd (by simp)
    rcases hsfx with rfl | rfl | rfl <;>
      simp [Tests.mapLast, List.enum, List.enumFrom, TimeParts.inRange, ht0, ht1, htm]
  | some x =>
    simp only at hsec
    obtain ⟨x1, x2, rfl, hx1, hx2⟩ := (twoDigits_iff x).mp hsec
    have hxd : ∀ c ∈ [x1, x2], isDigit c = true := by simp [hx1, hx2]
    have hv : f.val.map lowerUnit = (h ++ [':', m1, m2, ':', x1]) ++ x2 :: sfx := by
      rw [hval]
      simp [TimeParts.text]
    have hti := timeIndicator_eq (h ++ [':', m1, m2, ':', x1]) x2 sfx hx2 hsfx
    rw [← hv] at hti
    have hsplit : split ':' (f.val.map lowerUnit) = [h, [m1, m2], [x1, x2] ++ sfx] := by
      rw [hval]
      exact Validator.Tests.split_three ':' h _ _ (isDigit_ne_colon h hhd) (isDigit_ne_colon _ hmd) (by
        intro c hc
        rcases List.mem_append.mp hc with hc | hc
        · exact isDigit_ne_colon _ hxd c hc
        · exact suffix_no_colon sfx hsfx c hc)
    unfold Tests.time
    simp only [hti, hsplit, hblank, hmatch, hsuf, Bool.not_false, if_true]
    have ht0 := timePartOk_hour 0 23 (by omega) (by omega) h hhne hhd hhl2
    have ht1 := timePartOk_hour 1 12 (by omega) (by omega) h hhne hhd hhl2
    have htm : ∀ lo hi, Tests.timePartOk lo hi 1 [m1, m2] = decide (decVal [m1, m2] ≤ 59) :=
      fun lo hi => timePartOk_later lo hi 1 (Or.inl rfl) [m1, m2] (by simp) hmd (by simp)
    have htx : ∀ lo hi, Tests.timePartOk lo hi 2 [x1, x2] = decide (decVal [x1, x2] ≤ 59) :=
      fun lo hi => timePartOk_later lo hi 2 (Or.inr rfl) [x1, x2] (by simp) hxd (by simp)
    rcases hsfx with rfl | rfl | rfl <;>
      simp [Tests.mapLast, List.enum, List.enumFrom, TimeParts.inRange, ht0, ht1, htm, htx, Bool.and_assoc]

end Validator

/-! ## The test `time` -/

namespace Validator

/-- C12. For every value, `time` passes if and only if the value is blank, or its
lower-cased form is written `h{1,2}:mm[:ss][am|pm]` with the hour in 1..12 when the
suffix `am` or `pm` is present and in 0..23 otherwise, and with the minute and the second
(if present) in 0..59; so `9:05PM`, `23:59:59` and `00:00` pass while `13:00pm`,
`0:15am`, `24:00`, `12:60`, `1:30:60` and `1:5` fail. -/
theorem time_iff :
    (∀ f : Field, Tests.time f = .bool true ↔
      (Underscore.isBlank f.val = true ∨
        ∃ p : TimeParts, p.text = f.val.map lowerUnit ∧ p.wellFormed = true ∧
          p.inRange = true)) ∧
    Tests.time { val := "   ".toList } = .bool true ∧
    Tests.time { val := "9:05PM".toList } = .bool true ∧
    Tests.time { val := "23:59:59".toList } = .bool true ∧
    Tests.time { val := "00:00".toList } = .bool true ∧
    Tests.time { val := "13:00pm".toList } = .bool false ∧
    Tests.time { val := "0:15am".toList } = .bool false ∧
    Tests.time { val := "24:00".toList } = .bool false ∧
    Tests.time { val := "12:60".toList } = .bool false ∧
    Tests.time { val := "1:30:60".toList } = .bool false ∧
    Tests.time { val := "1:5".toList } = .bool false := by
  refine ⟨fun f => ?_, by decide!, by decide!, by decide!, by decide!, by decide!, by decide!,
    by decide!, by decide!, by decide!, by decide!⟩
  by_cases hb : Underscore.isBlank f.val = true
  · have hb2 : Underscore.isBlank (f.val.map lowerUnit) = true := by
      rw [Underscore.isBlank_lower]; exact hb
    constructor
    · intro _; exact Or.inl hb
    · intro _
      unfold Tests.time
      simp [hb2]
  · have hb2 : Underscore.isBlank (f.val.map lowerUnit) = false := by
      rw [Underscore.isBlank_lower]; simpa using hb
    constructor
    · intro h
      right
      have hmatch : timeRe.matches (f.val.map lowerUnit) = true := by
        by_contra hn
        unfold Tests.time at h
        simp [hb2, hn] at h
      obtain ⟨p, hp, hw⟩ := (lang_timeRe _).mp ((Regex.matches_iff _ _).mp hmatch)
      rw [time_of_parts f p hw hp.symm] at h
      exact ⟨p, hp, hw, by simpa using h⟩
    · rintro (h | ⟨p, hp, hw, hr⟩)
      · exact absurd h hb
      · rw [time_of_parts f p hw hp.symm, hr]

/-- An instance of C12: `9:05PM` lower-cases to `9:05pm`, whose hour 9 is in 1..12 and
whose minute 5 is in 0..59, so `time` passes it. -/
theorem time_iff_witness : Tests.time { val := "9:05PM".toList } = .bool true :=
  (time_iff.1 { val := "9:05PM".toList }).mpr
    (Or.inr ⟨⟨"9".toList, "05".toList, none, "pm".toList⟩, by decide, by decide, by decide⟩)

end Validator

namespace JS

theorem lang_text (w s : JSString) : Regex.lang (Regex.text w) s ↔ s = w := by
  induction w generalizing s with
  | nil => simp [Regex.text, Regex.lang]
  | cons c cs ih =>
    simp only [Regex.text, Regex.lit, Regex.lang_seq_unit, ih, beq_iff_eq]
    constructor
    · rintro ⟨d, t, rfl, rfl, rfl⟩; rfl
    · rintro rfl; exact ⟨c, cs, rfl, rfl, rfl⟩

theorem lang_plus_unit (p : Char → Bool) (s : JSString) :
    Regex.lang (Regex.plus (.unit p)) s ↔ s ≠ [] ∧ ∀ c ∈ s, p c = true := by
  simp only [Regex.plus, Regex.lang_seq_unit, Regex.lang_star_unit]
  constructor
  · rintro ⟨c, t, rfl, hc, ht⟩
    exact ⟨by simp, by simpa [hc] using ht⟩
  · rintro ⟨hne, hs⟩
    cases s with
    | nil => exact absurd rfl hne
    | cons c t =>
      exact ⟨c, t, rfl, hs c (List.mem_cons_self _ _), fun d hd => hs d (List.mem_cons_of_mem _ hd)⟩

/-- The digits at the front of a text are determined by where the first non-digit is. -/
theorem span_digits (a r : JSString) (ha : ∀ c ∈ a, isDigit c = true)
    (hr : ∀ c t, r = c :: t → isDigit c = false) :
    (a ++ r).takeWhile isDigit = a ∧ (a ++ r).dropWhile isDigit = r := by
  induction a with
  | nil =>
    cases r with
    | nil => simp
    | cons c t => simp [List.takeWhile_cons, List.dropWhile_cons, hr c t rfl]
  | cons c t ih =>
    have hc := ha c (List.mem_cons_self _ _)
    have := ih (fun d hd => ha d (List.mem_cons_of_mem _ hd))
    simp [List.takeWhile_cons, List.dropWhile_cons, hc, this]

theorem dropWhile_head (s : JSString) :
    ∀ c t, s.dropWhile isDigit = c :: t → isDigit c = false := by
  intro c t h
  have := List.head_dropWhile_not isDigit s (by rw [h]; simp)
  simpa [h] using this

theorem lang_exponentRe (r : JSString) :
    Regex.lang exponentRe r ↔
      ∃ c rest, r = c :: rest ∧ (c = 'e' ∨ c = 'E') ∧
        ((rest ≠ [] ∧ ∀ d ∈ rest, isDigit d = true) ∨
          ∃ s ds, rest = s :: ds ∧ (s = '+' ∨ s = '-') ∧ ds ≠ [] ∧ ∀ d ∈ ds, isDigit d = true) := by
  simp only [exponentRe, Regex.opt, Regex.digit, Regex.lang_seq_unit, Regex.lang_seq_alt,
    Regex.lang_seq_eps_left, lang_plus_unit, isSign, Bool.or_eq_true, beq_iff_eq]
  constructor
  · rintro ⟨c, rest, rfl, hc, (⟨s, ds, rfl, hs, hds⟩ | hrest)⟩
    · exact ⟨c, _, rfl, hc, Or.inr ⟨s, ds, rfl, hs, hds⟩⟩
    · exact ⟨c, _, rfl, hc, Or.inl hrest⟩
  · rintro ⟨c, rest, rfl, hc, (hrest | ⟨s, ds, rfl, hs, hds⟩)⟩
    · exact ⟨c, _, rfl, hc, Or.inr hrest⟩
    · exact ⟨c, _, rfl, hc, Or.inl ⟨s, ds, rfl, hs, hds⟩⟩

theorem exponent_sign_case (c sg : Char) (ds : JSString) (hc : c = 'e' ∨ c = 'E')
    (hsg : sg = '+' ∨ sg = '-') :
    (¬ds = [] ∧ ∀ x ∈ ds, isDigit x = true) ↔
      ∃ c1 rest, (c = c1 ∧ sg :: ds = rest) ∧ (c1 = 'e' ∨ c1 = 'E') ∧
        ((¬rest = [] ∧ ∀ d ∈ rest, isDigit d = true) ∨
          ∃ s ds, rest = s :: ds ∧ (s = '+' ∨ s = '-') ∧ ¬ds = [] ∧
            ∀ d ∈ ds, isDigit d = true) := by
  have hnd : isDigit sg = false := by rcases hsg with rfl | rfl <;> decide
  constructor
  · rintro ⟨hne, hd⟩
    exact ⟨c, sg :: ds, ⟨rfl, rfl⟩, hc, Or.inr ⟨sg, ds, rfl, hsg, hne, hd⟩⟩
  · rintro ⟨c1, rest, ⟨rfl, rfl⟩, _, (⟨_, hall⟩ | ⟨s, ds2, heq, _, hne, hd⟩)⟩
    · have := hall sg (List.mem_cons_self _ _)
      rw [hnd] at this
      exact absurd this (by decide)
    · obtain ⟨rfl, rfl⟩ := List.cons.inj heq
      exact ⟨hne, hd⟩

theorem parseExponent_isSome (r : JSString) :
    (parseExponent r).isSome = true ↔ r = [] ∨ Regex.lang exponentRe r := by
  rw [lang_exponentRe]
  cases r with
  | nil => simp [parseExponent]
  | cons c rest =>
    simp only [parseExponent, List.cons.injEq, false_or, reduceCtorEq]
    by_cases hc : c = 'e' ∨ c = 'E'
    · simp only [hc, if_true]
      cases rest with
      | nil => simp
      | cons s ds =>
        by_cases hp : s = '+'
        · subst hp
          simp
          exact exponent_sign_case c '+' ds hc (Or.inl rfl)
        · by_cases hm : s = '-'
          · subst hm
            simp
            exact exponent_sign_case c '-' ds hc (Or.inr rfl)
          · simp [hp, hm]
            constructor
            · rintro ⟨hs, hd⟩
              exact ⟨c, s :: ds, ⟨rfl, rfl⟩, hc, Or.inl ⟨by simp, by simpa [hs] using hd⟩⟩
            · rintro ⟨c1, rest, ⟨rfl, rfl⟩, _, (⟨_, hall⟩ | ⟨s2, ds2, heq, hs2, _, _⟩)⟩
              · simpa using hall
              · obtain ⟨rfl, rfl⟩ := List.cons.inj heq
                rcases hs2 with h | h
                · exact absurd h hp
                · exact absurd h hm
    · simp only [hc, if_false]
      simp
      intro h
      exact absurd h hc

end JS

namespace JS

theorem exponent_head (y : JSString) (h : y = [] ∨ Regex.lang exponentRe y) :
    ∀ c t, y = c :: t → isDigit c = false ∧ c ≠ '.' := by
  intro c t hy
  rcases h with h | h
  · rw [h] at hy; exact absurd hy (by simp)
  · rw [lang_exponentRe] at h
    obtain ⟨c1, rest, h1, hc, _⟩ := h
    rw [hy] at h1
    obtain ⟨rfl, rfl⟩ := List.cons.inj h1
    rcases hc with rfl | rfl <;> exact ⟨by decide, by decide⟩

theorem parseUnsignedDecimal_whole (a y : JSString) (ha : ∀ c ∈ a, isDigit c = true)
    (hne : a ≠ []) (hy : y = [] ∨ Regex.lang exponentRe y) :
    (parseUnsignedDecimal (a ++ y)).isSome = true := by
  have hsp := span_digits a y ha (fun c t h => (exponent_head y hy c t h).1)
  have hex := (parseExponent_isSome y).mpr hy
  unfold parseUnsignedDecimal
  simp only [hsp.1, hsp.2]
  cases y with
  | nil => simp [hne, parseExponent]
  | cons c t =>
    have hc := (exponent_head _ hy c t rfl).2
    simp only [hc, if_false, hne, false_and, Option.isSome_map']
    exact hex

theorem parseUnsignedDecimal_point (a fp y : JSString) (ha : ∀ c ∈ a, isDigit c = true)
    (hfp : ∀ c ∈ fp, isDigit c = true) (hne : a ≠ [] ∨ fp ≠ [])
    (hy : y = [] ∨ Regex.lang exponentRe y) :
    (parseUnsignedDecimal (a ++ '.' :: (fp ++ y))).isSome = true := by
  have hsp := span_digits a ('.' :: (fp ++ y)) ha (fun c t h => by
    obtain ⟨rfl, _⟩ := List.cons.inj h
    decide)
  have hsp2 := span_digits fp y hfp (fun c t h => (exponent_head y hy c t h).1)
  have hex := (parseExponent_isSome y).mpr hy
  unfold parseUnsignedDecimal
  simp only [hsp.1, hsp.2, if_true, hsp2.1, hsp2.2]
  have : ¬ (a = [] ∧ fp = []) := by
    rintro ⟨h1, h2⟩
    rcases hne with h | h
    · exact h h1
    · exact h h2
  simp only [this, if_false, Option.isSome_map']
  exact hex

theorem lang_optPoint (b : JSString) :
    Regex.lang (Regex.opt (.seq (Regex.lit '.') (.star Regex.digit))) b ↔
      b = [] ∨ ∃ t, b = '.' :: t ∧ ∀ c ∈ t, isDigit c = true := by
  simp only [Regex.opt, Regex.lit, Regex.digit, Regex.lang.eq_5, Regex.lang.eq_2,
    Regex.lang_seq_unit, Regex.lang_star_unit, beq_iff_eq]
  constructor
  · rintro (⟨c, t, rfl, rfl, ht⟩ | rfl)
    · exact Or.inr ⟨t, rfl, ht⟩
    · exact Or.inl rfl
  · rintro (rfl | ⟨t, rfl, ht⟩)
    · exact Or.inr rfl
    · exact Or.inl ⟨'.', t, rfl, rfl, ht⟩

theorem lang_pointDigits (x : JSString) :
    Regex.lang (.seq (Regex.lit '.') (Regex.plus Regex.digit)) x ↔
      ∃ t, x = '.' :: t ∧ t ≠ [] ∧ ∀ c ∈ t, isDigit c = true := by
  simp only [Regex.lit, Regex.digit, Regex.lang_seq_unit, lang_plus_unit, beq_iff_eq]
  constructor
  · rintro ⟨c, t, rfl, rfl, ht⟩
    exact ⟨t, rfl, ht⟩
  · rintro ⟨t, rfl, ht⟩
    exact ⟨'.', t, rfl, rfl, ht⟩

/-- The shape of the text before the exponent: digits, or digits, a point and digits
with a digit on one side at least. -/
theorem lang_mantissaRe (x : JSString) :
    Regex.lang mantissaRe x ↔
      (x ≠ [] ∧ ∀ c ∈ x, isDigit c = true) ∨
      ∃ a fp, x = a ++ '.' :: fp ∧ (∀ c ∈ a, isDigit c = true) ∧
        (∀ c ∈ fp, isDigit c = true) ∧ (a ≠ [] ∨ fp ≠ []) := by
  unfold mantissaRe
  rw [Regex.lang.eq_5, Regex.lang.eq_4]
  simp only [lang_optPoint, lang_pointDigits]
  have hplus : ∀ a, Regex.lang (Regex.plus Regex.digit) a ↔ a ≠ [] ∧ ∀ c ∈ a, isDigit c = true :=
    fun a => lang_plus_unit isDigit a
  simp only [hplus]
  constructor
  · rintro (⟨a, b, ⟨hne, ha⟩, (rfl | ⟨t, rfl, ht⟩), rfl⟩ | ⟨t, rfl, hne, ht⟩)
    · exact Or.inl ⟨by simpa using hne, by simpa using ha⟩
    · exact Or.inr ⟨a, t, rfl, ha, ht, Or.inl hne⟩
    · exact Or.inr ⟨[], t, rfl, by simp, ht, Or.inr hne⟩
  · rintro (⟨hne, hx⟩ | ⟨a, fp, rfl, ha, hfp, hne⟩)
    · exact Or.inl ⟨x, [], ⟨hne, hx⟩, Or.inl rfl, by simp⟩
    · by_cases hane : a = []
      · subst hane
        have hfne : fp ≠ [] := by
          rcases hne with h | h
          · exact absurd rfl h
          · exact h
        exact Or.inr ⟨fp, rfl, hfne, hfp⟩
      · exact Or.inl ⟨a, '.' :: fp, ⟨hane, ha⟩, Or.inr ⟨fp, rfl, hfp⟩, rfl⟩

theorem parseUnsignedDecimal_isSome (s : JSString) :
    (parseUnsignedDecimal s).isSome = true ↔
      Regex.lang (.seq mantissaRe (Regex.opt exponentRe)) s := by
  simp only [Regex.lang.eq_4, lang_mantissaRe, Regex.opt, Regex.lang.eq_5, Regex.lang.eq_2]
  constructor
  · intro h
    have hsplit := List.takeWhile_append_dropWhile isDigit s
    have hip : ∀ c ∈ s.takeWhile isDigit, isDigit c = true := fun c hc =>
      List.mem_takeWhile_imp hc
    unfold parseUnsignedDecimal at h
    simp only at h
    rcases hr1 : s.dropWhile isDigit with _ | ⟨c, t⟩
    · rw [hr1] at h hsplit
      have hne : s.takeWhile isDigit ≠ [] := by
        intro h0
        simp [h0] at h
      exact ⟨s.takeWhile isDigit, [], Or.inl ⟨hne, hip⟩, Or.inr rfl, hsplit.symm⟩
    · rw [hr1] at h hsplit
      by_cases hc : c = '.'
      · subst hc
        simp only [if_true] at h
        have hne : ¬ (s.takeWhile isDigit = [] ∧ t.takeWhile isDigit = []) := by
          intro h0
          simp [h0] at h
        simp only [hne, if_false, Option.isSome_map'] at h
        have hex := (parseExponent_isSome _).mp h
        refine ⟨s.takeWhile isDigit ++ '.' :: t.takeWhile isDigit, t.dropWhile isDigit,
          Or.inr ⟨_, _, rfl, hip, fun c hc => List.mem_takeWhile_imp hc, ?_⟩, hex.symm, ?_⟩
        · by_cases h1 : s.takeWhile isDigit = []
          · exact Or.inr (fun h2 => hne ⟨h1, h2⟩)
          · exact Or.inl h1
        · rw [List.append_assoc, List.cons_append, List.takeWhile_append_dropWhile, hsplit]
      · simp only [hc, if_false] at h
        have hne : s.takeWhile isDigit ≠ [] := by
          intro h0
          simp [h0] at h
        simp only [hne, false_and, if_false, Option.isSome_map'] at h
        have hex := (parseExponent_isSome _).mp h
        exact ⟨s.takeWhile isDigit, c :: t, Or.inl ⟨hne, hip⟩, hex.symm, hsplit.symm⟩
  · rintro ⟨x, y, (⟨hne, hx⟩ | ⟨a, fp, rfl, ha, hfp, hne⟩), hy, rfl⟩
    · exact parseUnsignedDecimal_whole x y hx hne hy.symm
    · rw [List.append_assoc, List.cons_append]
      exact parseUnsignedDecimal_point a fp y ha hfp hne hy.symm

theorem lang_infinity_or (s : JSString) :
    (parseUnsigned s).isSome = true ↔ Regex.lang unsignedDecimalRe s := by
  unfold unsignedDecimalRe
  rw [Regex.lang.eq_5, lang_text, ← parseUnsignedDecimal_isSome]
  unfold parseUnsigned
  by_cases h : s = infinityText
  · simp [h]
  · simp [h]

theorem parseUnsigned_sign (c : Char) (t : JSString) (hc : c = '+' ∨ c = '-') :
    parseUnsigned (c :: t) = none := by
  have hd : isDigit c = false := by rcases hc with rfl | rfl <;> decide
  have hp : c ≠ '.' := by rcases hc with rfl | rfl <;> decide
  have hI : c :: t ≠ infinityText := by
    intro h
    have : c = 'I' := (List.cons.inj h).1
    rcases hc with rfl | rfl <;> exact absurd this (by decide)
  unfold parseUnsigned
  rw [if_neg hI]
  unfold parseUnsignedDecimal
  simp [List.takeWhile_cons, List.dropWhile_cons, hd, hp]

theorem parseStrDecimal_isSome (s : JSString) :
    (parseStrDecimal s).isSome = true ↔
      Regex.lang (.seq (Regex.opt (.unit isSign)) unsignedDecimalRe) s := by
  simp only [Regex.opt, Regex.lang_seq_alt, Regex.lang_seq_eps_left, Regex.lang_seq_unit,
    ← lang_infinity_or, isSign, Bool.or_eq_true, beq_iff_eq]
  cases s with
  | nil =>
    simp [parseStrDecimal]
    decide
  | cons c t =>
    unfold parseStrDecimal
    by_cases hs : c = '+' ∨ c = '-'
    · have hnone := parseUnsigned_sign c t hs
      have hl : (if c = '+' then parseUnsigned t
          else if c = '-' then Option.map JSNum.neg (parseUnsigned t)
          else parseUnsigned (c :: t)).isSome = (parseUnsigned t).isSome := by
        rcases hs with rfl | rfl
        · simp
        · simp
      rw [hl, hnone]
      constructor
      · intro h
        exact Or.inl ⟨c, t, rfl, hs, h⟩
      · rintro (⟨c2, t2, heq, _, h⟩ | h)
        · obtain ⟨rfl, rfl⟩ := List.cons.inj heq
          exact h
        · simp at h
    · have hp : c ≠ '+' := fun h => hs (Or.inl h)
      have hm : c ≠ '-' := fun h => hs (Or.inr h)
      simp only [hp, hm, if_false]
      constructor
      · intro h
        exact Or.inr h
      · rintro (⟨c2, t2, heq, hs2, _⟩ | h)
        · obtain ⟨rfl, rfl⟩ := List.cons.inj heq
          exact absurd hs2 hs
        · exact h

end JS

namespace JS

theorem lang_nonDecimalRe (s : JSString) :
    Regex.lang nonDecimalRe s ↔
      ∃ c1 ds, s = '0' :: c1 :: ds ∧ ds ≠ [] ∧
        (((c1 = 'x' ∨ c1 = 'X') ∧ ∀ d ∈ ds, isRadixDigit 16 d = true) ∨
          ((c1 = 'o' ∨ c1 = 'O') ∧ ∀ d ∈ ds, isRadixDigit 8 d = true) ∨
          ((c1 = 'b' ∨ c1 = 'B') ∧ ∀ d ∈ ds, isRadixDigit 2 d = true)) := by
  simp only [nonDecimalRe, Regex.lit, Regex.lang_seq_unit, Regex.lang.eq_5, lang_plus_unit,
    Bool.or_eq_true, beq_iff_eq]
  constructor
  · rintro ⟨c, t, rfl, rfl, (⟨c1, ds, rfl, hc, hne, hd⟩ | ⟨c1, ds, rfl, hc, hne, hd⟩ |
      ⟨c1, ds, rfl, hc, hne, hd⟩)⟩
    · exact ⟨c1, ds, rfl, hne, Or.inl ⟨hc, hd⟩⟩
    · exact ⟨c1, ds, rfl, hne, Or.inr (Or.inl ⟨hc, hd⟩)⟩
    · exact ⟨c1, ds, rfl, hne, Or.inr (Or.inr ⟨hc, hd⟩)⟩
  · rintro ⟨c1, ds, rfl, hne, (⟨hc, hd⟩ | ⟨hc, hd⟩ | ⟨hc, hd⟩)⟩
    · exact ⟨'0', _, rfl, rfl, Or.inl ⟨c1, ds, rfl, hc, hne, hd⟩⟩
    · exact ⟨'0', _, rfl, rfl, Or.inr (Or.inl ⟨c1, ds, rfl, hc, hne, hd⟩)⟩
    · exact ⟨'0', _, rfl, rfl, Or.inr (Or.inr ⟨c1, ds, rfl, hc, hne, hd⟩)⟩

theorem parseNonDecimal_isSome (s : JSString) :
    (parseNonDecimal s).isSome = true ↔ Regex.lang nonDecimalRe s := by
  rw [lang_nonDecimalRe]
  match s with
  | [] => simp [parseNonDecimal]
  | [_] => simp [parseNonDecimal]
  | c0 :: c1 :: ds =>
    unfold parseNonDecimal
    simp only [List.cons.injEq, List.all_eq_true]
    by_cases hx : c1 = 'x' ∨ c1 = 'X'
    · have ho : ¬ (c1 = 'o' ∨ c1 = 'O') := by rcases hx with rfl | rfl <;> decide
      have hb : ¬ (c1 = 'b' ∨ c1 = 'B') := by rcases hx with rfl | rfl <;> decide
      simp only [hx, if_true]
      constructor
      · intro h
        have h2 : c0 = '0' ∧ ds ≠ [] ∧ ∀ d ∈ ds, isRadixDigit 16 d = true := by
          simpa using h
        exact ⟨c1, ds, ⟨h2.1, rfl, rfl⟩, h2.2.1, Or.inl ⟨hx, h2.2.2⟩⟩
      · rintro ⟨c, ds2, ⟨rfl, rfl, rfl⟩, hne, (⟨_, hd⟩ | ⟨h, _⟩ | ⟨h, _⟩)⟩
        · simpa [hne] using hd
        · exact absurd h ho
        · exact absurd h hb
    · by_cases ho : c1 = 'o' ∨ c1 = 'O'
      · have hb : ¬ (c1 = 'b' ∨ c1 = 'B') := by rcases ho with rfl | rfl <;> decide
        simp only [hx, ho, if_true, if_false]
        constructor
        · intro h
          have h2 : c0 = '0' ∧ ds ≠ [] ∧ ∀ d ∈ ds, isRadixDigit 8 d = true := by
            simpa using h
          exact ⟨c1, ds, ⟨h2.1, rfl, rfl⟩, h2.2.1, Or.inr (Or.inl ⟨ho, h2.2.2⟩)⟩
        · rintro ⟨c, ds2, ⟨rfl, rfl, rfl⟩, hne, (⟨h, _⟩ | ⟨_, hd⟩ | ⟨h, _⟩)⟩
          · exact absurd h hx
          · simpa [hne] using hd
          · exact absurd h hb
      · by_cases hb : c1 = 'b' ∨ c1 = 'B'
        · simp only [hx, ho, hb, if_true, if_false]
          constructor
          · intro h
            have h2 : c0 = '0' ∧ ds ≠ [] ∧ ∀ d ∈ ds, isRadixDigit 2 d = true := by
              simpa using h
            exact ⟨c1, ds, ⟨h2.1, rfl, rfl⟩, h2.2.1, Or.inr (Or.inr ⟨hb, h2.2.2⟩)⟩
          · rintro ⟨c, ds2, ⟨rfl, rfl, rfl⟩, hne, (⟨h, _⟩ | ⟨h, _⟩ | ⟨_, hd⟩)⟩
            · exact absurd h hx
            · exact absurd h ho
            · simpa [hne] using hd
        · simp only [hx, ho, hb, if_false]
          simp only [ne_eq, not_true_eq_false, false_and, and_false, if_false, Option.isSome_none,
            Bool.false_eq_true, false_iff]
          rintro ⟨c, ds2, ⟨rfl, rfl, rfl⟩, _, (⟨h, _⟩ | ⟨h, _⟩ | ⟨h, _⟩)⟩
          · exact hx h
          · exact ho h
          · exact hb h

end JS

namespace JS

theorem neg_ne_nan (x : JSNum) (h : x ≠ .nan) : x.neg ≠ .nan := by
  cases x with
  | nan => exact absurd rfl h
  | inf b => simp [JSNum.neg]
  | fin q => simp [JSNum.neg]

theorem parseUnsigned_ne_nan (s : JSString) (x : JSNum) (h : parseUnsigned s = some x) :
    x ≠ .nan := by
  unfold parseUnsigned at h
  split at h
  · cases h
    simp
  · cases hp : parseUnsignedDecimal s with
    | none => simp [hp] at h
    | some q =>
      simp [hp] at h
      rw [← h]
      exact roundDouble_ne_nan q

theorem parseStrDecimal_ne_nan (s : JSString) (x : JSNum) (h : parseStrDecimal s = some x) :
    x ≠ .nan := by
  unfold parseStrDecimal at h
  cases s with
  | nil => simp at h
  | cons c t =>
    simp only at h
    split at h
    · exact parseUnsigned_ne_nan _ x h
    · split at h
      · cases hp : parseUnsigned t with
        | none => simp [hp] at h
        | some y =>
          simp [hp] at h
          rw [← h]
          exact neg_ne_nan y (parseUnsigned_ne_nan _ y hp)
      · exact parseUnsigned_ne_nan _ x h

theorem parseNonDecimal_ne_nan (s : JSString) (x : JSNum) (h : parseNonDecimal s = some x) :
    x ≠ .nan := by
  match s, h with
  | [], h => simp [parseNonDecimal] at h
  | [_], h => simp [parseNonDecimal] at h
  | c0 :: c1 :: ds, h =>
    unfold parseNonDecimal at h
    simp only at h
    generalize (if c1 = 'x' ∨ c1 = 'X' then 16
      else if c1 = 'o' ∨ c1 = 'O' then 8
      else if c1 = 'b' ∨ c1 = 'B' then 2
      else 0 : Nat) = radix at h
    by_cases hc : c0 = '0' ∧ radix ≠ 0 ∧ ds ≠ [] ∧ ds.all (isRadixDigit radix) = true
    · rw [if_pos hc] at h
      cases h
      exact roundDouble_ne_nan _
    · rw [if_neg hc] at h
      simp at h

/-- ToNumber of a text is a Number other than NaN exactly when the text, with the white
space at both ends removed, is empty or a numeric literal. -/
theorem toNumber_isNaN (s : JSString) :
    (toNumber s).isNaN = false ↔ trim s = [] ∨ isNumericText s = true := by
  unfold isNumericText numericLiteralRe
  rw [Regex.matches_iff, Regex.lang.eq_5, ← parseStrDecimal_isSome, ← parseNonDecimal_isSome]
  unfold toNumber
  simp only
  by_cases ht : trim s = []
  · simp [ht, JSNum.isNaN]
  · simp only [ht, if_false, false_or]
    cases hn : parseNonDecimal (trim s) with
    | some x =>
      have := parseNonDecimal_ne_nan _ x hn
      cases x <;> simp_all [JSNum.isNaN]
    | none =>
      cases hd : parseStrDecimal (trim s) with
      | some x =>
        have := parseStrDecimal_ne_nan _ x hd
        cases x <;> simp_all [JSNum.isNaN]
      | none => simp [JSNum.isNaN]

end JS

/-! ## The test `number` -/

namespace Validator

/-- C15 (as stated, refuted). The empty value is passed by `number`, and so is a value of
white space only: the unary `+` converts both to the Number 0, which is not NaN. -/
theorem number_passes_empty :
    Tests.number { val := [] } = .bool true ∧
    JS.toNumber [] = .fin 0 ∧
    Tests.number { val := "   ".toList } = .bool true := by
  decide!

/-- C15 (amended). For every value, `number` passes if and only if the value, with the
white space at both ends removed, is empty or a numeric literal of JavaScript (a decimal
literal with an optional sign, fraction and exponent, `Infinity` with an optional sign,
or an integer written with `0x`, `0o` or `0b`); so the empty value, ` 42 `, `1e5`, `-.5`,
`0x1F` and `-Infinity` pass while `12abc`, `12 34`, `.`, `1e`, `+-1` and `0x` fail. -/
theorem number_iff :
    (∀ f : Field, Tests.number f = .bool true ↔
      (trim f.val = [] ∨ isNumericText f.val = true)) ∧
    Tests.number { val := [] } = .bool true ∧
    Tests.number { val := " 42 ".toList } = .bool true ∧
    Tests.number { val := "1e5".toList } = .bool true ∧
    Tests.number { val := "-.5".toList } = .bool true ∧
    Tests.number { val := "0x1F".toList } = .bool true ∧
    Tests.number { val := "-Infinity".toList } = .bool true ∧
    Tests.number { val := "12abc".toList } = .bool false ∧
    Tests.number { val := "12 34".toList } = .bool false ∧
    Tests.number { val := ".".toList } = .bool false ∧
    Tests.number { val := "1e".toList } = .bool false ∧
    Tests.number { val := "+-1".toList } = .bool false ∧
    Tests.number { val := "0x".toList } = .bool false := by
  refine ⟨fun f => ?_, by decide!, by decide!, by decide!, by decide!, by decide!, by decide!,
    by decide!, by decide!, by decide!, by decide!, by decide!, by decide!⟩
  rw [← toNumber_isNaN]
  unfold Tests.number
  cases (JS.toNumber f.val).isNaN <;> simp

/-- An instance of the amended C15: `3.14` is a numeric literal, so `number` passes it. -/
theorem number_iff_witness : Tests.number { val := "3.14".toList } = .bool true :=
  (number_iff.1 { val := "3.14".toList }).mpr (Or.inr (by decide))

end Validator

/-! ## The constructor `Validator.Field` and the separator of tests -/

namespace JS

theorem splitPair_final (a b : Char) (x : JSString) :
    ∀ acc : JSString, Validator.hasPair a b x = false →
      splitPair a b acc x = [acc.reverse ++ x] := by
  induction x with
  | nil => intro acc _; simp [splitPair]
  | cons c t ih =>
    intro acc h
    cases t with
    | nil => simp [splitPair]
    | cons d t2 =>
      simp only [Validator.hasPair, Bool.or_eq_false_iff, Bool.and_eq_false_iff, beq_eq_false_iff_ne]
        at h
      have hc : ¬ (c = a ∧ d = b) := by
        rintro ⟨h1, h2⟩
        rcases h.1 with h3 | h3
        · exact h3 h1
        · exact h3 h2
      rw [splitPair, if_neg hc, ih (c :: acc) h.2]
      simp

theorem splitPair_sep (a b : Char) (hab : a ≠ b) (x more : JSString) :
    ∀ acc : JSString, Validator.hasPair a b x = false →
      splitPair a b acc (x ++ a :: b :: more) = (acc.reverse ++ x) :: splitPair a b [] more := by
  induction x with
  | nil =>
    intro acc _
    simp [splitPair]
  | cons c t ih =>
    intro acc h
    cases t with
    | nil =>
      have hc : ¬ (c = a ∧ a = b) := fun h => hab h.2
      have := ih (c :: acc) (by simp [Validator.hasPair])
      simp only [List.nil_append] at this
      rw [List.cons_append, List.nil_append, splitPair, if_neg hc, this]
      simp
    | cons d t2 =>
      simp only [Validator.hasPair, Bool.or_eq_false_iff, Bool.and_eq_false_iff, beq_eq_false_iff_ne]
        at h
      have hc : ¬ (c = a ∧ d = b) := by
        rintro ⟨h1, h2⟩
        rcases h.1 with h3 | h3
        · exact h3 h1
        · exact h3 h2
      have := ih (c :: acc) h.2
      rw [List.cons_append, List.cons_append, splitPair, if_neg hc]
      rw [List.cons_append] at this
      rw [this]
      simp

end JS

namespace Validator

theorem splitPair_join (x : JSString) (rest : List JSString)
    (h : ∀ s ∈ x :: rest, hasPair ',' ' ' s = false) :
    splitPair ',' ' ' [] (joinWith [',', ' '] (x :: rest)) = x :: rest := by
  induction rest generalizing x with
  | nil =>
    rw [joinWith, splitPair_final ',' ' ' x [] (h x (List.mem_cons_self _ _))]
    simp
  | cons y rest ih =>
    have hx := h x (List.mem_cons_self _ _)
    have hrest : ∀ s ∈ y :: rest, hasPair ',' ' ' s = false :=
      fun s hs => h s (List.mem_cons_of_mem _ hs)
    rw [joinWith, List.append_assoc]
    show splitPair ',' ' ' [] (x ++ ',' :: ' ' :: joinWith [',', ' '] (y :: rest)) = _
    rw [splitPair_sep ',' ' ' (by decide) x _ [] hx, ih y hrest]
    simp

/-- C25 (as stated, refuted). The string `required,email`, which joins the two test specs
`required` and `email` with a comma, is parsed by the constructor into the one spec
`required,email`, which names no test: `check` throws on a field built from it. -/
theorem fieldTests_comma_only :
    joinWith [','] ["required".toList, "email".toList] = "required,email".toList ∧
    fieldTests (some "required,email".toList) = ["required,email".toList] ∧
    fieldTests (some "required,email".toList) ≠ ["required".toList, "email".toList] ∧
    check (some { val := "a@b.co".toList, tests := fieldTests (some "required,email".toList) })
      = .error (.typeError "Validator.Tests[test] is not a function") := by
  decide

/-- C25 (amended). A field's tests string lists the test specs separated by a comma and a
space: for every non-empty list of test specs none of which holds a comma followed by a
space, the string joining them with `, ` is parsed by the constructor into exactly that
sequence of tests; `required, email` yields the two tests `required` and `email`, and a
configuration without `tests` yields none. -/
theorem fieldTests_join :
    (∀ specs : List JSString, specs ≠ [] → (∀ s ∈ specs, hasPair ',' ' ' s = false) →
      fieldTests (some (joinWith [',', ' '] specs)) = specs) ∧
    fieldTests (some "required, email".toList) = ["required".toList, "email".toList] ∧
    fieldTests (some "required, length:5, zip-us".toList)
      = ["required".toList, "length:5".toList, "zip-us".toList] ∧
    fieldTests none = [] := by
  refine ⟨fun specs hne h => ?_, by decide, by decide, rfl⟩
  cases specs with
  | nil => exact absurd rfl hne
  | cons x rest => exact splitPair_join x rest h

/-- An instance of the amended C25: the specs `required` and `zip-us` joined with `, `
are parsed into these two specs. -/
theorem fieldTests_join_witness :
    fieldTests (some (joinWith [',', ' '] ["required".toList, "zip-us".toList]))
      = ["required".toList, "zip-us".toList] :=
  fieldTests_join.1 ["required".toList, "zip-us".toList] (by decide) (by decide)

end Validator

/-! ## The message of a failing test -/

namespace Validator

/-- C24 (the code at the failing input). With the messages of the example configuration
of the source, which stores the text for the test spec `length:5` under the key
`length:5`, the value `abc` fails `length:5`; the variable `test` is then the array `["length"]`, and the title set
is `messages["length"]`, which is `undefined`, not `messages["length:5"]`.  A failing test
without an argument, such as `required`, finds its message. -/
theorem message_key_drops_argument :
    Messages.get
      [("required".toList, "This field is required.".toList),
       ("number".toList, "This field must be a number.".toList),
       ("email".toList, "This field must be an email address.".toList),
       ("phone-us".toList, "This field must be a valid phone number.".toList),
       ("length:5".toList, "This field must be 5 characters long.".toList)]
      "length:5".toList = some "This field must be 5 characters long.".toList ∧
    (check (some { val := "abc".toList, tests := fieldTests (some "length:5".toList) })).map
      (fun out => out.result)
      = .ok ⟨some { val := "abc".toList, tests := ["length:5".toList] }, false,
          some (.arr ["length".toList])⟩ ∧
    TestKey.text (.arr ["length".toList]) = "length".toList ∧
    checkTitle (.bool true)
      (some [("required".toList, "This field is required.".toList),
       ("number".toList, "This field must be a number.".toList),
       ("email".toList, "This field must be an email address.".toList),
       ("phone-us".toList, "This field must be a valid phone number.".toList),
       ("length:5".toList, "This field must be 5 characters long.".toList)])
      (some { val := "abc".toList, tests := fieldTests (some "length:5".toList) })
      = .ok (some none) ∧
    checkTitle (.bool true)
      (some [("required".toList, "This field is required.".toList),
       ("length:5".toList, "This field must be 5 characters long.".toList)])
      (some { val := [], tests := fieldTests (some "required".toList) })
      = .ok (some (some "This field is required.".toList)) := by
  decide!

end Validator

/-! ## The click handler of a submit button -/

namespace Validator

theorem button_async (config : ButtonConfig) :
    (Button.new config).async.truthy = false ↔ (Button.new config).async = .bool false := by
  unfold Button.new jsOr
  cases h : config.async.truthy
  · simp [JSVal.truthy]
  · simp only [if_true, h]
    constructor
    · intro h2; exact absurd h2 (by simp)
    · intro h2
      rw [h2] at h
      exact absurd h (by simp [JSVal.truthy])

/-- The constructor `Validator.Button` keeps a truthy option `async` and replaces any
other by `false`. -/
theorem button_new_async (config : ButtonConfig) :
    (Button.new config).async = (if config.async.truthy then config.async else .bool false) ∧
    ((Button.new config).async = .bool false ↔ config.async.truthy = false) := by
  refine ⟨rfl, ?_⟩
  rw [← button_async]
  unfold Button.new jsOr
  cases h : config.async.truthy
  · simp [JSVal.truthy]
  · simp only [if_true, h]

/-- C23. A click on a submit button calls `run()`.  When `run()` returns failures, the
callbacks `fail` and `always` are applied in this order, `success` is not, and the
default action does not proceed; when it returns the success sentinel, `success` and
`always` are applied in this order, `fail` is not, and the default action proceeds if and
only if the flag `async` of the button is `false`, that is, if and only if the option
`async` of the configuration of the button is omitted or falsy: the constructor keeps a
configured `true`.  When `run()` throws, so does the handler.  So, after a successful
run, a button configured with `async: true` does not proceed and a button configured
without `async`, or with `async: false`, does. -/
theorem submit_click (self : Validator) (config : ButtonConfig) :
    (∀ rs cs, run self = .ok ⟨.failures rs, cs⟩ →
      ∃ o, submitClick self (Button.new config) = .ok o ∧ o.ran = ⟨.failures rs, cs⟩ ∧
        o.calls = [.fail, .always] ∧ o.proceeds = false) ∧
    (∀ cs, run self = .ok ⟨.success, cs⟩ →
      ∃ o, submitClick self (Button.new config) = .ok o ∧ o.ran = ⟨.success, cs⟩ ∧
        o.calls = [.success, .always] ∧
        (o.proceeds = true ↔ (Button.new config).async = .bool false) ∧
        (o.proceeds = true ↔ config.async.truthy = false)) ∧
    (∀ e, run self = .error e → submitClick self (Button.new config) = .error e) ∧
    (Button.new config).async = (if config.async.truthy then config.async else .bool false) ∧
    (Button.new { async := .bool true }).async = .bool true ∧
    (Button.new { async := .bool false }).async = .bool false ∧
    (Button.new { }).async = .bool false ∧
    (submitClick ⟨[{ name := "B".toList, val := "ok".toList, tests := ["required".toList] }]⟩
        (Button.new { async := .bool true })).map
      (fun o => (o.calls, o.defaultPrevented, o.returned, o.proceeds))
      = .ok ([.success, .always], false, false, false) ∧
    (submitClick ⟨[{ name := "B".toList, val := "ok".toList, tests := ["required".toList] }]⟩
        (Button.new { })).map
      (fun o => (o.calls, o.defaultPrevented, o.returned, o.proceeds))
      = .ok ([.success, .always], false, true, true) ∧
    (submitClick ⟨[{ name := "A".toList, val := [], tests := ["required".toList] }]⟩
        (Button.new { })).map
      (fun o => (o.calls, o.defaultPrevented, o.returned, o.proceeds))
      = .ok ([.fail, .always], true, false, false) := by
  refine ⟨fun rs cs h => ?_, fun cs h => ?_, fun e h => ?_, rfl, by decide, by decide,
    by decide, by decide, by decide, by decide⟩
  · refine ⟨⟨⟨.failures rs, cs⟩, [.fail, .always], true, false⟩, ?_, rfl, rfl, rfl⟩
    simp [submitClick, h]
  · refine ⟨⟨⟨.success, cs⟩, [.success, .always], false,
      !(Button.new config).async.truthy⟩, ?_, rfl, rfl, ?_, ?_⟩
    · simp [submitClick, h]
    · rw [← button_async]
      simp [ClickOutcome.proceeds]
    · rw [← (button_new_async config).2, ← button_async]
      simp [ClickOutcome.proceeds]
  · simp [submitClick, h]

/-- An instance of C23: the field `B` (test `required`, value `ok`) passes, so `run()`
returns the success sentinel; a click on a submit button configured with `async: true`
applies `success` and `always`, and the default action does not proceed. -/
theorem submit_click_witness :
    ∃ o, submitClick
        ⟨[{ name := "B".toList, val := "ok".toList, tests := ["required".toList] }]⟩
        (Button.new { async := .bool true }) = .ok o ∧
      o.ran = ⟨.success,
         [⟨⟨some { name := "B".toList, val := "ok".toList, tests := ["required".toList] },
             true, none⟩,
           [⟨.str "required".toList, none, .bool true⟩]⟩]⟩ ∧
      o.calls = [.success, .always] ∧ o.proceeds = false :=
  match (submit_click
    ⟨[{ name := "B".toList, val := "ok".toList, tests := ["required".toList] }]⟩
    { async := .bool true }).2.1 _ (by decide) with
  | ⟨o, h1, h2, h3, _, h5⟩ =>
    ⟨o, h1, h2, h3, by
      cases hp : o.proceeds
      · rfl
      · exact absurd (h5.mp hp) (by decide)⟩

end Validator

/-! ## The scheduler -/

namespace Validator

theorem valueDiffers_iff (val : JSString) (recorded : Option FormValue) :
    valueDiffers val recorded = decide (recorded ≠ some (.single (.str val))) := by
  unfold valueDiffers
  split
  · next s =>
    by_cases h : val = s
    · subst h
      simp
    · have h2 : s ≠ val := fun e => h e.symm
      simp [h, h2]
  · next hne =>
    symm
    rw [decide_eq_true_eq]
    intro h
    exact hne val h

theorem tick_eq_due (defaults : JSObject) (fields : List TickField) :
    fields.filter (tickFilter defaults) = dueFields defaults fields := by
  unfold dueFields
  congr 1
  funext v
  unfold tickFilter
  rw [valueDiffers_iff]

theorem tickLoop_ok : ∀ (l : List TickField) (outs : List CheckOutcome),
    l.map (fun v => check (some v.field)) = outs.map Except.ok →
    tickLoop l = ⟨l, outs, none⟩ := by
  intro l
  induction l with
  | nil =>
    intro outs h
    cases outs with
    | nil => rfl
    | cons o os => simp at h
  | cons v rest ih =>
    intro outs h
    cases outs with
    | nil => simp at h
    | cons o os =>
      rw [List.map_cons, List.map_cons, List.cons.injEq] at h
      simp only [tickLoop, h.1, ih os h.2]

theorem tickLoop_prefix : ∀ l : List TickField, (tickLoop l).checked <+: l := by
  intro l
  induction l with
  | nil => exact List.prefix_refl _
  | cons v rest ih =>
    unfold tickLoop
    cases check (some v.field) with
    | error e =>
      exact ⟨rest, rfl⟩
    | ok out =>
      obtain ⟨t, ht⟩ := ih
      exact ⟨t, by simp only [List.cons_append, ht]⟩

theorem recordDefaults_get {α : Type} (name : α → JSString) (val : α → JSVal) (init : List α)
    (h : (init.map name).Nodup) (f : α) (hf : f ∈ init) :
    (recordDefaults name val init).get (name f) = some (.single (val f)) := by
  obtain ⟨pre, post, rfl, hpost⟩ := nodup_split name init h f hf
  exact foldl_set_last name (fun v => .single (val v)) pre f post [] hpost

/-- C22. One tick of the scheduler hands to `check`, in field order, exactly the fields
whose current value differs from the default recorded under their name and whose
interaction count is positive, when the check of each of them returns; in every case a
field it hands to `check` is one of these, so a field whose interaction count is 0 is
never re-checked, whatever its value.  The default recorded for a field of a validator
whose fields have distinct names is the value the field had at construction. -/
theorem tick_rechecks :
    (∀ (defaults : JSObject) (fields : List TickField) (outs : List CheckOutcome),
      (dueFields defaults fields).map (fun v => check (some v.field)) = outs.map Except.ok →
      tick defaults fields = ⟨dueFields defaults fields, outs, none⟩) ∧
    (∀ (defaults : JSObject) (fields : List TickField),
      (tick defaults fields).checked <+: dueFields defaults fields) ∧
    (∀ (defaults : JSObject) (fields : List TickField) (v : TickField),
      v ∈ (tick defaults fields).checked →
        v ∈ fields ∧ 0 < v.blurCount ∧
          defaults.get v.field.name ≠ some (.single (.str v.field.val))) ∧
    (∀ (defaults : JSObject) (fields : List TickField) (v : TickField),
      v.blurCount = 0 → v ∉ (tick defaults fields).checked) ∧
    (∀ init : List Field, (init.map fun f => f.name).Nodup → ∀ f ∈ init,
      (recordDefaults (fun f : Field => f.name) (fun f => .str f.val) init).get f.name
        = some (.single (.str f.val))) := by
  have hmem : ∀ (defaults : JSObject) (fields : List TickField) (v : TickField),
      v ∈ (tick defaults fields).checked →
        v ∈ fields ∧ 0 < v.blurCount ∧
          defaults.get v.field.name ≠ some (.single (.str v.field.val)) := by
    intro defaults fields v hv
    have hp := tickLoop_prefix (fields.filter (tickFilter defaults))
    have hv2 : v ∈ fields.filter (tickFilter defaults) := hp.subset hv
    rw [tick_eq_due] at hv2
    unfold dueFields at hv2
    rw [List.mem_filter] at hv2
    simp only [Bool.and_eq_true, decide_eq_true_eq] at hv2
    exact ⟨hv2.1, hv2.2.2, hv2.2.1⟩
  refine ⟨fun defaults fields outs h => ?_, fun defaults fields => ?_, hmem,
    fun defaults fields v h0 hv => ?_, fun init h f hf => ?_⟩
  · unfold tick
    simp only [tick_eq_due]
    exact tickLoop_ok _ outs h
  · rw [← tick_eq_due]
    exact tickLoop_prefix _
  · have := (hmem defaults fields v hv).2.1
    omega
  · exact recordDefaults_get (fun f : Field => f.name) (fun f => .str f.val) init h f hf

/-- An instance of C22: the fields `A`, `B`, `C` were constructed empty; `A` now holds
`a` and was blurred once, `B` holds `b` and was never blurred, `C` is unchanged and was
blurred twice.  A tick re-checks `A` only. -/
theorem tick_rechecks_witness :
    tick
      (recordDefaults (fun f : Field => f.name) (fun f => .str f.val)
        [{ name := "A".toList, tests := ["required".toList] },
         { name := "B".toList, tests := ["required".toList] },
         { name := "C".toList, tests := ["required".toList] }])
      [⟨{ name := "A".toList, val := "a".toList, tests := ["required".toList] }, 1⟩,
       ⟨{ name := "B".toList, val := "b".toList, tests := ["required".toList] }, 0⟩,
       ⟨{ name := "C".toList, tests := ["required".toList] }, 2⟩]
      = ⟨[⟨{ name := "A".toList, val := "a".toList, tests := ["required".toList] }, 1⟩],
         [⟨⟨some { name := "A".toList, val := "a".toList, tests := ["required".toList] },
             true, none⟩,
           [⟨.str "required".toList, none, .bool true⟩]⟩],
         none⟩ :=
  tick_rechecks.1 _ _
    [⟨⟨some { name := "A".toList, val := "a".toList, tests := ["required".toList] },
        true, none⟩,
      [⟨.str "required".toList, none, .bool true⟩]⟩]
    (by decide)

end Validator

/-! ## The method `clear` -/

namespace Validator

theorem clearField_name (defaults : JSObject) (v : FormField) :
    (clearField defaults v).name = v.name := by
  unfold clearField
  simp only
  split <;> rfl

theorem clearField_toggle (defaults : JSObject) (v : FormField) (h : v.isToggle = true) :
    (clearField defaults v).el = v.el.map fun e => { e with checked := false } := by
  unfold FormField.isToggle at h
  unfold clearField
  cases hv : v.el with
  | nil => simp [hv] at h
  | cons e t =>
    simp only [hv, decide_eq_true_eq] at h
    have h2 : e.type = some "radio".toList ∨ e.type = some "checkbox".toList := h.symm
    simp only [List.head?_cons, Option.some_bind]
    rw [if_pos h2]

theorem clearField_value (defaults : JSObject) (v : FormField) (h : v.isToggle = false) :
    (clearField defaults v).el
      = v.el.map fun e => { e with val := storedText (defaults.get v.name) } := by
  unfold FormField.isToggle at h
  unfold clearField
  cases hv : v.el with
  | nil => simp
  | cons e t =>
    simp only [hv, decide_eq_false_iff_not] at h
    have h2 : ¬ (e.type = some "radio".toList ∨ e.type = some "checkbox".toList) :=
      fun h3 => h h3.symm
    simp only [List.head?_cons, Option.some_bind]
    rw [if_neg h2]

theorem clearField_isToggle (defaults : JSObject) (v : FormField) :
    (clearField defaults v).isToggle = v.isToggle := by
  cases h : v.isToggle
  · unfold FormField.isToggle at h ⊢
    rw [clearField_value defaults v (by unfold FormField.isToggle; exact h)]
    cases hv : v.el with
    | nil => rfl
    | cons e t => simpa [hv] using h
  · unfold FormField.isToggle at h ⊢
    rw [clearField_toggle defaults v (by unfold FormField.isToggle; exact h)]
    cases hv : v.el with
    | nil => simp [hv] at h
    | cons e t => simpa [hv] using h

/-- C21. After `clear()` the validator has the same fields, in the same order.  Each is
a checkbox or a radio button exactly when it was one before, and then every element of
it is unchecked; otherwise every element of it holds the default recorded under the name
of the field, which for a validator whose fields have distinct names is the value the
field had at construction.  This holds for every state of the fields before the call;
the interaction counts are not read. -/
theorem clear_restores :
    (∀ (defaults : JSObject) (now : List FormField),
      (clear defaults now).map (fun v => v.name) = now.map (fun v => v.name)) ∧
    (∀ (defaults : JSObject) (now : List FormField) (i : Nat) (v : FormField),
      now[i]? = some v →
        ∃ w, (clear defaults now)[i]? = some w ∧ w.name = v.name ∧
          w.isToggle = v.isToggle ∧ w.el.length = v.el.length ∧
          (v.isToggle = true → ∀ e ∈ w.el, e.checked = false) ∧
          (v.isToggle = false → ∀ e ∈ w.el, e.val = storedText (defaults.get v.name))) ∧
    (∀ init : List FormField, (init.map fun f => f.name).Nodup → ∀ f ∈ init,
      (recordDefaults (fun f : FormField => f.name) (fun f => elVal f.el) init).get f.name
        = some (.single (elVal f.el))) ∧
    (∀ (init now : List FormField), (init.map fun f => f.name).Nodup →
      ∀ (i : Nat) (v f : FormField) (e0 : Element) (rest : List Element),
        now[i]? = some v → f ∈ init → f.name = v.name → f.el = e0 :: rest →
        v.isToggle = false →
        ∃ w, (clear (recordDefaults (fun f : FormField => f.name) (fun f => elVal f.el) init)
            now)[i]? = some w ∧ ∀ e ∈ w.el, e.val = e0.val) := by
  have hrec : ∀ init : List FormField, (init.map fun f => f.name).Nodup → ∀ f ∈ init,
      (recordDefaults (fun f : FormField => f.name) (fun f => elVal f.el) init).get f.name
        = some (.single (elVal f.el)) := fun init h f hf =>
    recordDefaults_get (fun f : FormField => f.name) (fun f => elVal f.el) init h f hf
  have hat : ∀ (defaults : JSObject) (now : List FormField) (i : Nat) (v : FormField),
      now[i]? = some v → (clear defaults now)[i]? = some (clearField defaults v) := by
    intro defaults now i v h
    unfold clear
    rw [List.getElem?_map, h]
    rfl
  refine ⟨fun defaults now => ?_, fun defaults now i v h => ?_, hrec,
    fun init now hn i v f e0 rest h hf hname hel ht => ?_⟩
  · unfold clear
    rw [List.map_map]
    apply List.map_congr_left
    intro v _
    exact clearField_name defaults v
  · refine ⟨clearField defaults v, hat defaults now i v h, clearField_name defaults v,
      clearField_isToggle defaults v, ?_, fun ht e he => ?_, fun ht e he => ?_⟩
    · cases ht : v.isToggle
      · rw [clearField_value defaults v ht, List.length_map]
      · rw [clearField_toggle defaults v ht, List.length_map]
    · rw [clearField_toggle defaults v ht, List.mem_map] at he
      obtain ⟨e1, _, rfl⟩ := he
      rfl
    · rw [clearField_value defaults v ht, List.mem_map] at he
      obtain ⟨e1, _, rfl⟩ := he
      rfl
  · refine ⟨_, hat _ now i v h, fun e he => ?_⟩
    rw [clearField_value _ v ht, List.mem_map] at he
    obtain ⟨e1, _, rfl⟩ := he
    rw [← hname, hrec init hn f hf, hel]
    rfl

/-- An instance of C21: a validator constructed over the text field `Name` holding `Ann`
and the unchecked checkbox `Agree`; later `Name` holds `Bob` and `Agree` is checked.
After `clear()`, `Name` holds `Ann` again. -/
theorem clear_restores_witness :
    ∃ w, (clear
        (recordDefaults (fun f : FormField => f.name) (fun f => elVal f.el)
          [⟨"Name".toList, [{ type := some "text".toList, val := "Ann".toList }]⟩,
           ⟨"Agree".toList, [{ type := some "checkbox".toList, val := "on".toList }]⟩])
        [⟨"Name".toList, [{ type := some "text".toList, val := "Bob".toList }]⟩,
         ⟨"Agree".toList,
           [{ type := some "checkbox".toList, checked := true, val := "on".toList }]⟩])[0]?
        = some w ∧ ∀ e ∈ w.el, e.val = "Ann".toList :=
  clear_restores.2.2.2
    [⟨"Name".toList, [{ type := some "text".toList, val := "Ann".toList }]⟩,
     ⟨"Agree".toList, [{ type := some "checkbox".toList, val := "on".toList }]⟩]
    [⟨"Name".toList, [{ type := some "text".toList, val := "Bob".toList }]⟩,
     ⟨"Agree".toList,
       [{ type := some "checkbox".toList, checked := true, val := "on".toList }]⟩]
    (by decide) 0
    ⟨"Name".toList, [{ type := some "text".toList, val := "Bob".toList }]⟩
    ⟨"Name".toList, [{ type := some "text".toList, val := "Ann".toList }]⟩
    { type := some "text".toList, val := "Ann".toList } []
    rfl (by decide) rfl rfl (by decide)

end Validator
